import Mathlib

/-!
# Encrypted key store of the wallet (`src/wallet/crypter.cpp`)

A shallow embedding of `CCrypter` and `CCryptoKeyStore`.

* Byte buffers (`std::vector<unsigned char>`, `CKeyingMaterial`) are lists of
  naturals; only their length and content matter here.
* `uint256` is a 32-byte blob.
* Everything that `crypter.cpp` calls but does not define (the OpenSSL EVP
  primitives, the key / seed / shielded-key classes, their serialisation and
  the orderings of the map keys) is a field of the environment `Env`.
* `std::map` is an association list kept in key order by `mapAssign` /
  `mapInsert`; iteration is list order.
* Mutexes (`LOCK`, `LOCK2`) and the `NotifyStatusChanged` signal carry no
  store state and are not represented.
-/

namespace Pirate

/-- A byte buffer. -/
abbrev Bytes := List Nat

/-- Modelled from the spec: `WALLET_CRYPTO_KEY_SIZE` is declared in `crypter.h`;
the spec fixes the master key at 32 bytes (`key[32]`). -/
def WALLET_CRYPTO_KEY_SIZE : Nat := 32

/-- Modelled from the spec: `WALLET_CRYPTO_SALT_SIZE` is declared in `crypter.h`;
the spec fixes the salt at 8 bytes (`len(salt) = 8`). -/
def WALLET_CRYPTO_SALT_SIZE : Nat := 8

/-- The AES block size of `<openssl/aes.h>`; the CBC initialisation vector that
`EVP_aes_256_cbc` reads has this many bytes. -/
def AES_BLOCK_SIZE : Nat := 16

/-- A 32-byte blob (`uint256`). -/
structure uint256 where
  bytes : Bytes
  size_eq : bytes.length = 32

instance : DecidableEq uint256 := fun a b =>
  decidable_of_iff (a.bytes = b.bytes) (by cases a; cases b; simp)

/-- The blob whose 32 bytes all equal `b`. -/
def uint256.ofByte (b : Nat) : uint256 := ⟨List.replicate 32 b, by simp⟩

/-- The default-constructed blob `uint256()`: all bytes zero. -/
def uint256.zero : uint256 := uint256.ofByte 0

/-- Test `base_blob::IsNull`: every byte is zero. -/
def uint256.IsNull (x : uint256) : Bool := x.bytes.all (fun b => b == 0)

/-- The collaborators of `crypter.cpp`: types and functions it uses but does
not define. -/
structure Env where
  /- OpenSSL -/
  /-- The calls `EVP_EncryptInit_ex(EVP_aes_256_cbc)`, `EVP_EncryptUpdate`,
  `EVP_EncryptFinal_ex` on key, IV and plaintext: `none` when one of them
  reports failure, else the `nCLen + nFLen` bytes of ciphertext. -/
  evpEncrypt : Bytes → Bytes → Bytes → Option Bytes
  /-- The calls `EVP_DecryptInit_ex`, `EVP_DecryptUpdate`, `EVP_DecryptFinal_ex`. -/
  evpDecrypt : Bytes → Bytes → Bytes → Option Bytes
  /-- The call `EVP_BytesToKey(EVP_aes_256_cbc(), EVP_sha512(), salt, data, count)`:
  the returned size and the derived key and IV. -/
  EVP_BytesToKey : Bytes → Bytes → Nat → Nat × Bytes × Bytes
  /- transparent keys -/
  CKey : Type
  CPubKey : Type
  CKeyID : Type
  /-- The bytes `key.begin() .. key.end()`. -/
  CKey_bytes : CKey → Bytes
  /-- The key after `key.Set(begin, end, fCompressed)`. -/
  CKey_Set : Bytes → Bool → CKey
  CKey_GetPubKey : CKey → CPubKey
  CKey_VerifyPubKey : CKey → CPubKey → Bool
  CPubKey_GetHash : CPubKey → uint256
  CPubKey_GetID : CPubKey → CKeyID
  CPubKey_IsCompressed : CPubKey → Bool
  /-- The order `operator<` on `CKeyID` used by the maps. -/
  CKeyID_lt : CKeyID → CKeyID → Bool
  /- HD seed -/
  HDSeed : Type
  /-- The default-constructed seed `HDSeed()`. -/
  HDSeed_default : HDSeed
  /-- The constructor `HDSeed(rawSeed)`. -/
  HDSeed_ofRaw : Bytes → HDSeed
  HDSeed_RawSeed : HDSeed → Bytes
  HDSeed_Fingerprint : HDSeed → uint256
  HDSeed_IsNull : HDSeed → Bool
  /- Sprout -/
  SproutSpendingKey : Type
  SproutPaymentAddress : Type
  ReceivingKey : Type
  ZCNoteDecryption : Type
  SerializedSproutSpendingKeySize : Nat
  /-- Serialisation `ss << sk`. -/
  SproutSpendingKey_ser : SproutSpendingKey → Bytes
  /-- Deserialisation `ss >> sk`. -/
  SproutSpendingKey_deser : Bytes → SproutSpendingKey
  SproutSpendingKey_address : SproutSpendingKey → SproutPaymentAddress
  SproutSpendingKey_receiving_key : SproutSpendingKey → ReceivingKey
  SproutPaymentAddress_GetHash : SproutPaymentAddress → uint256
  /-- The comparison `operator==` on Sprout payment addresses. -/
  SproutPaymentAddress_eq : SproutPaymentAddress → SproutPaymentAddress → Bool
  SproutPaymentAddress_lt : SproutPaymentAddress → SproutPaymentAddress → Bool
  /-- The constructor `ZCNoteDecryption(rk)`. -/
  ZCNoteDecryption_ofKey : ReceivingKey → ZCNoteDecryption
  /- Sapling -/
  SaplingExtendedSpendingKey : Type
  SaplingExtendedFullViewingKey : Type
  SaplingIncomingViewingKey : Type
  SaplingPaymentAddress : Type
  blob88 : Type
  ZIP32_XSK_SIZE : Nat
  ZIP32_XFVK_SIZE : Nat
  SaplingExtendedSpendingKey_ser : SaplingExtendedSpendingKey → Bytes
  SaplingExtendedSpendingKey_deser : Bytes → SaplingExtendedSpendingKey
  SaplingExtendedSpendingKey_ToXFVK : SaplingExtendedSpendingKey → SaplingExtendedFullViewingKey
  SaplingExtendedFullViewingKey_ser : SaplingExtendedFullViewingKey → Bytes
  SaplingExtendedFullViewingKey_deser : Bytes → SaplingExtendedFullViewingKey
  /-- The fingerprint `extfvk.fvk.GetFingerprint()`. -/
  SaplingExtendedFullViewingKey_GetFingerprint : SaplingExtendedFullViewingKey → uint256
  /-- The comparison `operator==` on extended full viewing keys. -/
  SaplingExtendedFullViewingKey_eq :
    SaplingExtendedFullViewingKey → SaplingExtendedFullViewingKey → Bool
  SaplingExtendedFullViewingKey_lt :
    SaplingExtendedFullViewingKey → SaplingExtendedFullViewingKey → Bool
  SaplingPaymentAddress_GetHash : SaplingPaymentAddress → uint256
  /-- Serialisation of `std::make_pair(ivk, addr)`. -/
  ser_ivk_addr : SaplingIncomingViewingKey → SaplingPaymentAddress → Bytes
  /-- Serialisation of `std::make_pair(std::make_pair(addr, ivk), path)`. -/
  ser_addr_ivk_path : SaplingPaymentAddress → SaplingIncomingViewingKey → blob88 → Bytes
  /- the shielded (non-secret) index of `CBasicKeyStore` -/
  /-- The maps `mapSaplingFullViewingKeys`, `mapSaplingIncomingViewingKeys` and
  `mapSaplingPaymentAddresses` of `CBasicKeyStore` (keystore.h is not among the
  sources), taken together. -/
  ShieldedIndex : Type
  /-- The values of `mapSaplingFullViewingKeys` in iteration order. -/
  fullViewingKeys : ShieldedIndex → List SaplingExtendedFullViewingKey
  /-- The entries of `mapSaplingIncomingViewingKeys` in iteration order. -/
  incomingViewingKeys : ShieldedIndex → List (SaplingPaymentAddress × SaplingIncomingViewingKey)
  /-- The entries of `mapSaplingPaymentAddresses` in iteration order. -/
  paymentAddresses :
    ShieldedIndex → List (SaplingPaymentAddress × (SaplingIncomingViewingKey × blob88))
  /-- The method `CBasicKeyStore::AddSaplingExtendedFullViewingKey`. -/
  Basic_AddSaplingExtendedFullViewingKey :
    SaplingExtendedFullViewingKey → ShieldedIndex → Bool × ShieldedIndex
  /-- The method `CBasicKeyStore::AddSaplingIncomingViewingKey`. -/
  Basic_AddSaplingIncomingViewingKey :
    SaplingIncomingViewingKey → SaplingPaymentAddress → ShieldedIndex → Bool × ShieldedIndex
  /-- The method `CBasicKeyStore::AddSaplingDiversifiedAddress`. -/
  Basic_AddSaplingDiversifiedAddress :
    SaplingPaymentAddress → SaplingIncomingViewingKey → blob88 → ShieldedIndex →
      Bool × ShieldedIndex
  /-- The shielded index of a newly constructed store: the three maps are empty. -/
  emptyIndex : ShieldedIndex
  /-- Deserialisation `ss >> ivk; ss >> addr`. -/
  deser_ivk_addr : Bytes → SaplingIncomingViewingKey × SaplingPaymentAddress
  /-- Deserialisation `ss >> addr; ss >> ivk; ss >> path`. -/
  deser_addr_ivk_path :
    Bytes → SaplingPaymentAddress × (SaplingIncomingViewingKey × blob88)

/-! ## `std::map` -/

/-- Lookup `m.find(k)`: the value of the first entry whose key is equivalent to
`k` under the order `lt`. -/
def mapFind {K V : Type} (lt : K → K → Bool) : List (K × V) → K → Option V
  | [], _ => none
  | (k', v) :: r, k => if !lt k' k && !lt k k' then some v else mapFind lt r k

/-- Assignment `m[k] = v`: a new entry is placed in key order; an entry with an
equivalent key keeps its key and takes the new value. -/
def mapAssign {K V : Type} (lt : K → K → Bool) : List (K × V) → K → V → List (K × V)
  | [], k, v => [(k, v)]
  | (k', v') :: r, k, v =>
    if lt k k' then (k, v) :: (k', v') :: r
    else if lt k' k then (k', v') :: mapAssign lt r k v
    else (k', v) :: r

/-- Insertion `m.insert(make_pair(k, v))`: as `mapAssign`, but an entry with an
equivalent key is left as it is. -/
def mapInsert {K V : Type} (lt : K → K → Bool) : List (K × V) → K → V → List (K × V)
  | [], k, v => [(k, v)]
  | (k', v') :: r, k, v =>
    if lt k k' then (k, v) :: (k', v') :: r
    else if lt k' k then (k', v') :: mapInsert lt r k v
    else (k', v') :: r

/-! ## `CCrypter` -/

/-- The state of a `CCrypter`: key buffer, IV buffer and the `fKeySet` flag. -/
structure CCrypter where
  chKey : Bytes
  chIV : Bytes
  fKeySet : Bool

/-- A freshly constructed `CCrypter`: no key set. -/
def CCrypter.fresh : CCrypter := ⟨[], [], false⟩

/-- Method `CCrypter::SetKey`: both the key and the IV vector must have
`WALLET_CRYPTO_KEY_SIZE` bytes; then they are copied and `fKeySet` is set. -/
def CCrypter.SetKey (c : CCrypter) (chNewKey chNewIV : Bytes) : Bool × CCrypter :=
  if chNewKey.length != WALLET_CRYPTO_KEY_SIZE || chNewIV.length != WALLET_CRYPTO_KEY_SIZE then
    (false, c)
  else
    (true, { chKey := chNewKey, chIV := chNewIV, fKeySet := true })

/-- Method `CCrypter::Encrypt`: fails when no key is set or an EVP call fails.
AES-256-CBC reads `AES_BLOCK_SIZE` bytes of the IV buffer. -/
def CCrypter.Encrypt (E : Env) (c : CCrypter) (vchPlaintext : Bytes) : Option Bytes :=
  if !c.fKeySet then none
  else E.evpEncrypt c.chKey (c.chIV.take AES_BLOCK_SIZE) vchPlaintext

/-- Method `CCrypter::Decrypt`: fails when no key is set or an EVP call fails. -/
def CCrypter.Decrypt (E : Env) (c : CCrypter) (vchCiphertext : Bytes) : Option Bytes :=
  if !c.fKeySet then none
  else E.evpDecrypt c.chKey (c.chIV.take AES_BLOCK_SIZE) vchCiphertext

/-- Function `EncryptSecret`: the 32 bytes of `nIV` are copied into the IV vector,
`SetKey` must accept the master key, then `Encrypt`. -/
def EncryptSecret (E : Env) (vMasterKey vchPlaintext : Bytes) (nIV : uint256) : Option Bytes :=
  match CCrypter.fresh.SetKey vMasterKey nIV.bytes with
  | (false, _) => none
  | (true, cKeyCrypter) => cKeyCrypter.Encrypt E vchPlaintext

/-- Function `DecryptSecret`: as `EncryptSecret`, with `Decrypt`. -/
def DecryptSecret (E : Env) (vMasterKey vchCiphertext : Bytes) (nIV : uint256) : Option Bytes :=
  match CCrypter.fresh.SetKey vMasterKey nIV.bytes with
  | (false, _) => none
  | (true, cKeyCrypter) => cKeyCrypter.Decrypt E vchCiphertext

/-! ## Typed decryption

Each function returns the C++ return value together with the value written to
its output parameter (`none`: the output parameter was not written). -/

/-- Function `DecryptHDSeed`. -/
def DecryptHDSeed (E : Env) (vMasterKey vchCryptedSecret : Bytes) (seedFp : uint256) :
    Bool × Option E.HDSeed :=
  match DecryptSecret E vMasterKey vchCryptedSecret seedFp with
  | none => (false, none)
  | some vchSecret =>
    let seed := E.HDSeed_ofRaw vchSecret
    (E.HDSeed_Fingerprint seed == seedFp, some seed)

/-- Function `DecryptKey`. -/
def DecryptKey (E : Env) (vMasterKey vchCryptedSecret : Bytes) (vchPubKey : E.CPubKey) :
    Bool × Option E.CKey :=
  match DecryptSecret E vMasterKey vchCryptedSecret (E.CPubKey_GetHash vchPubKey) with
  | none => (false, none)
  | some vchSecret =>
    if vchSecret.length != 32 then (false, none)
    else
      let key := E.CKey_Set vchSecret (E.CPubKey_IsCompressed vchPubKey)
      (E.CKey_VerifyPubKey key vchPubKey, some key)

/-- Function `DecryptSproutSpendingKey`. -/
def DecryptSproutSpendingKey (E : Env) (vMasterKey vchCryptedSecret : Bytes)
    (address : E.SproutPaymentAddress) : Bool × Option E.SproutSpendingKey :=
  match DecryptSecret E vMasterKey vchCryptedSecret (E.SproutPaymentAddress_GetHash address) with
  | none => (false, none)
  | some vchSecret =>
    if vchSecret.length != E.SerializedSproutSpendingKeySize then (false, none)
    else
      let sk := E.SproutSpendingKey_deser vchSecret
      (E.SproutPaymentAddress_eq (E.SproutSpendingKey_address sk) address, some sk)

/-- Function `DecryptSaplingSpendingKey`. -/
def DecryptSaplingSpendingKey (E : Env) (vMasterKey vchCryptedSecret : Bytes)
    (extfvkFinger : uint256) : Bool × Option E.SaplingExtendedSpendingKey :=
  match DecryptSecret E vMasterKey vchCryptedSecret extfvkFinger with
  | none => (false, none)
  | some vchSecret =>
    if vchSecret.length != E.ZIP32_XSK_SIZE then (false, none)
    else
      let sk := E.SaplingExtendedSpendingKey_deser vchSecret
      (E.SaplingExtendedFullViewingKey_GetFingerprint (E.SaplingExtendedSpendingKey_ToXFVK sk)
          == extfvkFinger, some sk)

/-- Function `DecryptSaplingExtendedFullViewingKey`. -/
def DecryptSaplingExtendedFullViewingKey (E : Env) (vMasterKey vchCryptedSecret : Bytes)
    (extfvkFinger : uint256) : Bool × Option E.SaplingExtendedFullViewingKey :=
  match DecryptSecret E vMasterKey vchCryptedSecret extfvkFinger with
  | none => (false, none)
  | some vchSecret =>
    if vchSecret.length != E.ZIP32_XFVK_SIZE then (false, none)
    else
      let extfvk := E.SaplingExtendedFullViewingKey_deser vchSecret
      (E.SaplingExtendedFullViewingKey_GetFingerprint extfvk == extfvkFinger, some extfvk)

/-! ## `CCryptoKeyStore` -/

/-- The state of a `CCryptoKeyStore`: the members of `CBasicKeyStore` that
`crypter.cpp` reads or writes, followed by the members of `CCryptoKeyStore`. -/
structure CCryptoKeyStore (E : Env) where
  hdSeed : E.HDSeed
  mapKeys : List (E.CKeyID × E.CKey)
  mapSproutSpendingKeys : List (E.SproutPaymentAddress × E.SproutSpendingKey)
  mapSaplingSpendingKeys :
    List (E.SaplingExtendedFullViewingKey × E.SaplingExtendedSpendingKey)
  mapNoteDecryptors : List (E.SproutPaymentAddress × E.ZCNoteDecryption)
  shielded : E.ShieldedIndex
  fUseCrypto : Bool
  fDecryptionThoroughlyChecked : Bool
  vMasterKey : Bytes
  cryptedHDSeed : uint256 × Bytes
  mapCryptedKeys : List (E.CKeyID × (E.CPubKey × Bytes))
  mapCryptedSproutSpendingKeys : List (E.SproutPaymentAddress × Bytes)
  mapCryptedSaplingSpendingKeys : List (E.SaplingExtendedFullViewingKey × Bytes)

namespace CCryptoKeyStore

variable {E : Env}

/-- Modelled from the spec: `IsCrypted` is defined in `crypter.h`, which is not
among the sources. "true iff mode is not Plaintext"; the mode flag of the code
is `fUseCrypto`. -/
def IsCrypted (s : CCryptoKeyStore E) : Bool := s.fUseCrypto

/-- Modelled from the spec: `IsLocked` is defined in `crypter.h`, which is not
among the sources. "true iff mode = EncryptedLocked", where the master key is
present iff the mode is EncryptedUnlocked: encrypted and no master key held. -/
def IsLocked (s : CCryptoKeyStore E) : Bool := s.IsCrypted && s.vMasterKey.isEmpty

/-- Method `CCryptoKeyStore::SetCrypted`. -/
def SetCrypted (s : CCryptoKeyStore E) : Bool × CCryptoKeyStore E :=
  if s.fUseCrypto then (true, s)
  else if !(s.mapKeys.isEmpty && s.mapSproutSpendingKeys.isEmpty
      && s.mapSaplingSpendingKeys.isEmpty) then (false, s)
  else (true, { s with fUseCrypto := true })

/-- Method `CCryptoKeyStore::Lock`. -/
def Lock (s : CCryptoKeyStore E) : Bool × CCryptoKeyStore E :=
  match s.SetCrypted with
  | (false, s1) => (false, s1)
  | (true, s1) => (true, { s1 with vMasterKey := [] })

/-- What a call of `Unlock` does: it returns a value, or it stops the process at
`assert(false)`. -/
inductive UnlockResult (E : Env) where
  | returned (ok : Bool) (s : CCryptoKeyStore E)
  | assertFailed

/-- One of the three record loops of `Unlock`, on the pair `(keyPass, keyFail)`:
a record that fails sets `keyFail` and leaves the loop; a record that passes
sets `keyPass`, and leaves the loop when `fDecryptionThoroughlyChecked`. -/
def unlockScan {α : Type} (check : α → Bool) (fChecked : Bool) :
    List α → Bool × Bool → Bool × Bool
  | [], pf => pf
  | x :: xs, (keyPass, keyFail) =>
    if !check x then (keyPass, true)
    else if fChecked then (true, keyFail)
    else unlockScan check fChecked xs (true, keyFail)

/-- The check of `Unlock` on the crypted HD seed. -/
def checkHDSeed (E : Env) (vMasterKeyIn : Bytes) (e : uint256 × Bytes) : Bool :=
  (DecryptHDSeed E vMasterKeyIn e.2 e.1).1

/-- The check of `Unlock` on an entry of `mapCryptedKeys`. -/
def checkKey (E : Env) (vMasterKeyIn : Bytes) (e : E.CKeyID × (E.CPubKey × Bytes)) : Bool :=
  (DecryptKey E vMasterKeyIn e.2.2 e.2.1).1

/-- The check of `Unlock` on an entry of `mapCryptedSproutSpendingKeys`. -/
def checkSprout (E : Env) (vMasterKeyIn : Bytes) (e : E.SproutPaymentAddress × Bytes) : Bool :=
  (DecryptSproutSpendingKey E vMasterKeyIn e.2 e.1).1

/-- The check of `Unlock` on an entry of `mapCryptedSaplingSpendingKeys`. -/
def checkSapling (E : Env) (vMasterKeyIn : Bytes)
    (e : E.SaplingExtendedFullViewingKey × Bytes) : Bool :=
  (DecryptSaplingSpendingKey E vMasterKeyIn e.2
    (E.SaplingExtendedFullViewingKey_GetFingerprint e.1)).1

/-- The pair `(keyPass, keyFail)` of `Unlock` after the HD seed and the three
record loops. -/
def unlockFlags (vMasterKeyIn : Bytes) (s : CCryptoKeyStore E) : Bool × Bool :=
  let pf0 : Bool × Bool :=
    if !s.cryptedHDSeed.1.IsNull then
      (if !checkHDSeed E vMasterKeyIn s.cryptedHDSeed then (false, true) else (true, false))
    else (false, false)
  let pf1 := unlockScan (checkKey E vMasterKeyIn) s.fDecryptionThoroughlyChecked
    s.mapCryptedKeys pf0
  let pf2 := unlockScan (checkSprout E vMasterKeyIn) s.fDecryptionThoroughlyChecked
    s.mapCryptedSproutSpendingKeys pf1
  unlockScan (checkSapling E vMasterKeyIn) s.fDecryptionThoroughlyChecked
    s.mapCryptedSaplingSpendingKeys pf2

/-- Method `CCryptoKeyStore::Unlock`. -/
def Unlock (vMasterKeyIn : Bytes) (s : CCryptoKeyStore E) : UnlockResult E :=
  match s.SetCrypted with
  | (false, s1) => .returned false s1
  | (true, s1) =>
    match unlockFlags vMasterKeyIn s1 with
    | (keyPass, keyFail) =>
      if keyPass && keyFail then .assertFailed
      else if keyFail || !keyPass then .returned false s1
      else .returned true
        { s1 with vMasterKey := vMasterKeyIn, fDecryptionThoroughlyChecked := true }

/-- Method `CCryptoKeyStore::SetCryptedHDSeed`. -/
def SetCryptedHDSeed (seedFp : uint256) (vchCryptedSecret : Bytes) (s : CCryptoKeyStore E) :
    Bool × CCryptoKeyStore E :=
  if !s.IsCrypted then (false, s)
  else if !s.cryptedHDSeed.1.IsNull then (false, s)
  else (true, { s with cryptedHDSeed := (seedFp, vchCryptedSecret) })

/-- Modelled from the spec: `CBasicKeyStore::HaveHDSeed` (keystore.cpp is not
among the sources): a seed exists in the plaintext representation. -/
def Basic_HaveHDSeed (s : CCryptoKeyStore E) : Bool := !E.HDSeed_IsNull s.hdSeed

/-- Modelled from the spec: `CBasicKeyStore::GetHDSeed` (keystore.cpp is not
among the sources): the plaintext seed, when one exists. -/
def Basic_GetHDSeed (s : CCryptoKeyStore E) : Bool × Option E.HDSeed :=
  if E.HDSeed_IsNull s.hdSeed then (false, none) else (true, some s.hdSeed)

/-- Modelled from the spec: `CBasicKeyStore::GetKey` (keystore.cpp is not among
the sources): lookup in the typed map `mapKeys`. -/
def Basic_GetKey (address : E.CKeyID) (s : CCryptoKeyStore E) : Bool × Option E.CKey :=
  match mapFind E.CKeyID_lt s.mapKeys address with
  | some k => (true, some k)
  | none => (false, none)

/-- Modelled from the spec: `CBasicKeyStore::GetSproutSpendingKey` (keystore.cpp
is not among the sources): lookup in the typed map `mapSproutSpendingKeys`. -/
def Basic_GetSproutSpendingKey (address : E.SproutPaymentAddress) (s : CCryptoKeyStore E) :
    Bool × Option E.SproutSpendingKey :=
  match mapFind E.SproutPaymentAddress_lt s.mapSproutSpendingKeys address with
  | some k => (true, some k)
  | none => (false, none)

/-- Modelled from the spec: `CBasicKeyStore::GetSaplingSpendingKey` (keystore.cpp
is not among the sources): lookup in the typed map `mapSaplingSpendingKeys`. -/
def Basic_GetSaplingSpendingKey (extfvk : E.SaplingExtendedFullViewingKey)
    (s : CCryptoKeyStore E) : Bool × Option E.SaplingExtendedSpendingKey :=
  match mapFind E.SaplingExtendedFullViewingKey_lt s.mapSaplingSpendingKeys extfvk with
  | some k => (true, some k)
  | none => (false, none)

/-- Method `CCryptoKeyStore::HaveHDSeed`. -/
def HaveHDSeed (s : CCryptoKeyStore E) : Bool :=
  if !s.IsCrypted then s.Basic_HaveHDSeed
  else !s.cryptedHDSeed.2.isEmpty

/-- Method `CCryptoKeyStore::GetHDSeed`. -/
def GetHDSeed (s : CCryptoKeyStore E) : Bool × Option E.HDSeed :=
  if !s.IsCrypted then s.Basic_GetHDSeed
  else if s.cryptedHDSeed.2.isEmpty then (false, none)
  else DecryptHDSeed E s.vMasterKey s.cryptedHDSeed.2 s.cryptedHDSeed.1

/-- Method `CCryptoKeyStore::AddCryptedKey`. -/
def AddCryptedKey (vchPubKey : E.CPubKey) (vchCryptedSecret : Bytes) (s : CCryptoKeyStore E) :
    Bool × CCryptoKeyStore E :=
  match s.SetCrypted with
  | (false, s1) => (false, s1)
  | (true, s1) =>
    (true, { s1 with
      mapCryptedKeys :=
        mapAssign E.CKeyID_lt s1.mapCryptedKeys (E.CPubKey_GetID vchPubKey)
          (vchPubKey, vchCryptedSecret) })

/-- Method `CCryptoKeyStore::GetKey`. -/
def GetKey (address : E.CKeyID) (s : CCryptoKeyStore E) : Bool × Option E.CKey :=
  if !s.IsCrypted then s.Basic_GetKey address
  else
    match mapFind E.CKeyID_lt s.mapCryptedKeys address with
    | some (vchPubKey, vchCryptedSecret) =>
      DecryptKey E s.vMasterKey vchCryptedSecret vchPubKey
    | none => (false, none)

/-- Method `CCryptoKeyStore::AddCryptedSproutSpendingKey`. -/
def AddCryptedSproutSpendingKey (address : E.SproutPaymentAddress) (rk : E.ReceivingKey)
    (vchCryptedSecret : Bytes) (s : CCryptoKeyStore E) : Bool × CCryptoKeyStore E :=
  match s.SetCrypted with
  | (false, s1) => (false, s1)
  | (true, s1) =>
    (true, { s1 with
      mapCryptedSproutSpendingKeys :=
        mapAssign E.SproutPaymentAddress_lt s1.mapCryptedSproutSpendingKeys address
          vchCryptedSecret,
      mapNoteDecryptors :=
        mapInsert E.SproutPaymentAddress_lt s1.mapNoteDecryptors address
          (E.ZCNoteDecryption_ofKey rk) })

/-- Method `CCryptoKeyStore::AddCryptedSaplingSpendingKey`. -/
def AddCryptedSaplingSpendingKey (extfvk : E.SaplingExtendedFullViewingKey)
    (vchCryptedSecret : Bytes) (s : CCryptoKeyStore E) : Bool × CCryptoKeyStore E :=
  match s.SetCrypted with
  | (false, s1) => (false, s1)
  | (true, s1) =>
    match E.Basic_AddSaplingExtendedFullViewingKey extfvk s1.shielded with
    | (false, idx) => (false, { s1 with shielded := idx })
    | (true, idx) =>
      (true, { s1 with
        shielded := idx,
        mapCryptedSaplingSpendingKeys :=
          mapAssign E.SaplingExtendedFullViewingKey_lt s1.mapCryptedSaplingSpendingKeys extfvk
            vchCryptedSecret })

/-- Method `CCryptoKeyStore::AddCryptedSaplingExtendedFullViewingKey`. -/
def AddCryptedSaplingExtendedFullViewingKey (extfvk : E.SaplingExtendedFullViewingKey)
    (_vchCryptedSecret : Bytes) (s : CCryptoKeyStore E) : Bool × CCryptoKeyStore E :=
  if !s.IsCrypted then (false, s)
  else
    match E.Basic_AddSaplingExtendedFullViewingKey extfvk s.shielded with
    | (ok, idx) => (ok, { s with shielded := idx })

/-- Method `CCryptoKeyStore::AddCryptedSaplingPaymentAddress`. -/
def AddCryptedSaplingPaymentAddress (ivk : E.SaplingIncomingViewingKey)
    (addr : E.SaplingPaymentAddress) (_vchCryptedSecret : Bytes) (s : CCryptoKeyStore E) :
    Bool × CCryptoKeyStore E :=
  match s.SetCrypted with
  | (false, s1) => (false, s1)
  | (true, s1) =>
    match E.Basic_AddSaplingIncomingViewingKey ivk addr s1.shielded with
    | (ok, idx) => (ok, { s1 with shielded := idx })

/-- Method `CCryptoKeyStore::AddCryptedSaplingDiversifiedAddress`. -/
def AddCryptedSaplingDiversifiedAddress (ivk : E.SaplingIncomingViewingKey)
    (addr : E.SaplingPaymentAddress) (path : E.blob88) (_vchCryptedSecret : Bytes)
    (s : CCryptoKeyStore E) : Bool × CCryptoKeyStore E :=
  match s.SetCrypted with
  | (false, s1) => (false, s1)
  | (true, s1) =>
    match E.Basic_AddSaplingDiversifiedAddress addr ivk path s1.shielded with
    | (ok, idx) => (ok, { s1 with shielded := idx })

/-- Method `CCryptoKeyStore::EncryptSaplingPaymentAddress` (with explicit master key). -/
def EncryptSaplingPaymentAddress (E : Env) (ivk : E.SaplingIncomingViewingKey)
    (addr : E.SaplingPaymentAddress) (vMasterKeyIn : Bytes) : Option Bytes :=
  EncryptSecret E vMasterKeyIn (E.ser_ivk_addr ivk addr) (E.SaplingPaymentAddress_GetHash addr)

/-- Method `CCryptoKeyStore::EncryptSaplingDiversifiedAddress` (with explicit master key). -/
def EncryptSaplingDiversifiedAddress (E : Env) (addr : E.SaplingPaymentAddress)
    (ivk : E.SaplingIncomingViewingKey) (path : E.blob88) (vMasterKeyIn : Bytes) :
    Option Bytes :=
  EncryptSecret E vMasterKeyIn (E.ser_addr_ivk_path addr ivk path)
    (E.SaplingPaymentAddress_GetHash addr)

/-- Method `CCryptoKeyStore::DecryptWalletTransaction`: `some` plaintext when it
returns true. -/
def DecryptWalletTransaction (chash : uint256) (vchCryptedSecret : Bytes)
    (s : CCryptoKeyStore E) : Option Bytes :=
  DecryptSecret E s.vMasterKey vchCryptedSecret chash

/-- Method `CCryptoKeyStore::GetSproutSpendingKey`. -/
def GetSproutSpendingKey (address : E.SproutPaymentAddress) (s : CCryptoKeyStore E) :
    Bool × Option E.SproutSpendingKey :=
  if !s.IsCrypted then s.Basic_GetSproutSpendingKey address
  else
    match mapFind E.SproutPaymentAddress_lt s.mapCryptedSproutSpendingKeys address with
    | some vchCryptedSecret => DecryptSproutSpendingKey E s.vMasterKey vchCryptedSecret address
    | none => (false, none)

/-- Method `CCryptoKeyStore::GetSaplingSpendingKey`: the crypted map is searched
entry by entry with `operator==`. -/
def GetSaplingSpendingKey (extfvk : E.SaplingExtendedFullViewingKey) (s : CCryptoKeyStore E) :
    Bool × Option E.SaplingExtendedSpendingKey :=
  if !s.IsCrypted then s.Basic_GetSaplingSpendingKey extfvk
  else
    match s.mapCryptedSaplingSpendingKeys.find?
        (fun entry => E.SaplingExtendedFullViewingKey_eq entry.1 extfvk) with
    | some entry =>
      DecryptSaplingSpendingKey E s.vMasterKey entry.2
        (E.SaplingExtendedFullViewingKey_GetFingerprint entry.1)
    | none => (false, none)

/-- Modelled from the spec: `CCryptoKeyStore::HaveSaplingSpendingKey` is defined
in `crypter.h`, which is not among the sources. "Has": in plaintext mode the
typed map of the basic store holds the key, in encrypted mode the crypted map
does (searched like `GetSaplingSpendingKey`). -/
def HaveSaplingSpendingKey (extfvk : E.SaplingExtendedFullViewingKey) (s : CCryptoKeyStore E) :
    Bool :=
  if !s.IsCrypted then
    (mapFind E.SaplingExtendedFullViewingKey_lt s.mapSaplingSpendingKeys extfvk).isSome
  else
    s.mapCryptedSaplingSpendingKeys.any
      (fun entry => E.SaplingExtendedFullViewingKey_eq entry.1 extfvk)

/-! ### `EncryptKeys` -/

/-- A `BOOST_FOREACH` loop whose body returns from the enclosing function with
`false` when it fails: the entries are visited in order until a body fails. -/
def forEachOk {α σ : Type} (body : α → σ → Bool × σ) : List α → σ → Bool × σ
  | [], s => (true, s)
  | x :: xs, s =>
    match body x s with
    | (false, s1) => (false, s1)
    | (true, s1) => forEachOk body xs s1

/-- The HD seed block of `EncryptKeys`: a non-null plaintext seed is encrypted
under its fingerprint, stored with `SetCryptedHDSeed`, and then reset. -/
def EncryptKeys_hdSeed (vMasterKeyIn : Bytes) (s : CCryptoKeyStore E) :
    Bool × CCryptoKeyStore E :=
  if !E.HDSeed_IsNull s.hdSeed then
    let seedFp := E.HDSeed_Fingerprint s.hdSeed
    match EncryptSecret E vMasterKeyIn (E.HDSeed_RawSeed s.hdSeed) seedFp with
    | none => (false, s)
    | some vchCryptedSecret =>
      match s.SetCryptedHDSeed seedFp vchCryptedSecret with
      | (false, s1) => (false, s1)
      | (true, s1) => (true, { s1 with hdSeed := E.HDSeed_default })
  else (true, s)

/-- The body of the loop of `EncryptKeys` over `mapKeys`. -/
def EncryptKeys_key (vMasterKeyIn : Bytes) (mKey : E.CKeyID × E.CKey)
    (s : CCryptoKeyStore E) : Bool × CCryptoKeyStore E :=
  let vchPubKey := E.CKey_GetPubKey mKey.2
  match EncryptSecret E vMasterKeyIn (E.CKey_bytes mKey.2) (E.CPubKey_GetHash vchPubKey) with
  | none => (false, s)
  | some vchCryptedSecret => s.AddCryptedKey vchPubKey vchCryptedSecret

/-- The body of the loop of `EncryptKeys` over `mapSproutSpendingKeys`. -/
def EncryptKeys_sprout (vMasterKeyIn : Bytes)
    (m : E.SproutPaymentAddress × E.SproutSpendingKey) (s : CCryptoKeyStore E) :
    Bool × CCryptoKeyStore E :=
  let address := E.SproutSpendingKey_address m.2
  match EncryptSecret E vMasterKeyIn (E.SproutSpendingKey_ser m.2)
      (E.SproutPaymentAddress_GetHash address) with
  | none => (false, s)
  | some vchCryptedSecret =>
    s.AddCryptedSproutSpendingKey address (E.SproutSpendingKey_receiving_key m.2)
      vchCryptedSecret

/-- The body of the loop of `EncryptKeys` over `mapSaplingSpendingKeys`. -/
def EncryptKeys_sapling (vMasterKeyIn : Bytes)
    (m : E.SaplingExtendedFullViewingKey × E.SaplingExtendedSpendingKey)
    (s : CCryptoKeyStore E) : Bool × CCryptoKeyStore E :=
  let extfvk := E.SaplingExtendedSpendingKey_ToXFVK m.2
  match EncryptSecret E vMasterKeyIn (E.SaplingExtendedSpendingKey_ser m.2)
      (E.SaplingExtendedFullViewingKey_GetFingerprint extfvk) with
  | none => (false, s)
  | some vchCryptedSecret => s.AddCryptedSaplingSpendingKey extfvk vchCryptedSecret

/-- The body of the loop of `EncryptKeys` over `mapSaplingFullViewingKeys`. -/
def EncryptKeys_extfvk (vMasterKeyIn : Bytes) (extfvk : E.SaplingExtendedFullViewingKey)
    (s : CCryptoKeyStore E) : Bool × CCryptoKeyStore E :=
  if !s.HaveSaplingSpendingKey extfvk then
    match EncryptSecret E vMasterKeyIn (E.SaplingExtendedFullViewingKey_ser extfvk)
        (E.SaplingExtendedFullViewingKey_GetFingerprint extfvk) with
    | none => (false, s)
    | some vchCryptedSecret => s.AddCryptedSaplingExtendedFullViewingKey extfvk vchCryptedSecret
  else (true, s)

/-- The body of the loop of `EncryptKeys` over `mapSaplingIncomingViewingKeys`. -/
def EncryptKeys_ivk (vMasterKeyIn : Bytes)
    (m : E.SaplingPaymentAddress × E.SaplingIncomingViewingKey) (s : CCryptoKeyStore E) :
    Bool × CCryptoKeyStore E :=
  match EncryptSaplingPaymentAddress E m.2 m.1 vMasterKeyIn with
  | none => (false, s)
  | some vchCryptedSecret => s.AddCryptedSaplingPaymentAddress m.2 m.1 vchCryptedSecret

/-- The body of the loop of `EncryptKeys` over `mapSaplingPaymentAddresses`. -/
def EncryptKeys_path (vMasterKeyIn : Bytes)
    (m : E.SaplingPaymentAddress × (E.SaplingIncomingViewingKey × E.blob88))
    (s : CCryptoKeyStore E) : Bool × CCryptoKeyStore E :=
  match EncryptSaplingDiversifiedAddress E m.1 m.2.1 m.2.2 vMasterKeyIn with
  | none => (false, s)
  | some vchCryptedSecret =>
    s.AddCryptedSaplingDiversifiedAddress m.2.1 m.1 m.2.2 vchCryptedSecret

/-- The three loops of `EncryptKeys` over the shielded index of the basic store
(full viewing keys, incoming viewing keys, diversified addresses). Each body
adds again an entry that the index already holds; the loop visits the entries
the index held when the loop was entered. -/
def EncryptKeys_index (vMasterKeyIn : Bytes) (s : CCryptoKeyStore E) :
    Bool × CCryptoKeyStore E :=
  match forEachOk (EncryptKeys_extfvk vMasterKeyIn) (E.fullViewingKeys s.shielded) s with
  | (false, s1) => (false, s1)
  | (true, s1) =>
    match forEachOk (EncryptKeys_ivk vMasterKeyIn) (E.incomingViewingKeys s1.shielded) s1 with
    | (false, s2) => (false, s2)
    | (true, s2) =>
      forEachOk (EncryptKeys_path vMasterKeyIn) (E.paymentAddresses s2.shielded) s2

/-- Method `CCryptoKeyStore::EncryptKeys`. The master key argument is used for
the encryptions only; `vMasterKey` is not assigned. -/
def EncryptKeys (vMasterKeyIn : Bytes) (s : CCryptoKeyStore E) : Bool × CCryptoKeyStore E :=
  if !s.mapCryptedKeys.isEmpty || s.IsCrypted then (false, s)
  else
    match EncryptKeys_hdSeed vMasterKeyIn { s with fUseCrypto := true } with
    | (false, s1) => (false, s1)
    | (true, s1) =>
      match forEachOk (EncryptKeys_key vMasterKeyIn) s1.mapKeys s1 with
      | (false, s2) => (false, s2)
      | (true, s2) =>
        match forEachOk (EncryptKeys_sprout vMasterKeyIn) s2.mapSproutSpendingKeys
            { s2 with mapKeys := [] } with
        | (false, s3) => (false, s3)
        | (true, s3) =>
          match forEachOk (EncryptKeys_sapling vMasterKeyIn) s3.mapSaplingSpendingKeys
              { s3 with mapSproutSpendingKeys := [] } with
          | (false, s4) => (false, s4)
          | (true, s4) =>
            match EncryptKeys_index vMasterKeyIn s4 with
            | (false, s5) => (false, s5)
            | (true, s5) => (true, { s5 with mapSaplingSpendingKeys := [] })

end CCryptoKeyStore

/-! ## A small concrete environment

Used to evaluate the operations on concrete stores. Keys, seeds and addresses
are numbers or byte strings; the cipher writes key and IV in front of the
plaintext and checks them on decryption. -/

/-- A concrete shielded index: three lists. -/
structure ToyIndex where
  fvks : List Nat
  ivks : List (Nat × Nat)
  paths : List (Nat × (Nat × Nat))

/-- The concrete environment. -/
def toyEnv : Env where
  evpEncrypt := fun key iv pt => some (key ++ iv ++ pt)
  evpDecrypt := fun key iv ct =>
    if (key ++ iv).isPrefixOf ct then some (ct.drop (key ++ iv).length) else none
  EVP_BytesToKey := fun salt data count =>
    (32, List.replicate 32 (salt.sum + data.sum + count), List.replicate 32 count)
  CKey := Nat × Bool
  CPubKey := Nat × Bool
  CKeyID := Nat
  CKey_bytes := fun k => List.replicate 32 k.1
  CKey_Set := fun b c => (b.headD 0, c)
  CKey_GetPubKey := fun k => k
  CKey_VerifyPubKey := fun k p => k.1 == p.1 && k.2 == p.2
  CPubKey_GetHash := fun p => uint256.ofByte p.1
  CPubKey_GetID := fun p => p.1
  CPubKey_IsCompressed := fun p => p.2
  CKeyID_lt := fun a b => decide (a < b)
  HDSeed := Bytes
  HDSeed_default := []
  HDSeed_ofRaw := fun b => b
  HDSeed_RawSeed := fun b => b
  HDSeed_Fingerprint := fun b => uint256.ofByte b.length
  HDSeed_IsNull := fun b => b.isEmpty
  SproutSpendingKey := Nat
  SproutPaymentAddress := Nat
  ReceivingKey := Nat
  ZCNoteDecryption := Nat
  SerializedSproutSpendingKeySize := 4
  SproutSpendingKey_ser := fun sk => List.replicate 4 sk
  SproutSpendingKey_deser := fun b => b.headD 0
  SproutSpendingKey_address := fun sk => sk
  SproutSpendingKey_receiving_key := fun sk => sk
  SproutPaymentAddress_GetHash := fun a => uint256.ofByte a
  SproutPaymentAddress_eq := fun a b => a == b
  SproutPaymentAddress_lt := fun a b => decide (a < b)
  ZCNoteDecryption_ofKey := fun rk => rk
  SaplingExtendedSpendingKey := Nat
  SaplingExtendedFullViewingKey := Nat
  SaplingIncomingViewingKey := Nat
  SaplingPaymentAddress := Nat
  blob88 := Nat
  ZIP32_XSK_SIZE := 5
  ZIP32_XFVK_SIZE := 6
  SaplingExtendedSpendingKey_ser := fun sk => List.replicate 5 sk
  SaplingExtendedSpendingKey_deser := fun b => b.headD 0
  SaplingExtendedSpendingKey_ToXFVK := fun sk => sk
  SaplingExtendedFullViewingKey_ser := fun f => List.replicate 6 f
  SaplingExtendedFullViewingKey_deser := fun b => b.headD 0
  SaplingExtendedFullViewingKey_GetFingerprint := fun f => uint256.ofByte f
  SaplingExtendedFullViewingKey_eq := fun a b => a == b
  SaplingExtendedFullViewingKey_lt := fun a b => decide (a < b)
  SaplingPaymentAddress_GetHash := fun a => uint256.ofByte a
  ser_ivk_addr := fun i a => [i, a]
  ser_addr_ivk_path := fun a i p => [a, i, p]
  ShieldedIndex := ToyIndex
  fullViewingKeys := fun idx => idx.fvks
  incomingViewingKeys := fun idx => idx.ivks
  paymentAddresses := fun idx => idx.paths
  Basic_AddSaplingExtendedFullViewingKey := fun f idx =>
    (true, if idx.fvks.contains f then idx else { idx with fvks := idx.fvks ++ [f] })
  Basic_AddSaplingIncomingViewingKey := fun i a idx =>
    (true, if idx.ivks.any (fun e => e.1 == a) then idx
      else { idx with ivks := idx.ivks ++ [(a, i)] })
  Basic_AddSaplingDiversifiedAddress := fun a i p idx =>
    (true, if idx.paths.any (fun e => e.1 == a) then idx
      else { idx with paths := idx.paths ++ [(a, (i, p))] })
  emptyIndex := ⟨[], [], []⟩
  deser_ivk_addr := fun b => (b.headD 0, b.tail.headD 0)
  deser_addr_ivk_path := fun b => (b.headD 0, (b.tail.headD 0, b.tail.tail.headD 0))

/-- The store a `CCryptoKeyStore` starts as: plaintext mode, nothing stored. -/
def toyFresh : CCryptoKeyStore toyEnv where
  hdSeed := []
  mapKeys := []
  mapSproutSpendingKeys := []
  mapSaplingSpendingKeys := []
  mapNoteDecryptors := []
  shielded := ⟨[], [], []⟩
  fUseCrypto := false
  fDecryptionThoroughlyChecked := false
  vMasterKey := []
  cryptedHDSeed := (uint256.zero, [])
  mapCryptedKeys := []
  mapCryptedSproutSpendingKeys := []
  mapCryptedSaplingSpendingKeys := []

/-- The master key of 32 bytes `0xAA`. -/
def keyAA : Bytes := List.replicate 32 0xAA

/-- The master key of 32 bytes `0xBB`. -/
def keyBB : Bytes := List.replicate 32 0xBB

/-- The plaintext store holding the single transparent key with secret
`0x01 .. 01` (compressed) under its key id. -/
def toyOneKey : CCryptoKeyStore toyEnv :=
  { toyFresh with mapKeys := [((1 : Nat), ((1 : Nat), true))] }

/-! ## Helpers for stating the properties -/

namespace CCryptoKeyStore

variable {E : Env}

/-- The store after a call of `Unlock`; the store `d` when the call stopped at
the assertion. -/
def UnlockResult.storeOr (d : CCryptoKeyStore E) : UnlockResult E → CCryptoKeyStore E
  | .returned _ s => s
  | .assertFailed => d

/-- The call of `Unlock` returned `true`. -/
def UnlockResult.isTrue : UnlockResult E → Bool
  | .returned b _ => b
  | .assertFailed => false

/-- The call of `Unlock` returned `false`. -/
def UnlockResult.isFalse : UnlockResult E → Bool
  | .returned b _ => !b
  | .assertFailed => false

/-- The call of `Unlock` stopped at `assert(false)`. -/
def UnlockResult.isAssert : UnlockResult E → Bool
  | .returned _ _ => false
  | .assertFailed => true

/-- The first record of a map passes the check (false on an empty map). -/
def headPass {α : Type} (check : α → Bool) : List α → Bool
  | [] => false
  | x :: _ => check x

/-- The first record of a map fails the check (false on an empty map). -/
def headFail {α : Type} (check : α → Bool) : List α → Bool
  | [] => false
  | x :: _ => !check x

/-- The store holds a crypted HD seed, in the sense `Unlock` and
`SetCryptedHDSeed` test it: the stored fingerprint is not null. -/
def holdsCryptedHDSeed (s : CCryptoKeyStore E) : Bool := !s.cryptedHDSeed.1.IsNull

/-- The crypted HD seed is stored and passes its check under the candidate. -/
def seedPass (vMasterKeyIn : Bytes) (s : CCryptoKeyStore E) : Bool :=
  s.holdsCryptedHDSeed && checkHDSeed E vMasterKeyIn s.cryptedHDSeed

/-- The crypted HD seed is stored and fails its check under the candidate. -/
def seedFail (vMasterKeyIn : Bytes) (s : CCryptoKeyStore E) : Bool :=
  s.holdsCryptedHDSeed && !checkHDSeed E vMasterKeyIn s.cryptedHDSeed

/-- The crypted HD seed or the first record of one of the three crypted key maps
passes its check under the candidate. -/
def firstPass (vMasterKeyIn : Bytes) (s : CCryptoKeyStore E) : Bool :=
  s.seedPass vMasterKeyIn || headPass (checkKey E vMasterKeyIn) s.mapCryptedKeys
    || headPass (checkSprout E vMasterKeyIn) s.mapCryptedSproutSpendingKeys
    || headPass (checkSapling E vMasterKeyIn) s.mapCryptedSaplingSpendingKeys

/-- The outcome of the check of every stored record under the candidate: the
crypted HD seed (when stored), then the entries of the crypted transparent,
Sprout and Sapling key maps. -/
def recordChecks (vMasterKeyIn : Bytes) (s : CCryptoKeyStore E) : List Bool :=
  (if s.holdsCryptedHDSeed then [checkHDSeed E vMasterKeyIn s.cryptedHDSeed] else [])
    ++ s.mapCryptedKeys.map (checkKey E vMasterKeyIn)
    ++ s.mapCryptedSproutSpendingKeys.map (checkSprout E vMasterKeyIn)
    ++ s.mapCryptedSaplingSpendingKeys.map (checkSapling E vMasterKeyIn)

end CCryptoKeyStore

/-! ### Concrete stores -/

/-- The one-key store after `EncryptKeys` under `keyAA`. -/
def toyEncrypted : CCryptoKeyStore toyEnv := (toyOneKey.EncryptKeys keyAA).2

/-- The store `toyEncrypted` after `Lock`. -/
def toyLocked : CCryptoKeyStore toyEnv := toyEncrypted.Lock.2

/-- The store `toyLocked` after `Unlock` under `keyAA`. -/
def toyUnlocked : CCryptoKeyStore toyEnv := (toyLocked.Unlock keyAA).storeOr toyLocked

/-- The store `toyUnlocked` after `AddCryptedKey` of a record for key id 2 whose
ciphertext is not an encryption under `keyAA`, and `Lock`: the tampered record
follows the good record of key id 1, and the store has been thoroughly checked. -/
def toyTamperedLast : CCryptoKeyStore toyEnv :=
  ((toyUnlocked.AddCryptedKey ((2 : Nat), true) [0]).2).Lock.2

/-- The plaintext store holding the single transparent key with secret
`0x02 .. 02` under its key id. -/
def toyKeyTwo : CCryptoKeyStore toyEnv :=
  { toyFresh with mapKeys := [((2 : Nat), ((2 : Nat), true))] }

/-- The store `toyKeyTwo` after `EncryptKeys` under `keyAA` and `AddCryptedKey`
of a record for key id 1 whose ciphertext is not an encryption under `keyAA`:
the tampered record precedes the good record of key id 2; the store has not
been thoroughly checked. -/
def toyTamperedFirst : CCryptoKeyStore toyEnv :=
  (((toyKeyTwo.EncryptKeys keyAA).2).AddCryptedKey ((1 : Nat), true) [0]).2

/-- The fresh store switched to encrypted mode by `SetCrypted`. -/
def toyCrypted : CCryptoKeyStore toyEnv := toyFresh.SetCrypted.2

/-- The store `toyEncrypted` after `AddCryptedKey` of a record for key id 2 whose
ciphertext is not an encryption under `keyAA`: the tampered record follows the
good record of key id 1; the store has not been thoroughly checked. -/
def toyTamperedSecond : CCryptoKeyStore toyEnv :=
  (toyEncrypted.AddCryptedKey ((2 : Nat), true) [0]).2

/-! ### Assumptions on the collaborators, stated as predicates -/

/-- The order of a map key type has no two distinct equivalent keys: keys that
are not ordered either way are equal. -/
def LtTrichotomous {K : Type} (lt : K → K → Bool) : Prop :=
  ∀ a b, lt a b = false → lt b a = false → a = b

/-- No key is below itself. -/
def LtIrreflexive {K : Type} (lt : K → K → Bool) : Prop := ∀ a, lt a a = false

/-- The cipher's decryption inverts its encryption under the same key and IV. -/
def CipherInverts (E : Env) : Prop :=
  ∀ key iv pt ct, E.evpEncrypt key iv pt = some ct → E.evpDecrypt key iv ct = some pt

/-- A transparent private key is well formed: it has 32 bytes, `Set` on its bytes
with the compression flag of its public key gives the key back, and it
verifies against its public key. -/
def ValidKey (E : Env) (k : E.CKey) : Prop :=
  (E.CKey_bytes k).length = 32 ∧
  E.CKey_Set (E.CKey_bytes k) (E.CPubKey_IsCompressed (E.CKey_GetPubKey k)) = k ∧
  E.CKey_VerifyPubKey k (E.CKey_GetPubKey k) = true

/-- A Sprout spending key is well formed: its serialisation has the serialised
size and deserialises to a key with the same payment address (compared with
`operator==`). -/
def ValidSproutKey (E : Env) (sk : E.SproutSpendingKey) : Prop :=
  (E.SproutSpendingKey_ser sk).length = E.SerializedSproutSpendingKeySize ∧
  E.SproutPaymentAddress_eq
    (E.SproutSpendingKey_address (E.SproutSpendingKey_deser (E.SproutSpendingKey_ser sk)))
    (E.SproutSpendingKey_address sk) = true

/-- A Sapling extended spending key is well formed: its serialisation has the
serialised size and deserialises to a key with the same full-viewing-key
fingerprint. -/
def ValidSaplingKey (E : Env) (sk : E.SaplingExtendedSpendingKey) : Prop :=
  (E.SaplingExtendedSpendingKey_ser sk).length = E.ZIP32_XSK_SIZE ∧
  E.SaplingExtendedFullViewingKey_GetFingerprint (E.SaplingExtendedSpendingKey_ToXFVK
    (E.SaplingExtendedSpendingKey_deser (E.SaplingExtendedSpendingKey_ser sk))) =
  E.SaplingExtendedFullViewingKey_GetFingerprint (E.SaplingExtendedSpendingKey_ToXFVK sk)

/-- An HD seed is well formed: the seed rebuilt from its raw bytes has the same
fingerprint. -/
def ValidSeed (E : Env) (seed : E.HDSeed) : Prop :=
  E.HDSeed_Fingerprint (E.HDSeed_ofRaw (E.HDSeed_RawSeed seed)) = E.HDSeed_Fingerprint seed

/-- The crypted map built by assigning, in order, the entries `f x` of the records
`x` of a plaintext map; `none` when `f` fails on a record. -/
def encFold {α K V : Type} (lt : K → K → Bool) (f : α → Option (K × V)) :
    List α → List (K × V) → Option (List (K × V))
  | [], m => some m
  | x :: xs, m =>
    match f x with
    | none => none
    | some kv => encFold lt f xs (mapAssign lt m kv.1 kv.2)

/-- The crypted entry `EncryptKeys` makes of a transparent key. -/
def encKeyEntry (E : Env) (M : Bytes) (mKey : E.CKeyID × E.CKey) :
    Option (E.CKeyID × (E.CPubKey × Bytes)) :=
  (EncryptSecret E M (E.CKey_bytes mKey.2) (E.CPubKey_GetHash (E.CKey_GetPubKey mKey.2))).map
    (fun ct => (E.CPubKey_GetID (E.CKey_GetPubKey mKey.2), (E.CKey_GetPubKey mKey.2, ct)))

/-- The crypted entry `EncryptKeys` makes of a Sprout spending key. -/
def encSproutEntry (E : Env) (M : Bytes) (m : E.SproutPaymentAddress × E.SproutSpendingKey) :
    Option (E.SproutPaymentAddress × Bytes) :=
  (EncryptSecret E M (E.SproutSpendingKey_ser m.2)
    (E.SproutPaymentAddress_GetHash (E.SproutSpendingKey_address m.2))).map
    (fun ct => (E.SproutSpendingKey_address m.2, ct))

/-- The crypted entry `EncryptKeys` makes of a Sapling extended spending key. -/
def encSaplingEntry (E : Env) (M : Bytes)
    (m : E.SaplingExtendedFullViewingKey × E.SaplingExtendedSpendingKey) :
    Option (E.SaplingExtendedFullViewingKey × Bytes) :=
  (EncryptSecret E M (E.SaplingExtendedSpendingKey_ser m.2)
    (E.SaplingExtendedFullViewingKey_GetFingerprint
      (E.SaplingExtendedSpendingKey_ToXFVK m.2))).map
    (fun ct => (E.SaplingExtendedSpendingKey_ToXFVK m.2, ct))

namespace CCryptoKeyStore

variable {E : Env}

/-- A store in plaintext mode that holds no crypted record: no crypted HD seed
and empty crypted key maps. -/
def IsPlaintextStore (s : CCryptoKeyStore E) : Prop :=
  s.fUseCrypto = false ∧ s.cryptedHDSeed.1.IsNull = true ∧ s.mapCryptedKeys = [] ∧
  s.mapCryptedSproutSpendingKeys = [] ∧ s.mapCryptedSaplingSpendingKeys = []

/-- The store holds at least one plaintext secret that `EncryptKeys` turns into a
record `Unlock` examines: a transparent, Sprout or Sapling key, or an HD seed
whose fingerprint is not null. -/
def HoldsPlainRecord (s : CCryptoKeyStore E) : Prop :=
  s.mapKeys ≠ [] ∨ s.mapSproutSpendingKeys ≠ [] ∨ s.mapSaplingSpendingKeys ≠ [] ∨
  (E.HDSeed_IsNull s.hdSeed = false ∧ (E.HDSeed_Fingerprint s.hdSeed).IsNull = false)

end CCryptoKeyStore

/-- A plaintext store holding an HD seed of 32 zero bytes, the transparent keys
with secrets `0x01 .. 01` (compressed) and `0x02 .. 02` (uncompressed), one
Sprout spending key and one Sapling extended spending key, each under its own
identifier. -/
def toyFull : CCryptoKeyStore toyEnv :=
  { toyFresh with
    hdSeed := List.replicate 32 0,
    mapKeys := [((1 : Nat), ((1 : Nat), true)), ((2 : Nat), ((2 : Nat), false))],
    mapSproutSpendingKeys := [((5 : Nat), (5 : Nat))],
    mapSaplingSpendingKeys := [((7 : Nat), (7 : Nat))],
    shielded := ⟨[7], [], []⟩ }

/-! ### Adding secrets -/

namespace CCryptoKeyStore

variable {E : Env}

/-- Modelled from the spec: `CBasicKeyStore::SetHDSeed` (keystore.cpp is not among
the sources). The plaintext seed is stored; the HD seed record is write-once
(I4), so an existing seed is not replaced. -/
def Basic_SetHDSeed (seed : E.HDSeed) (s : CCryptoKeyStore E) : Bool × CCryptoKeyStore E :=
  if !E.HDSeed_IsNull s.hdSeed then (false, s) else (true, { s with hdSeed := seed })

/-- Modelled from the spec: `CBasicKeyStore::AddKeyPubKey` (keystore.cpp is not
among the sources): "Add" on the typed map of transparent keys, under the key
id of the public key. -/
def Basic_AddKeyPubKey (key : E.CKey) (pubkey : E.CPubKey) (s : CCryptoKeyStore E) :
    Bool × CCryptoKeyStore E :=
  (true, { s with mapKeys := mapAssign E.CKeyID_lt s.mapKeys (E.CPubKey_GetID pubkey) key })

/-- Modelled from the spec: `CBasicKeyStore::AddSproutSpendingKey` (keystore.cpp is
not among the sources): "Add" on the typed map of Sprout spending keys, under
the payment address of the key; the note decryptor of the address is
registered as `AddCryptedSproutSpendingKey` does. -/
def Basic_AddSproutSpendingKey (sk : E.SproutSpendingKey) (s : CCryptoKeyStore E) :
    Bool × CCryptoKeyStore E :=
  (true, { s with
    mapSproutSpendingKeys :=
      mapAssign E.SproutPaymentAddress_lt s.mapSproutSpendingKeys
        (E.SproutSpendingKey_address sk) sk,
    mapNoteDecryptors :=
      mapInsert E.SproutPaymentAddress_lt s.mapNoteDecryptors (E.SproutSpendingKey_address sk)
        (E.ZCNoteDecryption_ofKey (E.SproutSpendingKey_receiving_key sk)) })

/-- The method `CBasicKeyStore::AddSaplingExtendedFullViewingKey` on the store: it
acts on the shielded index. -/
def Basic_AddSaplingExtendedFullViewingKey (extfvk : E.SaplingExtendedFullViewingKey)
    (s : CCryptoKeyStore E) : Bool × CCryptoKeyStore E :=
  match E.Basic_AddSaplingExtendedFullViewingKey extfvk s.shielded with
  | (ok, idx) => (ok, { s with shielded := idx })

/-- Modelled from the spec: `CBasicKeyStore::AddSaplingSpendingKey` (keystore.cpp is
not among the sources): the full viewing key is indexed, then "Add" on the
typed map of Sapling spending keys, under the extended full viewing key, as
`AddCryptedSaplingSpendingKey` does for the crypted map. -/
def Basic_AddSaplingSpendingKey (sk : E.SaplingExtendedSpendingKey) (s : CCryptoKeyStore E) :
    Bool × CCryptoKeyStore E :=
  match E.Basic_AddSaplingExtendedFullViewingKey (E.SaplingExtendedSpendingKey_ToXFVK sk)
      s.shielded with
  | (false, idx) => (false, { s with shielded := idx })
  | (true, idx) =>
    (true, { s with
      shielded := idx,
      mapSaplingSpendingKeys :=
        mapAssign E.SaplingExtendedFullViewingKey_lt s.mapSaplingSpendingKeys
          (E.SaplingExtendedSpendingKey_ToXFVK sk) sk })

/-- Modelled from the spec: `CKeyStore::GetPubKey` (keystore.cpp is not among the
sources): the public key of the private key that `GetKey` returns. -/
def Basic_GetPubKey (address : E.CKeyID) (s : CCryptoKeyStore E) : Bool × Option E.CPubKey :=
  match mapFind E.CKeyID_lt s.mapKeys address with
  | some k => (true, some (E.CKey_GetPubKey k))
  | none => (false, none)

/-- Method `CCryptoKeyStore::SetHDSeed`. -/
def SetHDSeed (seed : E.HDSeed) (s : CCryptoKeyStore E) : Bool × CCryptoKeyStore E :=
  if !s.IsCrypted then s.Basic_SetHDSeed seed
  else if s.IsLocked then (false, s)
  else
    let seedFp := E.HDSeed_Fingerprint seed
    match EncryptSecret E s.vMasterKey (E.HDSeed_RawSeed seed) seedFp with
    | none => (false, s)
    | some vchCryptedSecret => s.SetCryptedHDSeed seedFp vchCryptedSecret

/-- Method `CCryptoKeyStore::AddKeyPubKey`. -/
def AddKeyPubKey (key : E.CKey) (pubkey : E.CPubKey) (s : CCryptoKeyStore E) :
    Bool × CCryptoKeyStore E :=
  if !s.IsCrypted then s.Basic_AddKeyPubKey key pubkey
  else if s.IsLocked then (false, s)
  else
    match EncryptSecret E s.vMasterKey (E.CKey_bytes key) (E.CPubKey_GetHash pubkey) with
    | none => (false, s)
    | some vchCryptedSecret => s.AddCryptedKey pubkey vchCryptedSecret

/-- Method `CCryptoKeyStore::GetPubKey`. -/
def GetPubKey (address : E.CKeyID) (s : CCryptoKeyStore E) : Bool × Option E.CPubKey :=
  if !s.IsCrypted then s.Basic_GetPubKey address
  else
    match mapFind E.CKeyID_lt s.mapCryptedKeys address with
    | some (vchPubKey, _) => (true, some vchPubKey)
    | none => (false, none)

/-- Method `CCryptoKeyStore::AddSproutSpendingKey`. -/
def AddSproutSpendingKey (sk : E.SproutSpendingKey) (s : CCryptoKeyStore E) :
    Bool × CCryptoKeyStore E :=
  if !s.IsCrypted then s.Basic_AddSproutSpendingKey sk
  else if s.IsLocked then (false, s)
  else
    let address := E.SproutSpendingKey_address sk
    match EncryptSecret E s.vMasterKey (E.SproutSpendingKey_ser sk)
        (E.SproutPaymentAddress_GetHash address) with
    | none => (false, s)
    | some vchCryptedSecret =>
      s.AddCryptedSproutSpendingKey address (E.SproutSpendingKey_receiving_key sk)
        vchCryptedSecret

/-- Method `CCryptoKeyStore::AddSaplingSpendingKey`. -/
def AddSaplingSpendingKey (sk : E.SaplingExtendedSpendingKey) (s : CCryptoKeyStore E) :
    Bool × CCryptoKeyStore E :=
  if !s.IsCrypted then s.Basic_AddSaplingSpendingKey sk
  else if s.IsLocked then (false, s)
  else
    let extfvk := E.SaplingExtendedSpendingKey_ToXFVK sk
    match EncryptSecret E s.vMasterKey (E.SaplingExtendedSpendingKey_ser sk)
        (E.SaplingExtendedFullViewingKey_GetFingerprint extfvk) with
    | none => (false, s)
    | some vchCryptedSecret => s.AddCryptedSaplingSpendingKey extfvk vchCryptedSecret

/-- Method `CCryptoKeyStore::AddSaplingExtendedFullViewingKey`. -/
def AddSaplingExtendedFullViewingKey (extfvk : E.SaplingExtendedFullViewingKey)
    (s : CCryptoKeyStore E) : Bool × CCryptoKeyStore E :=
  if !s.IsCrypted then s.Basic_AddSaplingExtendedFullViewingKey extfvk
  else if s.IsLocked then (false, s)
  else
    match EncryptSecret E s.vMasterKey (E.SaplingExtendedFullViewingKey_ser extfvk)
        (E.SaplingExtendedFullViewingKey_GetFingerprint extfvk) with
    | none => (false, s)
    | some vchCryptedSecret =>
      s.AddCryptedSaplingExtendedFullViewingKey extfvk vchCryptedSecret

end CCryptoKeyStore

/-- The encryption primitive reports no failure on a 32-byte key and a 16-byte IV
(AES-256-CBC with padding encrypts every plaintext). -/
def CipherEncrypts (E : Env) : Prop :=
  ∀ key iv pt, key.length = 32 → iv.length = 16 → (E.evpEncrypt key iv pt).isSome = true

/-- A master key of 31 bytes. -/
def keyShort : Bytes := List.replicate 31 0xAA

/-- The relation between the stores before and after a step of `EncryptKeys` once
the mode flag is set: the store stays in encrypted mode and the master key
field and the thoroughly-checked flag are as before. -/
def KeepsMode {E : Env} (a b : CCryptoKeyStore E) : Prop :=
  a.fUseCrypto = true →
    b.fUseCrypto = true ∧ b.vMasterKey = a.vMasterKey ∧
      b.fDecryptionThoroughlyChecked = a.fDecryptionThoroughlyChecked

/-! ### Loading crypted records, and the operations as a transition system -/

namespace CCryptoKeyStore

variable {E : Env}

/-- Method `CCryptoKeyStore::DecryptSaplingPaymentAddress`: the return value, the
pair written to the output parameters, and the store after the call. -/
def DecryptSaplingPaymentAddress (chash : uint256) (vchCryptedSecret : Bytes)
    (s : CCryptoKeyStore E) :
    (Bool × Option (E.SaplingIncomingViewingKey × E.SaplingPaymentAddress)) × CCryptoKeyStore E :=
  match s.SetCrypted with
  | (false, s1) => ((false, none), s1)
  | (true, s1) =>
    if s1.IsLocked then ((false, none), s1)
    else
      match DecryptSecret E s1.vMasterKey vchCryptedSecret chash with
      | none => ((false, none), s1)
      | some vchSecret => ((true, some (E.deser_ivk_addr vchSecret)), s1)

/-- Method `CCryptoKeyStore::DecryptSaplingDiversifiedAddress`. -/
def DecryptSaplingDiversifiedAddress (chash : uint256) (vchCryptedSecret : Bytes)
    (s : CCryptoKeyStore E) :
    (Bool × Option (E.SaplingPaymentAddress × (E.SaplingIncomingViewingKey × E.blob88)))
      × CCryptoKeyStore E :=
  match s.SetCrypted with
  | (false, s1) => ((false, none), s1)
  | (true, s1) =>
    if s1.IsLocked then ((false, none), s1)
    else
      match DecryptSecret E s1.vMasterKey vchCryptedSecret chash with
      | none => ((false, none), s1)
      | some vchSecret => ((true, some (E.deser_addr_ivk_path vchSecret)), s1)

/-- Method `CCryptoKeyStore::LoadCryptedSaplingSpendingKey`. -/
def LoadCryptedSaplingSpendingKey (extfvkFinger : uint256) (vchCryptedSecret : Bytes)
    (s : CCryptoKeyStore E) : Bool × CCryptoKeyStore E :=
  match s.SetCrypted with
  | (false, s1) => (false, s1)
  | (true, s1) =>
    if s1.IsLocked then (false, s1)
    else
      match DecryptSaplingSpendingKey E s1.vMasterKey vchCryptedSecret extfvkFinger with
      | (true, some skOut) =>
        let extfvk := E.SaplingExtendedSpendingKey_ToXFVK skOut
        match E.Basic_AddSaplingExtendedFullViewingKey extfvk s1.shielded with
        | (false, idx) => (false, { s1 with shielded := idx })
        | (true, idx) =>
          (true, { s1 with
            shielded := idx,
            mapCryptedSaplingSpendingKeys :=
              mapAssign E.SaplingExtendedFullViewingKey_lt s1.mapCryptedSaplingSpendingKeys
                extfvk vchCryptedSecret })
      | _ => (false, s1)

/-- Method `CCryptoKeyStore::LoadCryptedSaplingExtendedFullViewingKey`. -/
def LoadCryptedSaplingExtendedFullViewingKey (extfvkFinger : uint256)
    (vchCryptedSecret : Bytes) (s : CCryptoKeyStore E) : Bool × CCryptoKeyStore E :=
  match s.SetCrypted with
  | (false, s1) => (false, s1)
  | (true, s1) =>
    if s1.IsLocked then (false, s1)
    else
      match DecryptSaplingExtendedFullViewingKey E s1.vMasterKey vchCryptedSecret
          extfvkFinger with
      | (true, some extfvk) =>
        match E.Basic_AddSaplingExtendedFullViewingKey extfvk s1.shielded with
        | (ok, idx) => (ok, { s1 with shielded := idx })
      | _ => (false, s1)

/-- Method `CCryptoKeyStore::LoadCryptedSaplingPaymentAddress`. -/
def LoadCryptedSaplingPaymentAddress (chash : uint256) (vchCryptedSecret : Bytes)
    (s : CCryptoKeyStore E) : Bool × CCryptoKeyStore E :=
  match s.SetCrypted with
  | (false, s1) => (false, s1)
  | (true, s1) =>
    if s1.IsLocked then (false, s1)
    else
      match s1.DecryptSaplingPaymentAddress chash vchCryptedSecret with
      | ((true, some (ivk, addr)), s2) =>
        match E.Basic_AddSaplingIncomingViewingKey ivk addr s2.shielded with
        | (ok, idx) => (ok, { s2 with shielded := idx })
      | (_, s2) => (false, s2)

/-- Method `CCryptoKeyStore::LoadCryptedSaplingDiversifiedAddress`. -/
def LoadCryptedSaplingDiversifiedAddress (chash : uint256) (vchCryptedSecret : Bytes)
    (s : CCryptoKeyStore E) : Bool × CCryptoKeyStore E :=
  match s.SetCrypted with
  | (false, s1) => (false, s1)
  | (true, s1) =>
    if s1.IsLocked then (false, s1)
    else
      match s1.DecryptSaplingDiversifiedAddress chash vchCryptedSecret with
      | ((true, some (addr, (ivk, path))), s2) =>
        match E.Basic_AddSaplingDiversifiedAddress addr ivk path s2.shielded with
        | (ok, idx) => (ok, { s2 with shielded := idx })
      | (_, s2) => (false, s2)

/-- Modelled from the spec: the constructor of `CCryptoKeyStore` is defined in
`crypter.h`, which is not among the sources. "A store is created in
Plaintext": nothing is stored, no master key is held, and the store has not
been thoroughly checked. -/
def fresh (E : Env) : CCryptoKeyStore E where
  hdSeed := E.HDSeed_default
  mapKeys := []
  mapSproutSpendingKeys := []
  mapSaplingSpendingKeys := []
  mapNoteDecryptors := []
  shielded := E.emptyIndex
  fUseCrypto := false
  fDecryptionThoroughlyChecked := false
  vMasterKey := []
  cryptedHDSeed := (uint256.zero, [])
  mapCryptedKeys := []
  mapCryptedSproutSpendingKeys := []
  mapCryptedSaplingSpendingKeys := []

/-- A call of one of the operations of `crypter.cpp` that change the store, with
its arguments. The other `Decrypt...` methods (`DecryptCScript`,
`DecryptStringPair`, `DecryptPublicKey`, `DecryptSaplingPrimarySpendingKey`,
`DecryptSaplingPaymentAddress`, `DecryptSaplingDiversifiedAddress`,
`DecryptSaplingLastDiversifierUsed`) change the store only through the
`SetCrypted` call they start with, so `SetCrypted` stands for them. -/
inductive Op (E : Env) where
  | SetCrypted
  | Lock
  | Unlock (vMasterKeyIn : Bytes)
  | EncryptKeys (vMasterKeyIn : Bytes)
  | SetHDSeed (seed : E.HDSeed)
  | SetCryptedHDSeed (seedFp : uint256) (vchCryptedSecret : Bytes)
  | AddKeyPubKey (key : E.CKey) (pubkey : E.CPubKey)
  | AddCryptedKey (vchPubKey : E.CPubKey) (vchCryptedSecret : Bytes)
  | AddSproutSpendingKey (sk : E.SproutSpendingKey)
  | AddSaplingSpendingKey (sk : E.SaplingExtendedSpendingKey)
  | AddSaplingExtendedFullViewingKey (extfvk : E.SaplingExtendedFullViewingKey)
  | AddCryptedSproutSpendingKey (address : E.SproutPaymentAddress) (rk : E.ReceivingKey)
      (vchCryptedSecret : Bytes)
  | AddCryptedSaplingSpendingKey (extfvk : E.SaplingExtendedFullViewingKey)
      (vchCryptedSecret : Bytes)
  | AddCryptedSaplingExtendedFullViewingKey (extfvk : E.SaplingExtendedFullViewingKey)
      (vchCryptedSecret : Bytes)
  | AddCryptedSaplingPaymentAddress (ivk : E.SaplingIncomingViewingKey)
      (addr : E.SaplingPaymentAddress) (vchCryptedSecret : Bytes)
  | AddCryptedSaplingDiversifiedAddress (ivk : E.SaplingIncomingViewingKey)
      (addr : E.SaplingPaymentAddress) (path : E.blob88) (vchCryptedSecret : Bytes)
  | LoadCryptedSaplingSpendingKey (extfvkFinger : uint256) (vchCryptedSecret : Bytes)
  | LoadCryptedSaplingExtendedFullViewingKey (extfvkFinger : uint256)
      (vchCryptedSecret : Bytes)
  | LoadCryptedSaplingPaymentAddress (chash : uint256) (vchCryptedSecret : Bytes)
  | LoadCryptedSaplingDiversifiedAddress (chash : uint256) (vchCryptedSecret : Bytes)

/-- The store after a call, whatever it returned; `none` when the call stopped the
process at the assertion of `Unlock`. -/
def Op.run : Op E → CCryptoKeyStore E → Option (CCryptoKeyStore E)
  | .SetCrypted, s => some s.SetCrypted.2
  | .Lock, s => some s.Lock.2
  | .Unlock m, s =>
    match s.Unlock m with
    | .returned _ t => some t
    | .assertFailed => none
  | .EncryptKeys m, s => some (s.EncryptKeys m).2
  | .SetHDSeed seed, s => some (s.SetHDSeed seed).2
  | .SetCryptedHDSeed fp ct, s => some (s.SetCryptedHDSeed fp ct).2
  | .AddKeyPubKey key pubkey, s => some (s.AddKeyPubKey key pubkey).2
  | .AddCryptedKey pub ct, s => some (s.AddCryptedKey pub ct).2
  | .AddSproutSpendingKey sk, s => some (s.AddSproutSpendingKey sk).2
  | .AddSaplingSpendingKey sk, s => some (s.AddSaplingSpendingKey sk).2
  | .AddSaplingExtendedFullViewingKey extfvk, s =>
    some (s.AddSaplingExtendedFullViewingKey extfvk).2
  | .AddCryptedSproutSpendingKey a rk ct, s => some (s.AddCryptedSproutSpendingKey a rk ct).2
  | .AddCryptedSaplingSpendingKey extfvk ct, s =>
    some (s.AddCryptedSaplingSpendingKey extfvk ct).2
  | .AddCryptedSaplingExtendedFullViewingKey extfvk ct, s =>
    some (s.AddCryptedSaplingExtendedFullViewingKey extfvk ct).2
  | .AddCryptedSaplingPaymentAddress ivk addr ct, s =>
    some (s.AddCryptedSaplingPaymentAddress ivk addr ct).2
  | .AddCryptedSaplingDiversifiedAddress ivk addr path ct, s =>
    some (s.AddCryptedSaplingDiversifiedAddress ivk addr path ct).2
  | .LoadCryptedSaplingSpendingKey fp ct, s => some (s.LoadCryptedSaplingSpendingKey fp ct).2
  | .LoadCryptedSaplingExtendedFullViewingKey fp ct, s =>
    some (s.LoadCryptedSaplingExtendedFullViewingKey fp ct).2
  | .LoadCryptedSaplingPaymentAddress chash ct, s =>
    some (s.LoadCryptedSaplingPaymentAddress chash ct).2
  | .LoadCryptedSaplingDiversifiedAddress chash ct, s =>
    some (s.LoadCryptedSaplingDiversifiedAddress chash ct).2

/-- The stores reachable from a fresh store by calls of the operations. -/
inductive Reachable : CCryptoKeyStore E → Prop where
  | fresh : Reachable (fresh E)
  | step (op : Op E) (s t : CCryptoKeyStore E) : Reachable s → op.run s = some t → Reachable t

/-- The store holds no encrypted material: no crypted HD seed, empty crypted key
maps, no master key. -/
def NoCryptedMaterial (s : CCryptoKeyStore E) : Prop :=
  s.cryptedHDSeed = (uint256.zero, []) ∧ s.mapCryptedKeys = [] ∧
  s.mapCryptedSproutSpendingKeys = [] ∧ s.mapCryptedSaplingSpendingKeys = [] ∧
  s.vMasterKey = []

/-- The relation between the stores before and after a call: a store that is in
plaintext mode after the call was in plaintext mode before it, and the call
left crypted HD seed, crypted key maps and master key as they were. -/
def PlainFrame (s t : CCryptoKeyStore E) : Prop :=
  t.fUseCrypto = false →
    s.fUseCrypto = false ∧ t.cryptedHDSeed = s.cryptedHDSeed ∧
    t.mapCryptedKeys = s.mapCryptedKeys ∧
    t.mapCryptedSproutSpendingKeys = s.mapCryptedSproutSpendingKeys ∧
    t.mapCryptedSaplingSpendingKeys = s.mapCryptedSaplingSpendingKeys ∧
    t.vMasterKey = s.vMasterKey

end CCryptoKeyStore

/-- Every ciphertext the encryption primitive returns under a 32-byte key has at
least one byte (AES-256-CBC with padding returns at least one block). -/
def CipherOutputNonempty (E : Env) : Prop :=
  ∀ key iv pt ct, key.length = 32 → E.evpEncrypt key iv pt = some ct → ct ≠ []

/-- The fresh store after `SetHDSeed` of the seed of 32 zero bytes. -/
def toyBuilt1 : CCryptoKeyStore toyEnv :=
  ((CCryptoKeyStore.fresh toyEnv).SetHDSeed (List.replicate 32 0)).2

/-- The store `toyBuilt1` after `AddKeyPubKey` of the key with secret `0x01 .. 01`. -/
def toyBuilt2 : CCryptoKeyStore toyEnv :=
  (toyBuilt1.AddKeyPubKey ((1 : Nat), true) ((1 : Nat), true)).2

/-- The store `toyBuilt2` after `AddKeyPubKey` of the key with secret `0x02 .. 02`. -/
def toyBuilt3 : CCryptoKeyStore toyEnv :=
  (toyBuilt2.AddKeyPubKey ((2 : Nat), false) ((2 : Nat), false)).2

/-- The store `toyBuilt3` after `AddSproutSpendingKey`. -/
def toyBuilt4 : CCryptoKeyStore toyEnv := (toyBuilt3.AddSproutSpendingKey (5 : Nat)).2

/-- The store built from the fresh store by `SetHDSeed`, two `AddKeyPubKey`,
`AddSproutSpendingKey` and `AddSaplingSpendingKey`. -/
def toyBuilt : CCryptoKeyStore toyEnv := (toyBuilt4.AddSaplingSpendingKey (7 : Nat)).2

/-! ### Key derivation, examined records, lock order -/

/-- The buffer `buf` after `bytes` have been written at its front. -/
def writeFront (buf bytes : Bytes) : Bytes := bytes ++ buf.drop bytes.length

/-- Method `CCrypter::SetKeyFromPassphrase`. `EVP_BytesToKey` is called only for
derivation method 0 and writes the derived key and IV at the front of the
buffers `chKey` and `chIV`; when the size it returns is not
`WALLET_CRYPTO_KEY_SIZE`, both buffers are cleansed (their sizes are declared
in `crypter.h`; the size `SetKey` asks of both vectors is used) and `fKeySet`
is left as it was. -/
def CCrypter.SetKeyFromPassphrase (E : Env) (c : CCrypter) (strKeyData chSalt : Bytes)
    (nRounds nDerivationMethod : Nat) : Bool × CCrypter :=
  if nRounds < 1 || chSalt.length != WALLET_CRYPTO_SALT_SIZE then (false, c)
  else
    let r : Nat × Bytes × Bytes :=
      if nDerivationMethod == 0 then E.EVP_BytesToKey chSalt strKeyData nRounds
      else (0, [], [])
    let c1 : CCrypter :=
      { c with chKey := writeFront c.chKey r.2.1, chIV := writeFront c.chIV r.2.2 }
    if r.1 != WALLET_CRYPTO_KEY_SIZE then
      (false, { c1 with chKey := List.replicate WALLET_CRYPTO_KEY_SIZE 0,
                        chIV := List.replicate WALLET_CRYPTO_KEY_SIZE 0 })
    else (true, { c1 with fKeySet := true })

namespace CCryptoKeyStore

variable {E : Env}

/-- The records of a crypted map that a record loop of `Unlock` examines: up to and
including the first record that fails, and only the first record at all when
`fDecryptionThoroughlyChecked`. -/
def examined {α : Type} (check : α → Bool) (fChecked : Bool) : List α → List α
  | [] => []
  | x :: xs =>
    if !check x then [x]
    else if fChecked then [x]
    else x :: examined check fChecked xs

/-- The outcomes of the checks of the records that `Unlock` examines: the crypted
HD seed (when its fingerprint is not null), then the examined records of the
three crypted key maps. -/
def examinedChecks (vMasterKeyIn : Bytes) (s : CCryptoKeyStore E) : List Bool :=
  (if s.holdsCryptedHDSeed then [checkHDSeed E vMasterKeyIn s.cryptedHDSeed] else [])
    ++ (examined (checkKey E vMasterKeyIn) s.fDecryptionThoroughlyChecked
        s.mapCryptedKeys).map (checkKey E vMasterKeyIn)
    ++ (examined (checkSprout E vMasterKeyIn) s.fDecryptionThoroughlyChecked
        s.mapCryptedSproutSpendingKeys).map (checkSprout E vMasterKeyIn)
    ++ (examined (checkSapling E vMasterKeyIn) s.fDecryptionThoroughlyChecked
        s.mapCryptedSaplingSpendingKeys).map (checkSapling E vMasterKeyIn)

/-- The outcome of a call of `Unlock` without the store: `some b` when it returned
`b`, `none` when it stopped at the assertion. -/
def UnlockResult.kind : UnlockResult E → Option Bool
  | .returned b _ => some b
  | .assertFailed => none

/-- The store with each of the three crypted key maps cut down to its first record
(in map order). -/
def truncateCryptedMaps (s : CCryptoKeyStore E) : CCryptoKeyStore E :=
  { s with
    mapCryptedKeys := s.mapCryptedKeys.take 1,
    mapCryptedSproutSpendingKeys := s.mapCryptedSproutSpendingKeys.take 1,
    mapCryptedSaplingSpendingKeys := s.mapCryptedSaplingSpendingKeys.take 1 }

/-- The two tests for "a crypted HD seed is stored" agree on the store: the stored
fingerprint is not null (the test of `SetCryptedHDSeed` and `Unlock`) exactly
when the stored ciphertext is not empty (the test of `HaveHDSeed` and
`GetHDSeed`). -/
def SeedSlotConsistent (s : CCryptoKeyStore E) : Prop :=
  s.cryptedHDSeed.1.IsNull = false ↔ s.cryptedHDSeed.2 ≠ []

/-- The three plaintext key maps are empty. -/
def PlainMapsEmpty (s : CCryptoKeyStore E) : Prop :=
  s.mapKeys = [] ∧ s.mapSproutSpendingKeys = [] ∧ s.mapSaplingSpendingKeys = []

/-- In encrypted mode the three plaintext key maps are empty. -/
def PlainEmptyWhenCrypted (s : CCryptoKeyStore E) : Prop :=
  s.fUseCrypto = true → s.PlainMapsEmpty

/-- The call is an `EncryptKeys` on a store in plaintext mode that returns false. -/
def Op.failsEncryptKeys (op : Op E) (s : CCryptoKeyStore E) : Prop :=
  ∃ m, op = .EncryptKeys m ∧ s.fUseCrypto = false ∧ (s.EncryptKeys m).1 = false

/-- The stores reachable from a fresh store by calls of the operations among which
no `EncryptKeys` on a store in plaintext mode returns false. -/
inductive ReachableCommitted : CCryptoKeyStore E → Prop where
  | fresh : ReachableCommitted (fresh E)
  | step (op : Op E) (s t : CCryptoKeyStore E) :
      ReachableCommitted s → op.run s = some t → ¬ op.failsEncryptKeys s →
      ReachableCommitted t

end CCryptoKeyStore

/-! ### Further assumptions and concrete inputs -/

/-- Under one 32-byte key and one plaintext, the encryption primitive gives
different ciphertexts for different 16-byte IVs (in CBC mode the first
ciphertext block is the block cipher applied to the first plaintext block
xor the IV). -/
def CipherSeparatesIVs (E : Env) : Prop :=
  ∀ key iv1 iv2 pt ct, key.length = 32 → iv1.length = 16 → iv2.length = 16 →
    E.evpEncrypt key iv1 pt = some ct → E.evpEncrypt key iv2 pt = some ct → iv1 = iv2

/-- The comparison `eq` (an `operator==`) returns true on equal values only. -/
def EqSound {α : Type} (eq : α → α → Bool) : Prop := ∀ a b, eq a b = true → a = b

/-- The identifier of 16 zero bytes followed by 16 bytes `0x01`. -/
def idZeroOne : uint256 := ⟨List.replicate 16 0 ++ List.replicate 16 1, by decide⟩

/-- The store `toyCrypted` after `SetCryptedHDSeed` of the fingerprint `0x07 .. 07`
and the empty ciphertext. -/
def toySeedNoCiphertext : CCryptoKeyStore toyEnv :=
  (toyCrypted.SetCryptedHDSeed (uint256.ofByte 7) []).2

/-- The store `toyCrypted` after `SetCryptedHDSeed` of the null fingerprint and the
ciphertext `[1]`. -/
def toySeedNullFingerprint : CCryptoKeyStore toyEnv :=
  (toyCrypted.SetCryptedHDSeed uint256.zero [1]).2

/-- The store `toyOneKey` after the call `EncryptKeys(keyShort)`, which returns
false. -/
def toyAbandoned : CCryptoKeyStore toyEnv := (toyOneKey.EncryptKeys keyShort).2

/-- The store `toyFull` after `EncryptKeys` and `Unlock` under `keyAA`. -/
def toyFullUnlocked : CCryptoKeyStore toyEnv :=
  (((toyFull.EncryptKeys keyAA).2).Unlock keyAA).storeOr toyFull

/-- The two mutexes of the key store. -/
inductive Mutex where
  | cs_KeyStore
  | cs_SpendingKeyStore
  deriving DecidableEq

/-- The mutexes a call acquires, in program order, along a call path on which each
is still held when the next is acquired (a critical block holds its mutex to
the end of the enclosing block, and the calls below are made inside that
block). -/
abbrev LockPath := List Mutex

/-- Modelled from the spec: the macro `LOCK` is declared in `sync.h`, which is not
among the sources. It acquires the mutex and holds it to the end of the
enclosing block. -/
def LOCK (cs : Mutex) : LockPath := [cs]

/-- Modelled from the spec: the macro `LOCK2` is declared in `sync.h`, which is not
among the sources. "acquire both in a fixed global order (M_key before
M_spend)": the first argument is acquired first, then the second. -/
def LOCK2 (cs1 cs2 : Mutex) : LockPath := [cs1, cs2]

/-- Method `SetCrypted`: `LOCK2(cs_KeyStore, cs_SpendingKeyStore)`. -/
def lockPath_SetCrypted : LockPath := LOCK2 .cs_KeyStore .cs_SpendingKeyStore

/-- Method `Lock`: calls `SetCrypted()` holding no lock (the later
`LOCK(cs_KeyStore)` is taken after `SetCrypted` has returned). -/
def lockPath_Lock : LockPath := lockPath_SetCrypted

/-- Method `Unlock`: `LOCK2(cs_KeyStore, cs_SpendingKeyStore)`, then `SetCrypted()`. -/
def lockPath_Unlock : LockPath :=
  LOCK2 .cs_KeyStore .cs_SpendingKeyStore ++ lockPath_SetCrypted

/-- Method `AddCryptedKey`: `LOCK(cs_KeyStore)`, then `SetCrypted()`. -/
def lockPath_AddCryptedKey : LockPath := LOCK .cs_KeyStore ++ lockPath_SetCrypted

/-- Method `AddKeyPubKey`: `LOCK(cs_KeyStore)`, then `AddCryptedKey`. -/
def lockPath_AddKeyPubKey : LockPath := LOCK .cs_KeyStore ++ lockPath_AddCryptedKey

/-- Method `AddCryptedSproutSpendingKey`: `LOCK(cs_SpendingKeyStore)`, then
`SetCrypted()`. -/
def lockPath_AddCryptedSproutSpendingKey : LockPath :=
  LOCK .cs_SpendingKeyStore ++ lockPath_SetCrypted

/-- Method `AddSproutSpendingKey`: `LOCK(cs_SpendingKeyStore)`, then
`AddCryptedSproutSpendingKey`. -/
def lockPath_AddSproutSpendingKey : LockPath :=
  LOCK .cs_SpendingKeyStore ++ lockPath_AddCryptedSproutSpendingKey

/-- Method `AddCryptedSaplingSpendingKey`: `LOCK(cs_SpendingKeyStore)`, then
`SetCrypted()`. -/
def lockPath_AddCryptedSaplingSpendingKey : LockPath :=
  LOCK .cs_SpendingKeyStore ++ lockPath_SetCrypted

/-- Method `EncryptKeys`: `LOCK2(cs_KeyStore, cs_SpendingKeyStore)`, then, with
both held, `AddCryptedKey`, `AddCryptedSproutSpendingKey` and
`AddCryptedSaplingSpendingKey`. -/
def lockPath_EncryptKeys : LockPath :=
  LOCK2 .cs_KeyStore .cs_SpendingKeyStore ++ lockPath_AddCryptedKey
    ++ lockPath_AddCryptedSproutSpendingKey ++ lockPath_AddCryptedSaplingSpendingKey

/-- The lock order on a path, given the mutexes already held: `cs_KeyStore` is not
acquired while `cs_SpendingKeyStore` is held, unless `cs_KeyStore` is held
too. -/
def respectsLockOrder : List Mutex → LockPath → Bool
  | _, [] => true
  | held, m :: rest =>
    (m != Mutex.cs_KeyStore || !held.contains Mutex.cs_SpendingKeyStore
        || held.contains Mutex.cs_KeyStore)
      && respectsLockOrder (m :: held) rest

/-! ### The size of the stored master key -/

namespace CCryptoKeyStore

variable {E : Env}

/-- The stored master key is empty or has `WALLET_CRYPTO_KEY_SIZE` bytes. -/
def MasterKeySized (s : CCryptoKeyStore E) : Prop :=
  s.vMasterKey = [] ∨ s.vMasterKey.length = WALLET_CRYPTO_KEY_SIZE

/-- The call is a `Lock` or an `Unlock`, the two methods with an assignment to
`vMasterKey` (`vMasterKey.clear()` and `vMasterKey = vMasterKeyIn`). -/
def Op.isLockOrUnlock : Op E → Bool
  | .Lock => true
  | .Unlock _ => true
  | _ => false

end CCryptoKeyStore


/-! ## Basic facts about `DecryptSecret` and the typed decryptions -/

theorem DecryptSecret_of_length_ne (E : Env) (vMasterKey ct : Bytes) (nIV : uint256)
    (h : vMasterKey.length ≠ 32) : DecryptSecret E vMasterKey ct nIV = none := by
  simp [DecryptSecret, CCrypter.SetKey, WALLET_CRYPTO_KEY_SIZE, h]

theorem DecryptSecret_nil (E : Env) (ct : Bytes) (nIV : uint256) :
    DecryptSecret E [] ct nIV = none :=
  DecryptSecret_of_length_ne E [] ct nIV (by simp)

theorem DecryptSecret_length (E : Env) (vMasterKey ct pt : Bytes) (nIV : uint256)
    (h : DecryptSecret E vMasterKey ct nIV = some pt) : vMasterKey.length = 32 := by
  by_contra hne
  rw [DecryptSecret_of_length_ne E vMasterKey ct nIV hne] at h
  exact absurd h (by simp)

theorem DecryptHDSeed_nil (E : Env) (ct : Bytes) (fp : uint256) :
    DecryptHDSeed E [] ct fp = (false, none) := by
  simp [DecryptHDSeed, DecryptSecret_nil]

theorem DecryptKey_nil (E : Env) (ct : Bytes) (pub : E.CPubKey) :
    DecryptKey E [] ct pub = (false, none) := by
  simp [DecryptKey, DecryptSecret_nil]

theorem DecryptSproutSpendingKey_nil (E : Env) (ct : Bytes) (a : E.SproutPaymentAddress) :
    DecryptSproutSpendingKey E [] ct a = (false, none) := by
  simp [DecryptSproutSpendingKey, DecryptSecret_nil]

theorem DecryptSaplingSpendingKey_nil (E : Env) (ct : Bytes) (fp : uint256) :
    DecryptSaplingSpendingKey E [] ct fp = (false, none) := by
  simp [DecryptSaplingSpendingKey, DecryptSecret_nil]

namespace CCryptoKeyStore

variable {E : Env}

theorem SetCrypted_of_crypted (s : CCryptoKeyStore E) (h : s.fUseCrypto = true) :
    s.SetCrypted = (true, s) := by
  simp [SetCrypted, h]

theorem SetCrypted_frame (s : CCryptoKeyStore E) :
    s.SetCrypted.2 = { s with fUseCrypto := s.SetCrypted.2.fUseCrypto } := by
  unfold SetCrypted
  split
  · rfl
  · split <;> rfl

theorem SetCrypted_true (s : CCryptoKeyStore E) (h : s.SetCrypted.1 = true) :
    s.SetCrypted.2.fUseCrypto = true := by
  unfold SetCrypted at h ⊢
  split
  · assumption
  · split
    · simp_all
    · rfl

theorem SetCrypted_false (s : CCryptoKeyStore E) (h : s.SetCrypted.1 = false) :
    s.SetCrypted.2 = s := by
  unfold SetCrypted at h ⊢
  split
  · rfl
  · split
    · rfl
    · simp_all

theorem Lock_true (s : CCryptoKeyStore E) (h : s.Lock.1 = true) :
    s.Lock.2.fUseCrypto = true ∧ s.Lock.2.vMasterKey = [] := by
  unfold Lock at h ⊢
  generalize hsc : s.SetCrypted = r at h ⊢
  obtain ⟨b, s1⟩ := r
  cases b
  · simp at h
  · have := SetCrypted_true s (by rw [hsc])
    rw [hsc] at this
    exact ⟨this, rfl⟩

end CCryptoKeyStore

/-! ## C2 -/

open CCryptoKeyStore

/-- C2: after `Lock()` returned true, `GetKey`, `GetHDSeed`,
`GetSproutSpendingKey`, `GetSaplingSpendingKey` and `DecryptWalletTransaction`
return false (and write no output) for every identifier and every ciphertext,
whatever the crypted maps hold. -/
theorem C2_locked_store_yields_no_secret (E : Env) (s : CCryptoKeyStore E)
    (hLock : s.Lock.1 = true) :
    (∀ address, GetKey address s.Lock.2 = (false, none)) ∧
    GetHDSeed s.Lock.2 = (false, none) ∧
    (∀ address, GetSproutSpendingKey address s.Lock.2 = (false, none)) ∧
    (∀ extfvk, GetSaplingSpendingKey extfvk s.Lock.2 = (false, none)) ∧
    (∀ chash ct, DecryptWalletTransaction chash ct s.Lock.2 = none) := by
  obtain ⟨hc, hk⟩ := Lock_true s hLock
  refine ⟨?_, ?_, ?_, ?_, ?_⟩
  · intro address
    simp only [GetKey, IsCrypted, hc, hk, Bool.not_true, Bool.false_eq_true, if_false]
    split
    · exact DecryptKey_nil E _ _
    · rfl
  · simp only [GetHDSeed, IsCrypted, hc, hk, Bool.not_true, Bool.false_eq_true, if_false]
    split
    · rfl
    · exact DecryptHDSeed_nil E _ _
  · intro address
    simp only [GetSproutSpendingKey, IsCrypted, hc, hk, Bool.not_true, Bool.false_eq_true,
      if_false]
    split
    · exact DecryptSproutSpendingKey_nil E _ _
    · rfl
  · intro extfvk
    simp only [GetSaplingSpendingKey, IsCrypted, hc, hk, Bool.not_true, Bool.false_eq_true,
      if_false]
    split
    · exact DecryptSaplingSpendingKey_nil E _ _
    · rfl
  · intro chash ct
    simp only [DecryptWalletTransaction, hk]
    exact DecryptSecret_nil E _ _

/-- Witness of C2 on the one-key store encrypted under `keyAA`. -/
theorem C2_locked_store_yields_no_secret_witness :
    toyEncrypted.Lock.1 = true ∧
    ((∀ address, GetKey address toyEncrypted.Lock.2 = (false, none)) ∧
    GetHDSeed toyEncrypted.Lock.2 = (false, none) ∧
    (∀ address, GetSproutSpendingKey address toyEncrypted.Lock.2 = (false, none)) ∧
    (∀ extfvk, GetSaplingSpendingKey extfvk toyEncrypted.Lock.2 = (false, none)) ∧
    (∀ chash ct, DecryptWalletTransaction chash ct toyEncrypted.Lock.2 = none)) :=
  ⟨by decide, C2_locked_store_yields_no_secret toyEnv toyEncrypted (by decide)⟩

/-! ## The record loops of `Unlock` in closed form -/

namespace CCryptoKeyStore

variable {E : Env}

theorem unlockScan_eq {α : Type} (check : α → Bool) (fChecked : Bool) (l : List α)
    (keyPass keyFail : Bool) :
    unlockScan check fChecked l (keyPass, keyFail) =
      (keyPass || headPass check l,
        keyFail || (if fChecked then headFail check l else l.any (fun x => !check x))) := by
  induction l generalizing keyPass keyFail with
  | nil => simp [unlockScan, headPass, headFail]
  | cons x xs ih =>
    cases hx : check x <;> cases fChecked <;> simp [unlockScan, headPass, headFail, hx, ih]

theorem unlockFlags_eq (M : Bytes) (s : CCryptoKeyStore E) :
    unlockFlags M s =
      (s.firstPass M,
        s.seedFail M
        || (if s.fDecryptionThoroughlyChecked then headFail (checkKey E M) s.mapCryptedKeys
            else s.mapCryptedKeys.any (fun x => !checkKey E M x))
        || (if s.fDecryptionThoroughlyChecked then
              headFail (checkSprout E M) s.mapCryptedSproutSpendingKeys
            else s.mapCryptedSproutSpendingKeys.any (fun x => !checkSprout E M x))
        || (if s.fDecryptionThoroughlyChecked then
              headFail (checkSapling E M) s.mapCryptedSaplingSpendingKeys
            else s.mapCryptedSaplingSpendingKeys.any (fun x => !checkSapling E M x))) := by
  unfold unlockFlags firstPass seedPass seedFail holdsCryptedHDSeed
  cases h1 : s.cryptedHDSeed.1.IsNull <;> cases h2 : checkHDSeed E M s.cryptedHDSeed <;>
    simp [unlockScan_eq]

theorem Unlock_of_crypted (M : Bytes) (s : CCryptoKeyStore E) (h : s.fUseCrypto = true) :
    s.Unlock M =
      if (unlockFlags M s).1 && (unlockFlags M s).2 then .assertFailed
      else if (unlockFlags M s).2 || !(unlockFlags M s).1 then .returned false s
      else .returned true { s with vMasterKey := M, fDecryptionThoroughlyChecked := true } := by
  unfold Unlock
  rw [SetCrypted_of_crypted s h]

end CCryptoKeyStore

namespace CCryptoKeyStore

variable {E : Env}

theorem unlockFlags_SetCrypted (M : Bytes) (s : CCryptoKeyStore E) :
    unlockFlags M s.SetCrypted.2 = unlockFlags M s := by
  rw [SetCrypted_frame s]
  rfl

theorem Unlock_returned_false (M : Bytes) (s t : CCryptoKeyStore E)
    (h : s.Unlock M = .returned false t) : t = s.SetCrypted.2 := by
  unfold Unlock at h
  generalize s.SetCrypted = r at h ⊢
  obtain ⟨b, s1⟩ := r
  cases b
  · simp only [UnlockResult.returned.injEq, true_and] at h
    exact h.symm
  · simp only at h
    split at h
    · exact absurd h (by simp)
    · split at h
      · simp only [UnlockResult.returned.injEq, true_and] at h
        exact h.symm
      · simp at h

theorem Unlock_returned_true (M : Bytes) (s t : CCryptoKeyStore E)
    (h : s.Unlock M = .returned true t) :
    unlockFlags M s = (true, false) ∧ s.SetCrypted.1 = true ∧
      t = { s.SetCrypted.2 with vMasterKey := M, fDecryptionThoroughlyChecked := true } := by
  rw [← unlockFlags_SetCrypted M s]
  unfold Unlock at h
  generalize s.SetCrypted = r at h ⊢
  obtain ⟨b, s1⟩ := r
  cases b
  · simp at h
  · simp only at h
    generalize unlockFlags M s1 = pf at h ⊢
    obtain ⟨p, f⟩ := pf
    cases p <;> cases f <;> simp at h ⊢
    exact h.symm

theorem checkHDSeed_length (M : Bytes) (e : uint256 × Bytes) (h : checkHDSeed E M e = true) :
    M.length = 32 := by
  unfold checkHDSeed DecryptHDSeed at h
  split at h
  · simp at h
  · next pt hp => exact DecryptSecret_length E _ _ _ _ hp

theorem checkKey_length (M : Bytes) (e : E.CKeyID × (E.CPubKey × Bytes))
    (h : checkKey E M e = true) : M.length = 32 := by
  unfold checkKey DecryptKey at h
  split at h
  · simp at h
  · next pt hp => exact DecryptSecret_length E _ _ _ _ hp

theorem checkSprout_length (M : Bytes) (e : E.SproutPaymentAddress × Bytes)
    (h : checkSprout E M e = true) : M.length = 32 := by
  unfold checkSprout DecryptSproutSpendingKey at h
  split at h
  · simp at h
  · next pt hp => exact DecryptSecret_length E _ _ _ _ hp

theorem checkSapling_length (M : Bytes) (e : E.SaplingExtendedFullViewingKey × Bytes)
    (h : checkSapling E M e = true) : M.length = 32 := by
  unfold checkSapling DecryptSaplingSpendingKey at h
  split at h
  · simp at h
  · next pt hp => exact DecryptSecret_length E _ _ _ _ hp

theorem headPass_of_all_false {α : Type} (check : α → Bool) (l : List α)
    (h : ∀ x ∈ l, check x = false) : headPass check l = false := by
  cases l with
  | nil => rfl
  | cons x xs => exact h x (List.mem_cons_self x xs)

theorem headPass_of_all_true {α : Type} (check : α → Bool) (l : List α)
    (h : ∀ x ∈ l, check x = true) (hne : l ≠ []) : headPass check l = true := by
  cases l with
  | nil => exact absurd rfl hne
  | cons x xs => exact h x (List.mem_cons_self x xs)

theorem headFail_of_all_true {α : Type} (check : α → Bool) (l : List α)
    (h : ∀ x ∈ l, check x = true) : headFail check l = false := by
  cases l with
  | nil => rfl
  | cons x xs => simp [headFail, h x (List.mem_cons_self x xs)]

theorem anyFail_of_all_true {α : Type} (check : α → Bool) (l : List α)
    (h : ∀ x ∈ l, check x = true) : l.any (fun x => !check x) = false := by
  rw [List.any_eq_false]
  intro x hx
  simp [h x hx]

theorem scanFail_of_all_true {α : Type} (check : α → Bool) (b : Bool) (l : List α)
    (h : ∀ x ∈ l, check x = true) :
    (if b then headFail check l else l.any (fun x => !check x)) = false := by
  cases b
  · simpa using anyFail_of_all_true check l h
  · simpa using headFail_of_all_true check l h

theorem GetKey_of_no_master_key (address : E.CKeyID) (s : CCryptoKeyStore E)
    (hc : s.fUseCrypto = true) (hl : s.vMasterKey = []) : GetKey address s = (false, none) := by
  simp only [GetKey, IsCrypted, hc, hl, Bool.not_true, Bool.false_eq_true, if_false]
  split
  · exact DecryptKey_nil E _ _
  · rfl

theorem Lock_of_crypted (s : CCryptoKeyStore E) (hc : s.fUseCrypto = true) :
    s.Lock = (true, { s with vMasterKey := [] }) := by
  simp [Lock, SetCrypted_of_crypted s hc]

theorem Unlock_all_pass (s : CCryptoKeyStore E) (M : Bytes)
    (hc : s.fUseCrypto = true)
    (hne : s.holdsCryptedHDSeed = true ∨ s.mapCryptedKeys ≠ [] ∨
      s.mapCryptedSproutSpendingKeys ≠ [] ∨ s.mapCryptedSaplingSpendingKeys ≠ [])
    (hseed : s.holdsCryptedHDSeed = true → checkHDSeed E M s.cryptedHDSeed = true)
    (hk : ∀ e ∈ s.mapCryptedKeys, checkKey E M e = true)
    (hs : ∀ e ∈ s.mapCryptedSproutSpendingKeys, checkSprout E M e = true)
    (ha : ∀ e ∈ s.mapCryptedSaplingSpendingKeys, checkSapling E M e = true) :
    s.Unlock M = .returned true
      { s with vMasterKey := M, fDecryptionThoroughlyChecked := true } ∧ M ≠ [] := by
  have hsf : s.seedFail M = false := by
    unfold seedFail
    cases hh : s.holdsCryptedHDSeed
    · rfl
    · simp [hseed hh]
  have hpass : s.firstPass M = true ∧ M.length = 32 := by
    rcases hne with h | h | h | h
    · refine ⟨?_, checkHDSeed_length M _ (hseed h)⟩
      simp [firstPass, seedPass, h, hseed h]
    · have hp := headPass_of_all_true _ _ hk h
      refine ⟨by simp [firstPass, hp], ?_⟩
      cases hl : s.mapCryptedKeys with
      | nil => exact absurd hl h
      | cons x xs => exact checkKey_length M x (hk x (by rw [hl]; exact List.mem_cons_self x xs))
    · have hp := headPass_of_all_true _ _ hs h
      refine ⟨by simp [firstPass, hp], ?_⟩
      cases hl : s.mapCryptedSproutSpendingKeys with
      | nil => exact absurd hl h
      | cons x xs =>
        exact checkSprout_length M x (hs x (by rw [hl]; exact List.mem_cons_self x xs))
    · have hp := headPass_of_all_true _ _ ha h
      refine ⟨by simp [firstPass, hp], ?_⟩
      cases hl : s.mapCryptedSaplingSpendingKeys with
      | nil => exact absurd hl h
      | cons x xs =>
        exact checkSapling_length M x (ha x (by rw [hl]; exact List.mem_cons_self x xs))
  obtain ⟨hfp, hlen⟩ := hpass
  have hM : M ≠ [] := by
    intro h0
    rw [h0] at hlen
    simp at hlen
  refine ⟨?_, hM⟩
  rw [Unlock_of_crypted M s hc, unlockFlags_eq, hfp, hsf,
    scanFail_of_all_true _ _ _ hk, scanFail_of_all_true _ _ _ hs,
    scanFail_of_all_true _ _ _ ha]
  simp

end CCryptoKeyStore

/-! ## C5 -/

/-- C5: for an EncryptedLocked store and a candidate under which no stored record
decrypts and verifies, `Unlock` returns false, the store is unchanged (still
encrypted, master key still empty, `IsLocked`), and `GetKey` returns false for
every key id. -/
theorem C5_unlock_wrong_key_stays_locked (E : Env) (s : CCryptoKeyStore E) (M' : Bytes)
    (hc : s.fUseCrypto = true) (hl : s.vMasterKey = [])
    (hseed : s.holdsCryptedHDSeed = true → checkHDSeed E M' s.cryptedHDSeed = false)
    (hk : ∀ e ∈ s.mapCryptedKeys, checkKey E M' e = false)
    (hs : ∀ e ∈ s.mapCryptedSproutSpendingKeys, checkSprout E M' e = false)
    (ha : ∀ e ∈ s.mapCryptedSaplingSpendingKeys, checkSapling E M' e = false) :
    s.Unlock M' = .returned false s ∧ s.IsLocked = true ∧ s.vMasterKey = [] ∧
      ∀ address, GetKey address s = (false, none) := by
  have hfp : s.firstPass M' = false := by
    have h0 : s.seedPass M' = false := by
      unfold seedPass
      cases hh : s.holdsCryptedHDSeed
      · rfl
      · simp [hseed hh]
    simp [firstPass, h0, headPass_of_all_false _ _ hk, headPass_of_all_false _ _ hs,
      headPass_of_all_false _ _ ha]
  refine ⟨?_, ?_, hl, fun address => GetKey_of_no_master_key address s hc hl⟩
  · rw [Unlock_of_crypted M' s hc, unlockFlags_eq, hfp]
    simp
  · simp [IsLocked, IsCrypted, hc, hl]

/-- Witness of C5: the one-key store encrypted under `keyAA` and locked, with the
candidate `keyBB`. -/
theorem C5_unlock_wrong_key_stays_locked_witness :
    toyLocked.Unlock keyBB = .returned false toyLocked ∧ toyLocked.IsLocked = true ∧
      toyLocked.vMasterKey = [] ∧ ∀ address, GetKey address toyLocked = (false, none) :=
  C5_unlock_wrong_key_stays_locked toyEnv toyLocked keyBB (by decide) (by decide) (by decide)
    (by decide) (by decide) (by decide)

/-! ## C6 -/

/-- C6 (counterexample): on the fresh Plaintext store `Unlock` returns false and
leaves the store in encrypted mode. -/
theorem C6_counterexample :
    toyFresh.Unlock keyAA = .returned false toyCrypted ∧
      toyFresh.fUseCrypto = false ∧ toyCrypted.fUseCrypto = true :=
  ⟨rfl, rfl, rfl⟩

/-- C6 (amended): when `Unlock` returns false, every field other than the mode
flag `fUseCrypto` is as before the call; the store as a whole is unchanged when
it was already encrypted, and a Plaintext store ends in encrypted mode exactly
when its three plaintext key maps are empty (the `SetCrypted` call at the start
of `Unlock`). -/
theorem C6_unlock_false_frame (E : Env) (s t : CCryptoKeyStore E) (M : Bytes)
    (h : s.Unlock M = .returned false t) :
    t = { s with fUseCrypto := t.fUseCrypto } ∧
    (s.fUseCrypto = true → t = s) ∧
    (s.fUseCrypto = false → t.fUseCrypto =
      (s.mapKeys.isEmpty && s.mapSproutSpendingKeys.isEmpty
        && s.mapSaplingSpendingKeys.isEmpty)) := by
  have ht := Unlock_returned_false M s t h
  subst ht
  refine ⟨SetCrypted_frame s, ?_, ?_⟩
  · intro hc
    rw [SetCrypted_of_crypted s hc]
  · intro hc
    unfold SetCrypted
    simp only [hc, Bool.false_eq_true, if_false]
    split
    · next hne =>
      simp only [Bool.not_eq_true'] at hne
      simp [hc, hne]
    · next hne =>
      simp only [Bool.not_eq_true', Bool.not_eq_false] at hne
      simp [hne]

/-- Witness of C6 (amended): the locked one-key store with the candidate `keyBB`. -/
theorem C6_unlock_false_frame_witness :
    toyLocked.Unlock keyBB = .returned false toyLocked ∧
    (toyLocked = { toyLocked with fUseCrypto := toyLocked.fUseCrypto } ∧
    (toyLocked.fUseCrypto = true → toyLocked = toyLocked) ∧
    (toyLocked.fUseCrypto = false → toyLocked.fUseCrypto =
      (toyLocked.mapKeys.isEmpty && toyLocked.mapSproutSpendingKeys.isEmpty
        && toyLocked.mapSaplingSpendingKeys.isEmpty))) :=
  ⟨rfl, C6_unlock_false_frame toyEnv toyLocked toyLocked keyBB rfl⟩

/-! ## C7 -/

/-- C7: for an encrypted store that holds at least one record (a crypted HD seed,
i.e. a non-null stored fingerprint, or an entry of one of the three crypted key
maps) and a candidate under which every stored record passes its check,
`Unlock` returns true; afterwards the master key is the candidate, `IsLocked`
is false, `fDecryptionThoroughlyChecked` is true and nothing else changed. -/
theorem C7_unlock_good_key_succeeds (E : Env) (s : CCryptoKeyStore E) (M : Bytes)
    (hc : s.fUseCrypto = true)
    (hne : s.holdsCryptedHDSeed = true ∨ s.mapCryptedKeys ≠ [] ∨
      s.mapCryptedSproutSpendingKeys ≠ [] ∨ s.mapCryptedSaplingSpendingKeys ≠ [])
    (hseed : s.holdsCryptedHDSeed = true → checkHDSeed E M s.cryptedHDSeed = true)
    (hk : ∀ e ∈ s.mapCryptedKeys, checkKey E M e = true)
    (hs : ∀ e ∈ s.mapCryptedSproutSpendingKeys, checkSprout E M e = true)
    (ha : ∀ e ∈ s.mapCryptedSaplingSpendingKeys, checkSapling E M e = true) :
    ∃ t, s.Unlock M = .returned true t ∧
      t = { s with vMasterKey := M, fDecryptionThoroughlyChecked := true } ∧
      t.vMasterKey = M ∧ t.IsLocked = false ∧ t.fDecryptionThoroughlyChecked = true ∧
      t.cryptedHDSeed = s.cryptedHDSeed ∧ t.mapCryptedKeys = s.mapCryptedKeys ∧
      t.mapCryptedSproutSpendingKeys = s.mapCryptedSproutSpendingKeys ∧
      t.mapCryptedSaplingSpendingKeys = s.mapCryptedSaplingSpendingKeys := by
  obtain ⟨hun, hM⟩ := Unlock_all_pass s M hc hne hseed hk hs ha
  refine ⟨_, hun, rfl, rfl, ?_, rfl, rfl, rfl, rfl, rfl⟩
  simp [IsLocked, IsCrypted, hc, hM]

/-- Witness of C7: the one-key store encrypted under `keyAA` and locked, with the
candidate `keyAA`. -/
theorem C7_unlock_good_key_succeeds_witness :
    ∃ t, toyLocked.Unlock keyAA = .returned true t ∧
      t = { toyLocked with vMasterKey := keyAA, fDecryptionThoroughlyChecked := true } ∧
      t.vMasterKey = keyAA ∧ t.IsLocked = false ∧ t.fDecryptionThoroughlyChecked = true ∧
      t.cryptedHDSeed = toyLocked.cryptedHDSeed ∧ t.mapCryptedKeys = toyLocked.mapCryptedKeys ∧
      t.mapCryptedSproutSpendingKeys = toyLocked.mapCryptedSproutSpendingKeys ∧
      t.mapCryptedSaplingSpendingKeys = toyLocked.mapCryptedSaplingSpendingKeys :=
  C7_unlock_good_key_succeeds toyEnv toyLocked keyAA (by decide)
    (Or.inr (Or.inl (List.ne_nil_of_length_pos (by decide)))) (by decide)
    (by decide) (by decide) (by decide)

/-! ## C8 -/

/-- C8 (counterexample): the store `toyTamperedLast` has been thoroughly checked
and holds a good record followed by one that does not decrypt under `keyAA`;
`Unlock` under `keyAA` returns true all the same. -/
theorem C8_counterexample :
    (toyTamperedLast.Unlock keyAA).isTrue = true ∧
      ∃ e ∈ toyTamperedLast.mapCryptedKeys, checkKey toyEnv keyAA e = false := by
  decide

/-- C8 (amended): when `Unlock` returns true, the crypted HD seed (when its
fingerprint is not null) and the first record of each of the three crypted key
maps decrypt under the candidate and recompute to their identifier; when in
addition `fDecryptionThoroughlyChecked` was false before the call, every
record of the three maps does. -/
theorem C8_unlock_true_records_verified (E : Env) (s t : CCryptoKeyStore E) (M : Bytes)
    (h : s.Unlock M = .returned true t) :
    (s.holdsCryptedHDSeed = true → checkHDSeed E M s.cryptedHDSeed = true) ∧
    headFail (checkKey E M) s.mapCryptedKeys = false ∧
    headFail (checkSprout E M) s.mapCryptedSproutSpendingKeys = false ∧
    headFail (checkSapling E M) s.mapCryptedSaplingSpendingKeys = false ∧
    (s.fDecryptionThoroughlyChecked = false →
      (∀ e ∈ s.mapCryptedKeys, checkKey E M e = true) ∧
      (∀ e ∈ s.mapCryptedSproutSpendingKeys, checkSprout E M e = true) ∧
      (∀ e ∈ s.mapCryptedSaplingSpendingKeys, checkSapling E M e = true)) := by
  obtain ⟨hflags, -, -⟩ := Unlock_returned_true M s t h
  rw [unlockFlags_eq] at hflags
  have hf := congrArg Prod.snd hflags
  simp only [Bool.or_eq_false_iff] at hf
  obtain ⟨⟨⟨h0, h1⟩, h2⟩, h3⟩ := hf
  refine ⟨?_, ?_, ?_, ?_, ?_⟩
  · intro hh
    unfold seedFail at h0
    rw [hh] at h0
    simpa using h0
  · cases hb : s.fDecryptionThoroughlyChecked
    · rw [hb] at h1
      simp only [Bool.false_eq_true, if_false, List.any_eq_false] at h1
      cases hl : s.mapCryptedKeys with
      | nil => rfl
      | cons x xs =>
        have := h1 x (by rw [hl]; exact List.mem_cons_self x xs)
        simpa [headFail] using this
    · rw [hb] at h1
      simpa using h1
  · cases hb : s.fDecryptionThoroughlyChecked
    · rw [hb] at h2
      simp only [Bool.false_eq_true, if_false, List.any_eq_false] at h2
      cases hl : s.mapCryptedSproutSpendingKeys with
      | nil => rfl
      | cons x xs =>
        have := h2 x (by rw [hl]; exact List.mem_cons_self x xs)
        simpa [headFail] using this
    · rw [hb] at h2
      simpa using h2
  · cases hb : s.fDecryptionThoroughlyChecked
    · rw [hb] at h3
      simp only [Bool.false_eq_true, if_false, List.any_eq_false] at h3
      cases hl : s.mapCryptedSaplingSpendingKeys with
      | nil => rfl
      | cons x xs =>
        have := h3 x (by rw [hl]; exact List.mem_cons_self x xs)
        simpa [headFail] using this
    · rw [hb] at h3
      simpa using h3
  · intro hb
    rw [hb] at h1 h2 h3
    simp only [Bool.false_eq_true, if_false, List.any_eq_false] at h1 h2 h3
    refine ⟨fun e he => ?_, fun e he => ?_, fun e he => ?_⟩
    · simpa using h1 e he
    · simpa using h2 e he
    · simpa using h3 e he

/-- Witness of C8 (amended): the locked one-key store unlocked under `keyAA`. -/
theorem C8_unlock_true_records_verified_witness :
    toyLocked.Unlock keyAA = .returned true toyUnlocked ∧
    ((toyLocked.holdsCryptedHDSeed = true → checkHDSeed toyEnv keyAA toyLocked.cryptedHDSeed = true) ∧
    headFail (checkKey toyEnv keyAA) toyLocked.mapCryptedKeys = false ∧
    headFail (checkSprout toyEnv keyAA) toyLocked.mapCryptedSproutSpendingKeys = false ∧
    headFail (checkSapling toyEnv keyAA) toyLocked.mapCryptedSaplingSpendingKeys = false ∧
    (toyLocked.fDecryptionThoroughlyChecked = false →
      (∀ e ∈ toyLocked.mapCryptedKeys, checkKey toyEnv keyAA e = true) ∧
      (∀ e ∈ toyLocked.mapCryptedSproutSpendingKeys, checkSprout toyEnv keyAA e = true) ∧
      (∀ e ∈ toyLocked.mapCryptedSaplingSpendingKeys, checkSapling toyEnv keyAA e = true))) :=
  ⟨rfl, C8_unlock_true_records_verified toyEnv toyLocked toyUnlocked keyAA rfl⟩

/-! ## C9 -/

/-- C9 (counterexample): in `toyTamperedFirst` exactly one record fails under
`keyAA` and the other record passes, yet `Unlock` under `keyAA` returns false
instead of reaching the assertion: the tampered record is the first of its map
and the loop is left before the good record is examined. -/
theorem C9_counterexample :
    toyTamperedFirst.fUseCrypto = true ∧
    (toyTamperedFirst.recordChecks keyAA).count false = 1 ∧
    (toyTamperedFirst.recordChecks keyAA).count true = 1 ∧
    toyTamperedFirst.Unlock keyAA = .returned false toyTamperedFirst := by
  refine ⟨by decide, by decide, by decide, rfl⟩

/-- C9 (amended): for an encrypted store that has not been thoroughly checked
and in which exactly one stored record fails under `M`, `Unlock(M)` reaches the
fatal assertion exactly when the crypted HD seed or the first record of one of
the three crypted key maps passes under `M`; otherwise (the tampered record is
the first of its map and nothing is stored outside the rest of that map) it
returns false and leaves the store unchanged. It never returns true. -/
theorem C9_unlock_one_tampered_record (E : Env) (s : CCryptoKeyStore E) (M : Bytes)
    (hc : s.fUseCrypto = true) (hb : s.fDecryptionThoroughlyChecked = false)
    (hone : (s.recordChecks M).count false = 1) :
    (s.Unlock M = .assertFailed ↔ s.firstPass M = true) ∧
    (s.firstPass M = false → s.Unlock M = .returned false s) ∧
    (s.Unlock M).isTrue = false := by
  have hmem : false ∈ s.recordChecks M := by
    apply List.count_pos_iff.mp
    omega
  have hfail : (unlockFlags M s).2 = true := by
    rw [unlockFlags_eq]
    simp only [hb, Bool.false_eq_true, if_false]
    unfold recordChecks at hmem
    simp only [List.mem_append, List.mem_map] at hmem
    rcases hmem with ((h | h) | h) | h
    · have : s.seedFail M = true := by
        unfold seedFail
        cases hh : s.holdsCryptedHDSeed
        · rw [hh] at h
          simp at h
        · rw [hh] at h
          simp only [if_true, List.mem_singleton] at h
          simp [← h]
      simp [this]
    · obtain ⟨e, he, hx⟩ := h
      have : s.mapCryptedKeys.any (fun x => !checkKey E M x) = true :=
        List.any_eq_true.mpr ⟨e, he, by simp [hx]⟩
      simp [this]
    · obtain ⟨e, he, hx⟩ := h
      have : s.mapCryptedSproutSpendingKeys.any (fun x => !checkSprout E M x) = true :=
        List.any_eq_true.mpr ⟨e, he, by simp [hx]⟩
      simp [this]
    · obtain ⟨e, he, hx⟩ := h
      have : s.mapCryptedSaplingSpendingKeys.any (fun x => !checkSapling E M x) = true :=
        List.any_eq_true.mpr ⟨e, he, by simp [hx]⟩
      simp [this]
  have hpass : (unlockFlags M s).1 = s.firstPass M := by
    rw [unlockFlags_eq]
  rw [Unlock_of_crypted M s hc, hfail, hpass]
  cases s.firstPass M <;> simp [UnlockResult.isTrue]

/-- Witness of C9 (amended): in `toyTamperedSecond` the tampered record follows a
good one, and `Unlock` reaches the assertion. -/
theorem C9_unlock_one_tampered_record_witness :
    toyTamperedSecond.Unlock keyAA = .assertFailed ∧
    ((toyTamperedSecond.Unlock keyAA = .assertFailed ↔
        toyTamperedSecond.firstPass keyAA = true) ∧
    (toyTamperedSecond.firstPass keyAA = false →
        toyTamperedSecond.Unlock keyAA = .returned false toyTamperedSecond) ∧
    (toyTamperedSecond.Unlock keyAA).isTrue = false) :=
  ⟨rfl, C9_unlock_one_tampered_record toyEnv toyTamperedSecond keyAA (by decide) (by decide)
    (by decide)⟩

/-! ## C10 -/

/-- C10 (counterexample): a seed stored under the null fingerprint is replaced by
the next `SetCryptedHDSeed`. -/
theorem C10_counterexample :
    (toyCrypted.SetCryptedHDSeed uint256.zero [1]).1 = true ∧
    ((toyCrypted.SetCryptedHDSeed uint256.zero [1]).2.SetCryptedHDSeed
      (uint256.ofByte 7) [2]).1 = true ∧
    ((toyCrypted.SetCryptedHDSeed uint256.zero [1]).2.SetCryptedHDSeed
      (uint256.ofByte 7) [2]).2.cryptedHDSeed = (uint256.ofByte 7, [2]) := by
  decide

/-- C10 (amended): when `SetCryptedHDSeed(fp1, c1)` returns true and `fp1` is not
the null fingerprint, an immediately following `SetCryptedHDSeed(fp2, c2)`
returns false and leaves the store, holding `(fp1, c1)`, unchanged. -/
theorem C10_crypted_seed_write_once (E : Env) (s : CCryptoKeyStore E) (fp1 fp2 : uint256)
    (c1 c2 : Bytes) (hfp : fp1.IsNull = false)
    (h : (s.SetCryptedHDSeed fp1 c1).1 = true) :
    ((s.SetCryptedHDSeed fp1 c1).2.SetCryptedHDSeed fp2 c2).1 = false ∧
    ((s.SetCryptedHDSeed fp1 c1).2.SetCryptedHDSeed fp2 c2).2.cryptedHDSeed = (fp1, c1) ∧
    ((s.SetCryptedHDSeed fp1 c1).2.SetCryptedHDSeed fp2 c2).2 = (s.SetCryptedHDSeed fp1 c1).2 := by
  unfold SetCryptedHDSeed at h ⊢
  cases hcr : s.IsCrypted <;> cases hn : s.cryptedHDSeed.1.IsNull <;>
    simp_all [IsCrypted]

/-- Witness of C10 (amended): fingerprint `0x07 .. 07` on the empty encrypted store. -/
theorem C10_crypted_seed_write_once_witness :
    (((toyCrypted.SetCryptedHDSeed (uint256.ofByte 7) [1]).2.SetCryptedHDSeed
        uint256.zero [2]).1 = false ∧
    ((toyCrypted.SetCryptedHDSeed (uint256.ofByte 7) [1]).2.SetCryptedHDSeed
        uint256.zero [2]).2.cryptedHDSeed = (uint256.ofByte 7, [1]) ∧
    ((toyCrypted.SetCryptedHDSeed (uint256.ofByte 7) [1]).2.SetCryptedHDSeed
        uint256.zero [2]).2 = (toyCrypted.SetCryptedHDSeed (uint256.ofByte 7) [1]).2) :=
  C10_crypted_seed_write_once toyEnv toyCrypted (uint256.ofByte 7) uint256.zero [1] [2]
    (by decide) (by decide)

/-! ## `std::map` lemmas -/

theorem mapFind_mapAssign_self {K V : Type} (lt : K → K → Bool) (hI : LtIrreflexive lt)
    (m : List (K × V)) (k : K) (v : V) : mapFind lt (mapAssign lt m k v) k = some v := by
  induction m with
  | nil => simp [mapAssign, mapFind, hI k]
  | cons e r ih =>
    obtain ⟨k', v'⟩ := e
    unfold mapAssign
    cases h1 : lt k k'
    · cases h2 : lt k' k
      · simp [mapFind, h1, h2]
      · simp [mapFind, h1, h2, ih]
    · simp [mapFind, hI k]

theorem mapFind_mapAssign_ne {K V : Type} (lt : K → K → Bool) (hT : LtTrichotomous lt)
    (m : List (K × V)) (k k2 : K) (v : V) (hne : k2 ≠ k) :
    mapFind lt (mapAssign lt m k v) k2 = mapFind lt m k2 := by
  have hk : (!lt k k2 && !lt k2 k) = false := by
    cases h1 : lt k k2 <;> cases h2 : lt k2 k <;> simp
    exact hne (hT k k2 h1 h2).symm
  induction m with
  | nil => simp [mapAssign, mapFind, hk]
  | cons e r ih =>
    obtain ⟨k', v'⟩ := e
    unfold mapAssign
    cases h1 : lt k k'
    · cases h2 : lt k' k
      · have hkk : k = k' := hT k k' h1 h2
        subst hkk
        simp [mapFind, hk]
      · simp only [Bool.false_eq_true, if_false, if_true, mapFind, ih]
    · simp [mapFind, hk]

theorem mem_mapAssign {K V : Type} (lt : K → K → Bool) (hT : LtTrichotomous lt)
    (m : List (K × V)) (k : K) (v : V) (e : K × V) (he : e ∈ mapAssign lt m k v) :
    e ∈ m ∨ e = (k, v) := by
  induction m with
  | nil =>
    simp only [mapAssign, List.mem_singleton] at he
    exact Or.inr he
  | cons x r ih =>
    obtain ⟨k', v'⟩ := x
    unfold mapAssign at he
    cases h1 : lt k k'
    · cases h2 : lt k' k
      · have hkk : k = k' := hT k k' h1 h2
        subst hkk
        simp only [h1, Bool.false_eq_true, if_false, List.mem_cons] at he
        rcases he with he | he
        · exact Or.inr he
        · exact Or.inl (List.mem_cons_of_mem _ he)
      · simp only [h1, h2, Bool.false_eq_true, if_false, if_true, List.mem_cons] at he
        rcases he with he | he
        · exact Or.inl (by rw [he]; exact List.mem_cons_self _ _)
        · rcases ih he with h | h
          · exact Or.inl (List.mem_cons_of_mem _ h)
          · exact Or.inr h
    · simp only [h1, if_true, List.mem_cons] at he
      rcases he with he | he | he
      · exact Or.inr he
      · exact Or.inl (by rw [he]; exact List.mem_cons_self _ _)
      · exact Or.inl (List.mem_cons_of_mem _ he)

theorem mapAssign_ne_nil {K V : Type} (lt : K → K → Bool) (m : List (K × V)) (k : K) (v : V) :
    mapAssign lt m k v ≠ [] := by
  cases m with
  | nil => simp [mapAssign]
  | cons x r =>
    obtain ⟨k', v'⟩ := x
    unfold mapAssign
    cases lt k k' <;> cases lt k' k <;> simp

/-! ## Lemmas on `encFold` -/

theorem encFold_mem {α K V : Type} (lt : K → K → Bool) (hT : LtTrichotomous lt)
    (f : α → Option (K × V)) (l : List α) (m m' : List (K × V))
    (h : encFold lt f l m = some m') (e : K × V) (he : e ∈ m') :
    e ∈ m ∨ ∃ x ∈ l, f x = some e := by
  induction l generalizing m with
  | nil =>
    simp only [encFold, Option.some.injEq] at h
    subst h
    exact Or.inl he
  | cons x xs ih =>
    unfold encFold at h
    cases hf : f x with
    | none => simp [hf] at h
    | some kv =>
      simp only [hf] at h
      rcases ih _ h with h1 | ⟨y, hy, hfy⟩
      · rcases mem_mapAssign lt hT m kv.1 kv.2 e h1 with h2 | h2
        · exact Or.inl h2
        · exact Or.inr ⟨x, List.mem_cons_self _ _, by rw [hf, h2]⟩
      · exact Or.inr ⟨y, List.mem_cons_of_mem _ hy, hfy⟩

theorem encFold_ne_nil {α K V : Type} (lt : K → K → Bool)
    (f : α → Option (K × V)) (l : List α) (m m' : List (K × V))
    (h : encFold lt f l m = some m') (hne : l ≠ [] ∨ m ≠ []) : m' ≠ [] := by
  induction l generalizing m with
  | nil =>
    simp only [encFold, Option.some.injEq] at h
    subst h
    rcases hne with h | h
    · exact absurd rfl h
    · exact h
  | cons x xs ih =>
    unfold encFold at h
    cases hf : f x with
    | none => simp [hf] at h
    | some kv =>
      simp only [hf] at h
      exact ih _ h (Or.inr (mapAssign_ne_nil lt m kv.1 kv.2))

theorem encFold_nil_of_nil {α K V : Type} (lt : K → K → Bool)
    (f : α → Option (K × V)) (m' : List (K × V))
    (h : encFold lt f [] ([] : List (K × V)) = some m') : m' = [] := by
  simp only [encFold, Option.some.injEq] at h
  exact h.symm

theorem encFold_find_other {α K V : Type} (lt : K → K → Bool) (hT : LtTrichotomous lt)
    (f : α → Option (K × V)) (l : List α) (m m' : List (K × V))
    (h : encFold lt f l m = some m') (k : K)
    (hk : ∀ x ∈ l, ∀ kv, f x = some kv → kv.1 ≠ k) :
    mapFind lt m' k = mapFind lt m k := by
  induction l generalizing m with
  | nil =>
    simp only [encFold, Option.some.injEq] at h
    subst h
    rfl
  | cons x xs ih =>
    unfold encFold at h
    cases hf : f x with
    | none => simp [hf] at h
    | some kv =>
      simp only [hf] at h
      rw [ih _ h (fun y hy => hk y (List.mem_cons_of_mem _ hy))]
      exact mapFind_mapAssign_ne lt hT m kv.1 k kv.2
        (fun hh => hk x (List.mem_cons_self _ _) kv hf hh.symm)

theorem encFold_find {α K V : Type} (lt : K → K → Bool) (hI : LtIrreflexive lt)
    (hT : LtTrichotomous lt) (f : α → Option (K × V)) (l : List α) (m m' : List (K × V))
    (h : encFold lt f l m = some m')
    (hd : l.Pairwise (fun x y => ∀ a b, f x = some a → f y = some b → a.1 ≠ b.1))
    (x : α) (hx : x ∈ l) :
    ∃ kv, f x = some kv ∧ mapFind lt m' kv.1 = some kv.2 := by
  induction l generalizing m with
  | nil => exact absurd hx (List.not_mem_nil x)
  | cons y ys ih =>
    unfold encFold at h
    cases hf : f y with
    | none => simp [hf] at h
    | some kv =>
      simp only [hf] at h
      rw [List.pairwise_cons] at hd
      rcases List.mem_cons.mp hx with hxy | hxy
      · subst hxy
        refine ⟨kv, hf, ?_⟩
        rw [encFold_find_other lt hT f ys _ m' h kv.1
          (fun z hz b hb => (hd.1 z hz kv b hf hb).symm)]
        exact mapFind_mapAssign_self lt hI m kv.1 kv.2
      · exact ih _ h hd.2 hxy

/-! ## The loops of `EncryptKeys` -/

namespace CCryptoKeyStore

variable {E : Env}

theorem forEachOk_rel {α σ : Type} (body : α → σ → Bool × σ) (R : σ → σ → Prop)
    (hrefl : ∀ s, R s s) (htrans : ∀ a b c, R a b → R b c → R a c)
    (hbody : ∀ x s, R s (body x s).2) (l : List α) (s : σ) :
    R s (forEachOk body l s).2 := by
  induction l generalizing s with
  | nil => exact hrefl s
  | cons x xs ih =>
    unfold forEachOk
    have hb := hbody x s
    generalize body x s = r at hb ⊢
    obtain ⟨b, s1⟩ := r
    cases b
    · exact hb
    · exact htrans _ _ _ hb (ih s1)

theorem forEachOk_cons {α σ : Type} (body : α → σ → Bool × σ) (x : α) (xs : List α) (s : σ) :
    forEachOk body (x :: xs) s =
      match body x s with
      | (false, s1) => (false, s1)
      | (true, s1) => forEachOk body xs s1 := rfl

theorem EncryptKeys_key_eq (M : Bytes) (x : E.CKeyID × E.CKey) (s : CCryptoKeyStore E)
    (hc : s.fUseCrypto = true) :
    EncryptKeys_key M x s =
      match EncryptSecret E M (E.CKey_bytes x.2) (E.CPubKey_GetHash (E.CKey_GetPubKey x.2)) with
      | none => (false, s)
      | some ct => (true, { s with
          mapCryptedKeys := mapAssign E.CKeyID_lt s.mapCryptedKeys
            (E.CPubKey_GetID (E.CKey_GetPubKey x.2)) (E.CKey_GetPubKey x.2, ct) }) := by
  unfold EncryptKeys_key
  split <;> simp [*, AddCryptedKey, SetCrypted_of_crypted s hc]

theorem EncryptKeys_sprout_eq (M : Bytes) (x : E.SproutPaymentAddress × E.SproutSpendingKey)
    (s : CCryptoKeyStore E) (hc : s.fUseCrypto = true) :
    EncryptKeys_sprout M x s =
      match EncryptSecret E M (E.SproutSpendingKey_ser x.2)
          (E.SproutPaymentAddress_GetHash (E.SproutSpendingKey_address x.2)) with
      | none => (false, s)
      | some ct => (true, { s with
          mapCryptedSproutSpendingKeys :=
            mapAssign E.SproutPaymentAddress_lt s.mapCryptedSproutSpendingKeys
              (E.SproutSpendingKey_address x.2) ct,
          mapNoteDecryptors :=
            mapInsert E.SproutPaymentAddress_lt s.mapNoteDecryptors
              (E.SproutSpendingKey_address x.2)
              (E.ZCNoteDecryption_ofKey (E.SproutSpendingKey_receiving_key x.2)) }) := by
  unfold EncryptKeys_sprout
  split <;> simp [*, AddCryptedSproutSpendingKey, SetCrypted_of_crypted s hc]

theorem EncryptKeys_sapling_eq (M : Bytes)
    (x : E.SaplingExtendedFullViewingKey × E.SaplingExtendedSpendingKey)
    (s : CCryptoKeyStore E) (hc : s.fUseCrypto = true) :
    EncryptKeys_sapling M x s =
      match EncryptSecret E M (E.SaplingExtendedSpendingKey_ser x.2)
          (E.SaplingExtendedFullViewingKey_GetFingerprint
            (E.SaplingExtendedSpendingKey_ToXFVK x.2)) with
      | none => (false, s)
      | some ct =>
        match E.Basic_AddSaplingExtendedFullViewingKey
            (E.SaplingExtendedSpendingKey_ToXFVK x.2) s.shielded with
        | (false, idx) => (false, { s with shielded := idx })
        | (true, idx) => (true, { s with
            shielded := idx,
            mapCryptedSaplingSpendingKeys :=
              mapAssign E.SaplingExtendedFullViewingKey_lt s.mapCryptedSaplingSpendingKeys
                (E.SaplingExtendedSpendingKey_ToXFVK x.2) ct }) := by
  unfold EncryptKeys_sapling
  split <;> simp [*, AddCryptedSaplingSpendingKey, SetCrypted_of_crypted s hc]

theorem keysLoop_true (M : Bytes) (l : List (E.CKeyID × E.CKey)) (s t : CCryptoKeyStore E)
    (hc : s.fUseCrypto = true) (h : forEachOk (EncryptKeys_key M) l s = (true, t)) :
    ∃ m, encFold E.CKeyID_lt (encKeyEntry E M) l s.mapCryptedKeys = some m ∧
      t = { s with mapCryptedKeys := m } := by
  induction l generalizing s with
  | nil =>
    simp only [forEachOk, Prod.mk.injEq, true_and] at h
    exact ⟨s.mapCryptedKeys, rfl, h.symm⟩
  | cons x xs ih =>
    rw [forEachOk_cons, EncryptKeys_key_eq M x s hc] at h
    cases hes : EncryptSecret E M (E.CKey_bytes x.2)
        (E.CPubKey_GetHash (E.CKey_GetPubKey x.2)) with
    | none => simp [hes] at h
    | some ct =>
      simp only [hes] at h
      obtain ⟨m, hm, ht⟩ := ih { s with
          mapCryptedKeys := mapAssign E.CKeyID_lt s.mapCryptedKeys
            (E.CPubKey_GetID (E.CKey_GetPubKey x.2)) (E.CKey_GetPubKey x.2, ct) } hc h
      refine ⟨m, ?_, ht⟩
      simp only [encFold, encKeyEntry, hes, Option.map_some']
      exact hm

theorem sproutLoop_true (M : Bytes) (l : List (E.SproutPaymentAddress × E.SproutSpendingKey))
    (s t : CCryptoKeyStore E) (hc : s.fUseCrypto = true)
    (h : forEachOk (EncryptKeys_sprout M) l s = (true, t)) :
    ∃ m nd, encFold E.SproutPaymentAddress_lt (encSproutEntry E M) l
        s.mapCryptedSproutSpendingKeys = some m ∧
      t = { s with mapCryptedSproutSpendingKeys := m, mapNoteDecryptors := nd } := by
  induction l generalizing s with
  | nil =>
    simp only [forEachOk, Prod.mk.injEq, true_and] at h
    exact ⟨s.mapCryptedSproutSpendingKeys, s.mapNoteDecryptors, rfl, h.symm⟩
  | cons x xs ih =>
    rw [forEachOk_cons, EncryptKeys_sprout_eq M x s hc] at h
    cases hes : EncryptSecret E M (E.SproutSpendingKey_ser x.2)
        (E.SproutPaymentAddress_GetHash (E.SproutSpendingKey_address x.2)) with
    | none => simp [hes] at h
    | some ct =>
      simp only [hes] at h
      obtain ⟨m, nd, hm, ht⟩ := ih { s with
          mapCryptedSproutSpendingKeys :=
            mapAssign E.SproutPaymentAddress_lt s.mapCryptedSproutSpendingKeys
              (E.SproutSpendingKey_address x.2) ct,
          mapNoteDecryptors :=
            mapInsert E.SproutPaymentAddress_lt s.mapNoteDecryptors
              (E.SproutSpendingKey_address x.2)
              (E.ZCNoteDecryption_ofKey (E.SproutSpendingKey_receiving_key x.2)) } hc h
      refine ⟨m, nd, ?_, ht⟩
      simp only [encFold, encSproutEntry, hes, Option.map_some']
      exact hm

theorem saplingLoop_true (M : Bytes)
    (l : List (E.SaplingExtendedFullViewingKey × E.SaplingExtendedSpendingKey))
    (s t : CCryptoKeyStore E) (hc : s.fUseCrypto = true)
    (h : forEachOk (EncryptKeys_sapling M) l s = (true, t)) :
    ∃ m idx, encFold E.SaplingExtendedFullViewingKey_lt (encSaplingEntry E M) l
        s.mapCryptedSaplingSpendingKeys = some m ∧
      t = { s with mapCryptedSaplingSpendingKeys := m, shielded := idx } := by
  induction l generalizing s with
  | nil =>
    simp only [forEachOk, Prod.mk.injEq, true_and] at h
    exact ⟨s.mapCryptedSaplingSpendingKeys, s.shielded, rfl, h.symm⟩
  | cons x xs ih =>
    rw [forEachOk_cons, EncryptKeys_sapling_eq M x s hc] at h
    cases hes : EncryptSecret E M (E.SaplingExtendedSpendingKey_ser x.2)
        (E.SaplingExtendedFullViewingKey_GetFingerprint
          (E.SaplingExtendedSpendingKey_ToXFVK x.2)) with
    | none => simp [hes] at h
    | some ct =>
      simp only [hes] at h
      generalize hadd : E.Basic_AddSaplingExtendedFullViewingKey
        (E.SaplingExtendedSpendingKey_ToXFVK x.2) s.shielded = r at h
      obtain ⟨b, idx⟩ := r
      cases b
      · simp at h
      · simp only at h
        obtain ⟨m, idx', hm, ht⟩ := ih { s with
            shielded := idx,
            mapCryptedSaplingSpendingKeys :=
              mapAssign E.SaplingExtendedFullViewingKey_lt s.mapCryptedSaplingSpendingKeys
                (E.SaplingExtendedSpendingKey_ToXFVK x.2) ct } hc h
        refine ⟨m, idx', ?_, ht⟩
        simp only [encFold, encSaplingEntry, hes, Option.map_some']
        exact hm

/-- The relation "only the shielded index differs" between stores in encrypted mode. -/
theorem indexRel_refl (s : CCryptoKeyStore E) :
    s.fUseCrypto = true → ∃ idx, s = { s with shielded := idx } :=
  fun _ => ⟨s.shielded, rfl⟩

theorem indexRel_trans (a b c : CCryptoKeyStore E)
    (h1 : a.fUseCrypto = true → ∃ idx, b = { a with shielded := idx })
    (h2 : b.fUseCrypto = true → ∃ idx, c = { b with shielded := idx }) :
    a.fUseCrypto = true → ∃ idx, c = { a with shielded := idx } := by
  intro ha
  obtain ⟨i, hi⟩ := h1 ha
  have hb : b.fUseCrypto = true := by rw [hi]; exact ha
  obtain ⟨j, hj⟩ := h2 hb
  exact ⟨j, by rw [hj, hi]⟩

theorem EncryptKeys_extfvk_rel (M : Bytes) (x : E.SaplingExtendedFullViewingKey)
    (s : CCryptoKeyStore E) :
    s.fUseCrypto = true → ∃ idx, (EncryptKeys_extfvk M x s).2 = { s with shielded := idx } := by
  intro hc
  unfold EncryptKeys_extfvk
  split
  · split
    · exact ⟨s.shielded, rfl⟩
    · simp only [AddCryptedSaplingExtendedFullViewingKey, IsCrypted, hc, Bool.not_true,
        Bool.false_eq_true, if_false]
      exact ⟨_, rfl⟩
  · exact ⟨s.shielded, rfl⟩

theorem EncryptKeys_ivk_rel (M : Bytes)
    (x : E.SaplingPaymentAddress × E.SaplingIncomingViewingKey) (s : CCryptoKeyStore E) :
    s.fUseCrypto = true → ∃ idx, (EncryptKeys_ivk M x s).2 = { s with shielded := idx } := by
  intro hc
  unfold EncryptKeys_ivk
  split
  · exact ⟨s.shielded, rfl⟩
  · simp only [AddCryptedSaplingPaymentAddress, SetCrypted_of_crypted s hc]
    exact ⟨_, rfl⟩

theorem EncryptKeys_path_rel (M : Bytes)
    (x : E.SaplingPaymentAddress × (E.SaplingIncomingViewingKey × E.blob88))
    (s : CCryptoKeyStore E) :
    s.fUseCrypto = true → ∃ idx, (EncryptKeys_path M x s).2 = { s with shielded := idx } := by
  intro hc
  unfold EncryptKeys_path
  split
  · exact ⟨s.shielded, rfl⟩
  · simp only [AddCryptedSaplingDiversifiedAddress, SetCrypted_of_crypted s hc]
    exact ⟨_, rfl⟩

theorem EncryptKeys_index_rel (M : Bytes) (s : CCryptoKeyStore E) (hc : s.fUseCrypto = true) :
    ∃ idx, (EncryptKeys_index M s).2 = { s with shielded := idx } := by
  have h1 := forEachOk_rel (EncryptKeys_extfvk M)
    (fun a b : CCryptoKeyStore E => a.fUseCrypto = true → ∃ idx, b = { a with shielded := idx })
    indexRel_refl indexRel_trans (EncryptKeys_extfvk_rel M) (E.fullViewingKeys s.shielded) s
  unfold EncryptKeys_index
  generalize forEachOk (EncryptKeys_extfvk M) (E.fullViewingKeys s.shielded) s = r1 at h1 ⊢
  obtain ⟨b1, s1⟩ := r1
  cases b1
  · exact h1 hc
  · have h2 := forEachOk_rel (EncryptKeys_ivk M)
      (fun a b : CCryptoKeyStore E => a.fUseCrypto = true → ∃ idx, b = { a with shielded := idx })
      indexRel_refl indexRel_trans (EncryptKeys_ivk_rel M) (E.incomingViewingKeys s1.shielded) s1
    simp only
    generalize forEachOk (EncryptKeys_ivk M) (E.incomingViewingKeys s1.shielded) s1 = r2 at h2 ⊢
    obtain ⟨b2, s2⟩ := r2
    cases b2
    · exact indexRel_trans s s1 s2 h1 h2 hc
    · have h3 := forEachOk_rel (EncryptKeys_path M)
        (fun a b : CCryptoKeyStore E =>
          a.fUseCrypto = true → ∃ idx, b = { a with shielded := idx })
        indexRel_refl indexRel_trans (EncryptKeys_path_rel M) (E.paymentAddresses s2.shielded) s2
      exact indexRel_trans s s2 _ (indexRel_trans s s1 s2 h1 h2) h3 hc

end CCryptoKeyStore

namespace CCryptoKeyStore

variable {E : Env}

theorem EncryptKeys_hdSeed_true (M : Bytes) (s t : CCryptoKeyStore E)
    (hc : s.fUseCrypto = true) (h : EncryptKeys_hdSeed M s = (true, t)) :
    (E.HDSeed_IsNull s.hdSeed = true ∧ t = s) ∨
    (E.HDSeed_IsNull s.hdSeed = false ∧ s.cryptedHDSeed.1.IsNull = true ∧
      ∃ ct, EncryptSecret E M (E.HDSeed_RawSeed s.hdSeed) (E.HDSeed_Fingerprint s.hdSeed)
          = some ct ∧
        t = { s with cryptedHDSeed := (E.HDSeed_Fingerprint s.hdSeed, ct),
                     hdSeed := E.HDSeed_default }) := by
  unfold EncryptKeys_hdSeed at h
  cases hn : E.HDSeed_IsNull s.hdSeed
  · right
    simp only [hn, Bool.not_false, if_true] at h
    cases hes : EncryptSecret E M (E.HDSeed_RawSeed s.hdSeed) (E.HDSeed_Fingerprint s.hdSeed) with
    | none => simp [hes] at h
    | some ct =>
      have hic : s.IsCrypted = true := hc
      simp only [hes, SetCryptedHDSeed, hic, Bool.not_true, Bool.false_eq_true,
        if_false] at h
      cases hz : s.cryptedHDSeed.1.IsNull
      · simp [hz] at h
      · simp only [hz, Bool.not_true, Bool.false_eq_true, if_false, Prod.mk.injEq,
          true_and] at h
        exact ⟨rfl, rfl, ct, rfl, h.symm⟩
  · left
    simp only [hn, Bool.not_true, Bool.false_eq_true, if_false, Prod.mk.injEq, true_and] at h
    exact ⟨rfl, h.symm⟩

/-- What a successful `EncryptKeys` leaves: the store was in plaintext mode with an
empty crypted transparent map; afterwards it is in encrypted mode, the three
plaintext key maps are empty, each crypted key map is the fold of the
encryptions of the plaintext records, and the master key field and the
thoroughly-checked flag are as before. -/
theorem EncryptKeys_true (M : Bytes) (s : CCryptoKeyStore E)
    (h : (s.EncryptKeys M).1 = true) :
    s.fUseCrypto = false ∧ s.mapCryptedKeys = [] ∧
    ∃ seedC hd mk ms nd ma idx,
      (s.EncryptKeys M).2 =
        { s with fUseCrypto := true, hdSeed := hd, cryptedHDSeed := seedC, mapKeys := [],
                 mapSproutSpendingKeys := [], mapSaplingSpendingKeys := [],
                 mapCryptedKeys := mk, mapCryptedSproutSpendingKeys := ms,
                 mapNoteDecryptors := nd, mapCryptedSaplingSpendingKeys := ma,
                 shielded := idx } ∧
      encFold E.CKeyID_lt (encKeyEntry E M) s.mapKeys [] = some mk ∧
      encFold E.SproutPaymentAddress_lt (encSproutEntry E M) s.mapSproutSpendingKeys
        s.mapCryptedSproutSpendingKeys = some ms ∧
      encFold E.SaplingExtendedFullViewingKey_lt (encSaplingEntry E M) s.mapSaplingSpendingKeys
        s.mapCryptedSaplingSpendingKeys = some ma ∧
      ((E.HDSeed_IsNull s.hdSeed = true ∧ hd = s.hdSeed ∧ seedC = s.cryptedHDSeed) ∨
       (E.HDSeed_IsNull s.hdSeed = false ∧ hd = E.HDSeed_default ∧
        s.cryptedHDSeed.1.IsNull = true ∧
        ∃ ct, EncryptSecret E M (E.HDSeed_RawSeed s.hdSeed) (E.HDSeed_Fingerprint s.hdSeed)
            = some ct ∧ seedC = (E.HDSeed_Fingerprint s.hdSeed, ct))) := by
  unfold EncryptKeys at h ⊢
  cases hg1 : s.mapCryptedKeys.isEmpty
  · simp [hg1] at h
  cases hg2 : s.fUseCrypto
  swap
  · simp [hg1, hg2, IsCrypted] at h
  have hmk : s.mapCryptedKeys = [] := List.isEmpty_iff.mp hg1
  refine ⟨rfl, hmk, ?_⟩
  simp only [hg1, IsCrypted, hg2, Bool.not_true, Bool.or_false, Bool.false_eq_true,
    if_false] at h ⊢
  generalize hr1 : EncryptKeys_hdSeed M { s with fUseCrypto := true } = r1 at h ⊢
  obtain ⟨b1, s1⟩ := r1
  cases b1
  · simp at h
  simp only at h ⊢
  have hc1 : s1.fUseCrypto = true := by
    rcases EncryptKeys_hdSeed_true M _ s1 rfl hr1 with ⟨-, e⟩ | ⟨-, -, ct, -, e⟩ <;> rw [e]
  generalize hr2 : forEachOk (EncryptKeys_key M) s1.mapKeys s1 = r2 at h ⊢
  obtain ⟨b2, s2⟩ := r2
  cases b2
  · simp at h
  simp only at h ⊢
  obtain ⟨mk, hmkf, e2⟩ := keysLoop_true M _ s1 s2 hc1 hr2
  have hc2 : s2.fUseCrypto = true := by rw [e2]; exact hc1
  generalize hr3 : forEachOk (EncryptKeys_sprout M) s2.mapSproutSpendingKeys
    { s2 with mapKeys := [] } = r3 at h ⊢
  obtain ⟨b3, s3⟩ := r3
  cases b3
  · simp at h
  simp only at h ⊢
  obtain ⟨ms, nd, hmsf, e3⟩ := sproutLoop_true M _ { s2 with mapKeys := [] } s3 hc2 hr3
  have hc3 : s3.fUseCrypto = true := by rw [e3]; exact hc2
  generalize hr4 : forEachOk (EncryptKeys_sapling M) s3.mapSaplingSpendingKeys
    { s3 with mapSproutSpendingKeys := [] } = r4 at h ⊢
  obtain ⟨b4, s4⟩ := r4
  cases b4
  · simp at h
  simp only at h ⊢
  obtain ⟨ma, idx4, hmaf, e4⟩ :=
    saplingLoop_true M _ { s3 with mapSproutSpendingKeys := [] } s4 hc3 hr4
  have hc4 : s4.fUseCrypto = true := by rw [e4]; exact hc3
  obtain ⟨idx, e5⟩ := EncryptKeys_index_rel M s4 hc4
  generalize EncryptKeys_index M s4 = r5 at h e5 ⊢
  obtain ⟨b5, s5⟩ := r5
  cases b5
  · simp at h
  simp only at e5 ⊢
  rcases EncryptKeys_hdSeed_true M _ s1 rfl hr1 with ⟨hn, e1⟩ | ⟨hn, hz, ct, hes, e1⟩
  · refine ⟨s.cryptedHDSeed, s.hdSeed, mk, ms, nd, ma, idx, ?_, ?_, ?_, ?_, Or.inl ⟨hn, rfl, rfl⟩⟩
    · rw [e5, e4, e3, e2, e1]
    · rw [e1, hmk] at hmkf
      exact hmkf
    · rw [e2, e1] at hmsf
      exact hmsf
    · rw [e3, e2, e1] at hmaf
      exact hmaf
  · refine ⟨(E.HDSeed_Fingerprint s.hdSeed, ct), E.HDSeed_default, mk, ms, nd, ma, idx,
      ?_, ?_, ?_, ?_, Or.inr ⟨hn, rfl, hz, ct, hes, rfl⟩⟩
    · rw [e5, e4, e3, e2, e1]
    · rw [e1, hmk] at hmkf
      exact hmkf
    · rw [e2, e1] at hmsf
      exact hmsf
    · rw [e3, e2, e1] at hmaf
      exact hmaf

end CCryptoKeyStore

/-! ## Encryption followed by decryption -/

theorem EncryptSecret_DecryptSecret (E : Env) (hC : CipherInverts E) (M pt ct : Bytes)
    (nIV : uint256) (h : EncryptSecret E M pt nIV = some ct) :
    DecryptSecret E M ct nIV = some pt := by
  unfold EncryptSecret at h
  unfold DecryptSecret
  generalize CCrypter.fresh.SetKey M nIV.bytes = r at h ⊢
  obtain ⟨b, c⟩ := r
  cases b
  · simp at h
  · simp only [CCrypter.Encrypt] at h
    simp only [CCrypter.Decrypt]
    cases hk : c.fKeySet
    · simp [hk] at h
    · simp only [hk, Bool.not_true, Bool.false_eq_true, if_false] at h ⊢
      exact hC _ _ _ _ h

theorem DecryptKey_of_encKeyEntry (E : Env) (hC : CipherInverts E) (M : Bytes)
    (x : E.CKeyID × E.CKey) (hv : ValidKey E x.2) (e : E.CKeyID × (E.CPubKey × Bytes))
    (he : encKeyEntry E M x = some e) :
    e.1 = E.CPubKey_GetID (E.CKey_GetPubKey x.2) ∧
      DecryptKey E M e.2.2 e.2.1 = (true, some x.2) := by
  unfold encKeyEntry at he
  cases hes : EncryptSecret E M (E.CKey_bytes x.2) (E.CPubKey_GetHash (E.CKey_GetPubKey x.2)) with
  | none => simp [hes] at he
  | some ct =>
    simp only [hes, Option.map_some', Option.some.injEq] at he
    subst he
    refine ⟨rfl, ?_⟩
    obtain ⟨h32, hset, hver⟩ := hv
    simp only [DecryptKey, EncryptSecret_DecryptSecret E hC _ _ _ _ hes, h32, bne_self_eq_false,
      Bool.false_eq_true, if_false, hset, hver]

theorem checkSprout_of_encSproutEntry (E : Env) (hC : CipherInverts E) (M : Bytes)
    (x : E.SproutPaymentAddress × E.SproutSpendingKey) (hv : ValidSproutKey E x.2)
    (e : E.SproutPaymentAddress × Bytes) (he : encSproutEntry E M x = some e) :
    CCryptoKeyStore.checkSprout E M e = true := by
  unfold encSproutEntry at he
  cases hes : EncryptSecret E M (E.SproutSpendingKey_ser x.2)
      (E.SproutPaymentAddress_GetHash (E.SproutSpendingKey_address x.2)) with
  | none => simp [hes] at he
  | some ct =>
    simp only [hes, Option.map_some', Option.some.injEq] at he
    subst he
    obtain ⟨hlen, haddr⟩ := hv
    simp only [CCryptoKeyStore.checkSprout, DecryptSproutSpendingKey,
      EncryptSecret_DecryptSecret E hC _ _ _ _ hes, hlen, bne_self_eq_false,
      Bool.false_eq_true, if_false, haddr]

theorem checkSapling_of_encSaplingEntry (E : Env) (hC : CipherInverts E) (M : Bytes)
    (x : E.SaplingExtendedFullViewingKey × E.SaplingExtendedSpendingKey)
    (hv : ValidSaplingKey E x.2)
    (e : E.SaplingExtendedFullViewingKey × Bytes) (he : encSaplingEntry E M x = some e) :
    CCryptoKeyStore.checkSapling E M e = true := by
  unfold encSaplingEntry at he
  cases hes : EncryptSecret E M (E.SaplingExtendedSpendingKey_ser x.2)
      (E.SaplingExtendedFullViewingKey_GetFingerprint
        (E.SaplingExtendedSpendingKey_ToXFVK x.2)) with
  | none => simp [hes] at he
  | some ct =>
    simp only [hes, Option.map_some', Option.some.injEq] at he
    subst he
    obtain ⟨hlen, hfp⟩ := hv
    simp only [CCryptoKeyStore.checkSapling, DecryptSaplingSpendingKey,
      EncryptSecret_DecryptSecret E hC _ _ _ _ hes, hlen, bne_self_eq_false,
      Bool.false_eq_true, if_false, hfp, beq_self_eq_true]

theorem checkHDSeed_of_enc (E : Env) (hC : CipherInverts E) (M : Bytes) (seed : E.HDSeed)
    (hv : ValidSeed E seed) (ct : Bytes)
    (hes : EncryptSecret E M (E.HDSeed_RawSeed seed) (E.HDSeed_Fingerprint seed) = some ct) :
    CCryptoKeyStore.checkHDSeed E M (E.HDSeed_Fingerprint seed, ct) = true := by
  unfold ValidSeed at hv
  simp only [CCryptoKeyStore.checkHDSeed, DecryptHDSeed,
    EncryptSecret_DecryptSecret E hC _ _ _ _ hes, hv, beq_self_eq_true]

/-! ## C3 -/

/-- C3 (counterexample): `EncryptKeys` under `keyAA` returns true on the one-key
store, and afterwards the store holds no master key and `IsLocked` is true. -/
theorem C3_counterexample :
    (toyOneKey.EncryptKeys keyAA).1 = true ∧
    (toyOneKey.EncryptKeys keyAA).2.IsLocked = true ∧
    (toyOneKey.EncryptKeys keyAA).2.vMasterKey = [] ∧
    (toyOneKey.EncryptKeys keyAA).2.vMasterKey ≠ keyAA := by
  decide

/-- C3 (amended): when `EncryptKeys(master)` returns true the store was in
plaintext mode, `IsCrypted` is true afterwards, and the master key field is
left as it was; a store that held no master key is therefore in
EncryptedLocked mode (`IsLocked` true) after the call. -/
theorem C3_EncryptKeys_mode (E : Env) (s : CCryptoKeyStore E) (M : Bytes)
    (h : (s.EncryptKeys M).1 = true) :
    s.IsCrypted = false ∧ (s.EncryptKeys M).2.IsCrypted = true ∧
    (s.EncryptKeys M).2.vMasterKey = s.vMasterKey ∧
    (s.vMasterKey = [] → (s.EncryptKeys M).2.IsLocked = true) := by
  obtain ⟨hp, -, seedC, hd, mk, ms, nd, ma, idx, ht, -⟩ := EncryptKeys_true M s h
  rw [ht]
  refine ⟨hp, rfl, rfl, fun h0 => ?_⟩
  simp [IsLocked, IsCrypted, h0]

/-- Witness of C3 (amended): the one-key store and `keyAA`. -/
theorem C3_EncryptKeys_mode_witness :
    toyOneKey.IsCrypted = false ∧ (toyOneKey.EncryptKeys keyAA).2.IsCrypted = true ∧
    (toyOneKey.EncryptKeys keyAA).2.vMasterKey = toyOneKey.vMasterKey ∧
    (toyOneKey.vMasterKey = [] → (toyOneKey.EncryptKeys keyAA).2.IsLocked = true) :=
  C3_EncryptKeys_mode toyEnv toyOneKey keyAA (by decide)

/-! ## C4 -/

/-- C4 (counterexample): after `EncryptKeys` under `keyAA` returned true on the
one-key store, `GetKey` on the key id of the key returns false. -/
theorem C4_counterexample :
    (toyOneKey.EncryptKeys keyAA).1 = true ∧
    (toyOneKey.EncryptKeys keyAA).2.mapKeys.length = 0 ∧
    (toyOneKey.EncryptKeys keyAA).2.mapCryptedKeys.length = 1 ∧
    (GetKey (E := toyEnv) (1 : Nat) (toyOneKey.EncryptKeys keyAA).2).1 = false := by
  decide

/-- C4 (amended): for a store in plaintext mode holding no master key and exactly
one transparent key `k` under the key id of its public key, after
`EncryptKeys(M)` returned true the plaintext key map is empty and
`mapCryptedKeys` has exactly one entry, stored under that key id, whose
ciphertext `DecryptKey` turns back into `k` under `M` (the cipher's decryption
inverting its encryption); `GetKey` on that key id returns false, since
`EncryptKeys` does not store the master key. -/
theorem C4_EncryptKeys_one_key (E : Env) (hC : CipherInverts E) (s : CCryptoKeyStore E)
    (M : Bytes) (id : E.CKeyID) (k : E.CKey)
    (hmap : s.mapKeys = [(id, k)]) (hid : id = E.CPubKey_GetID (E.CKey_GetPubKey k))
    (hv : ValidKey E k) (hkey : s.vMasterKey = [])
    (h : (s.EncryptKeys M).1 = true) :
    (s.EncryptKeys M).2.mapKeys = [] ∧
    (s.EncryptKeys M).2.mapCryptedKeys.length = 1 ∧
    (∃ ct, (s.EncryptKeys M).2.mapCryptedKeys = [(id, (E.CKey_GetPubKey k, ct))] ∧
      DecryptKey E M ct (E.CKey_GetPubKey k) = (true, some k)) ∧
    GetKey id (s.EncryptKeys M).2 = (false, none) := by
  obtain ⟨-, -, seedC, hd, mk, ms, nd, ma, idx, ht, hmk, -⟩ := EncryptKeys_true M s h
  rw [hmap] at hmk
  simp only [encFold] at hmk
  cases hent : encKeyEntry E M (id, k) with
  | none => simp [hent] at hmk
  | some e =>
    simp only [hent, mapAssign, Option.some.injEq] at hmk
    obtain ⟨he1, hdec⟩ := DecryptKey_of_encKeyEntry E hC M (id, k) hv e hent
    have hmk' : mk = [(id, (E.CKey_GetPubKey k, e.2.2))] := by
      rw [← hmk]
      have hpub : e.2.1 = E.CKey_GetPubKey k := by
        unfold encKeyEntry at hent
        cases hes : EncryptSecret E M (E.CKey_bytes k)
            (E.CPubKey_GetHash (E.CKey_GetPubKey k)) with
        | none => simp [hes] at hent
        | some ct =>
          simp only [hes, Option.map_some', Option.some.injEq] at hent
          rw [← hent]
      rw [hid, ← he1, ← hpub]
    have hpub : e.2.1 = E.CKey_GetPubKey k := by
      unfold encKeyEntry at hent
      cases hes : EncryptSecret E M (E.CKey_bytes k)
          (E.CPubKey_GetHash (E.CKey_GetPubKey k)) with
      | none => simp [hes] at hent
      | some ct =>
        simp only [hes, Option.map_some', Option.some.injEq] at hent
        rw [← hent]
    rw [ht]
    refine ⟨rfl, ?_, ⟨e.2.2, ?_, ?_⟩, ?_⟩
    · simp [hmk']
    · simp [hmk']
    · rw [← hpub]
      exact hdec
    · exact GetKey_of_no_master_key id _ rfl hkey

/-! ## C1 -/

/-- C1 (counterexample): on the fresh store, which holds no key at all,
`EncryptKeys` under `keyAA` returns true, `Lock` returns true, and `Unlock`
under the same key returns false. -/
theorem C1_counterexample :
    (toyFresh.EncryptKeys keyAA).1 = true ∧
    ((toyFresh.EncryptKeys keyAA).2.Lock).1 = true ∧
    (((toyFresh.EncryptKeys keyAA).2.Lock).2.Unlock keyAA).isFalse = true := by
  decide

/-- C1 (amended): take a Plaintext store that holds at least one secret (a
transparent, Sprout or Sapling key, or an HD seed with a non-null fingerprint),
whose transparent keys are stored under the key id of their public key (each
key id once) and whose records are well formed, and a master key `M`. After
`EncryptKeys(M)` returned true, `Lock()` returns true, the following
`Unlock(M)` returns true, and `GetKey` then returns, for every key id that was
added, exactly the private key that was added. The cipher's decryption is
assumed to invert its encryption, and the orders of the map keys to have no
distinct equivalent keys. -/
theorem C1_encrypt_lock_unlock_returns_keys (E : Env) (hC : CipherInverts E)
    (hI : LtIrreflexive E.CKeyID_lt) (hT : LtTrichotomous E.CKeyID_lt)
    (hTs : LtTrichotomous E.SproutPaymentAddress_lt)
    (hTa : LtTrichotomous E.SaplingExtendedFullViewingKey_lt)
    (s : CCryptoKeyStore E) (M : Bytes)
    (hplain : s.IsPlaintextStore) (hne : s.HoldsPlainRecord)
    (hkeys : ∀ e ∈ s.mapKeys, e.1 = E.CPubKey_GetID (E.CKey_GetPubKey e.2) ∧ ValidKey E e.2)
    (hnodup : (s.mapKeys.map Prod.fst).Nodup)
    (hsprout : ∀ e ∈ s.mapSproutSpendingKeys, ValidSproutKey E e.2)
    (hsapling : ∀ e ∈ s.mapSaplingSpendingKeys, ValidSaplingKey E e.2)
    (hseed : ValidSeed E s.hdSeed)
    (h : (s.EncryptKeys M).1 = true) :
    ((s.EncryptKeys M).2.Lock).1 = true ∧
    ∃ u, ((s.EncryptKeys M).2.Lock).2.Unlock M = .returned true u ∧
      ∀ e ∈ s.mapKeys, GetKey e.1 u = (true, some e.2) := by
  obtain ⟨-, -, seedC, hd, mk, ms, nd, ma, idx, ht, hmk, hms, hma, hsd⟩ :=
    EncryptKeys_true M s h
  obtain ⟨-, hz, -, hcs, hca⟩ := hplain
  rw [hcs] at hms
  rw [hca] at hma
  have hkpass : ∀ e ∈ mk, checkKey E M e = true := by
    intro e he
    rcases encFold_mem _ hT _ _ _ _ hmk e he with h0 | ⟨x, hx, hfx⟩
    · exact absurd h0 (List.not_mem_nil e)
    · have := (DecryptKey_of_encKeyEntry E hC M x (hkeys x hx).2 e hfx).2
      simp [checkKey, this]
  have hspass : ∀ e ∈ ms, checkSprout E M e = true := by
    intro e he
    rcases encFold_mem _ hTs _ _ _ _ hms e he with h0 | ⟨x, hx, hfx⟩
    · exact absurd h0 (List.not_mem_nil e)
    · exact checkSprout_of_encSproutEntry E hC M x (hsprout x hx) e hfx
  have hapass : ∀ e ∈ ma, checkSapling E M e = true := by
    intro e he
    rcases encFold_mem _ hTa _ _ _ _ hma e he with h0 | ⟨x, hx, hfx⟩
    · exact absurd h0 (List.not_mem_nil e)
    · exact checkSapling_of_encSaplingEntry E hC M x (hsapling x hx) e hfx
  have hseedpass : (!seedC.1.IsNull) = true → checkHDSeed E M seedC = true := by
    intro hh
    rcases hsd with ⟨-, -, hsc⟩ | ⟨-, -, -, ct, hes, hsc⟩
    · rw [hsc, hz] at hh
      simp at hh
    · rw [hsc]
      exact checkHDSeed_of_enc E hC M s.hdSeed hseed ct hes
  have hrec : (!seedC.1.IsNull) = true ∨ mk ≠ [] ∨ ms ≠ [] ∨ ma ≠ [] := by
    rcases hne with h1 | h1 | h1 | ⟨h1, h2⟩
    · exact Or.inr (Or.inl (encFold_ne_nil _ _ _ _ _ hmk (Or.inl h1)))
    · exact Or.inr (Or.inr (Or.inl (encFold_ne_nil _ _ _ _ _ hms (Or.inl h1))))
    · exact Or.inr (Or.inr (Or.inr (encFold_ne_nil _ _ _ _ _ hma (Or.inl h1))))
    · rcases hsd with ⟨hn, -, -⟩ | ⟨-, -, -, ct, -, hsc⟩
      · rw [hn] at h1
        simp at h1
      · left
        rw [hsc]
        simp [h2]
  have hcrypt : (s.EncryptKeys M).2.fUseCrypto = true := by rw [ht]
  rw [Lock_of_crypted _ hcrypt, ht]
  refine ⟨rfl, ?_⟩
  obtain ⟨hun, -⟩ := Unlock_all_pass
    ({ ({ s with fUseCrypto := true, hdSeed := hd, cryptedHDSeed := seedC, mapKeys := [],
                 mapSproutSpendingKeys := [], mapSaplingSpendingKeys := [],
                 mapCryptedKeys := mk, mapCryptedSproutSpendingKeys := ms,
                 mapNoteDecryptors := nd, mapCryptedSaplingSpendingKeys := ma,
                 shielded := idx } : CCryptoKeyStore E) with vMasterKey := [] })
    M rfl hrec hseedpass hkpass hspass hapass
  refine ⟨_, hun, ?_⟩
  intro e he
  have hd : s.mapKeys.Pairwise (fun x y => ∀ a b, encKeyEntry E M x = some a →
      encKeyEntry E M y = some b → a.1 ≠ b.1) := by
    have hp : s.mapKeys.Pairwise (fun x y => x.1 ≠ y.1) := List.pairwise_map.mp hnodup
    refine hp.imp_of_mem ?_
    intro x y hx hy hxy a b ha hb
    have h1 := (DecryptKey_of_encKeyEntry E hC M x (hkeys x hx).2 a ha).1
    have h2 := (DecryptKey_of_encKeyEntry E hC M y (hkeys y hy).2 b hb).1
    rw [h1, h2, ← (hkeys x hx).1, ← (hkeys y hy).1]
    exact hxy
  obtain ⟨kv, hkv, hfind⟩ := encFold_find _ hI hT _ _ _ _ hmk hd e he
  obtain ⟨hk1, hdec⟩ := DecryptKey_of_encKeyEntry E hC M e (hkeys e he).2 kv hkv
  rw [hk1, ← (hkeys e he).1] at hfind
  simp only [GetKey, IsCrypted, Bool.not_true, Bool.false_eq_true, if_false, hfind]
  exact hdec

/-! ### The concrete environment satisfies the assumptions -/

theorem toyEnv_CipherInverts : CipherInverts toyEnv := by
  intro key iv pt ct h
  simp only [toyEnv, Option.some.injEq] at h
  subst h
  simp [toyEnv]

theorem toyEnv_CKeyID_irreflexive : LtIrreflexive toyEnv.CKeyID_lt := by
  intro a
  simp [toyEnv]

theorem toyEnv_CKeyID_trichotomous : LtTrichotomous toyEnv.CKeyID_lt := by
  intro a b h1 h2
  simp only [toyEnv, decide_eq_false_iff_not, Nat.not_lt] at h1 h2
  exact Nat.le_antisymm h2 h1

theorem toyEnv_Sprout_trichotomous : LtTrichotomous toyEnv.SproutPaymentAddress_lt := by
  intro a b h1 h2
  simp only [toyEnv, decide_eq_false_iff_not, Nat.not_lt] at h1 h2
  exact Nat.le_antisymm h2 h1

theorem toyEnv_Sapling_trichotomous :
    LtTrichotomous toyEnv.SaplingExtendedFullViewingKey_lt := by
  intro a b h1 h2
  simp only [toyEnv, decide_eq_false_iff_not, Nat.not_lt] at h1 h2
  exact Nat.le_antisymm h2 h1

/-- Witness of C1 (amended): the store `toyFull` and `keyAA`. -/
theorem C1_encrypt_lock_unlock_returns_keys_witness :
    ((toyFull.EncryptKeys keyAA).2.Lock).1 = true ∧
    ∃ u, ((toyFull.EncryptKeys keyAA).2.Lock).2.Unlock keyAA = .returned true u ∧
      ∀ e ∈ toyFull.mapKeys, GetKey e.1 u = (true, some e.2) :=
  C1_encrypt_lock_unlock_returns_keys toyEnv toyEnv_CipherInverts toyEnv_CKeyID_irreflexive
    toyEnv_CKeyID_trichotomous toyEnv_Sprout_trichotomous toyEnv_Sapling_trichotomous
    toyFull keyAA
    ⟨rfl, by decide, rfl, rfl, rfl⟩
    (Or.inl (List.ne_nil_of_length_pos (by decide)))
    (List.forall_mem_cons.mpr ⟨⟨rfl, rfl, rfl, rfl⟩,
      List.forall_mem_cons.mpr ⟨⟨rfl, rfl, rfl, rfl⟩,
        fun e he => absurd he (List.not_mem_nil e)⟩⟩)
    (List.nodup_cons.mpr
      ⟨(show (1 : Nat) ∉ [(2 : Nat)] by decide), List.nodup_singleton (2 : Nat)⟩)
    (List.forall_mem_cons.mpr ⟨⟨rfl, rfl⟩, fun e he => absurd he (List.not_mem_nil e)⟩)
    (List.forall_mem_cons.mpr ⟨⟨rfl, rfl⟩, fun e he => absurd he (List.not_mem_nil e)⟩)
    rfl
    (by decide)

/-- Witness of C4 (amended): the one-key store and `keyAA`. -/
theorem C4_EncryptKeys_one_key_witness :
    (toyOneKey.EncryptKeys keyAA).2.mapKeys = [] ∧
    (toyOneKey.EncryptKeys keyAA).2.mapCryptedKeys.length = 1 ∧
    (∃ ct, (toyOneKey.EncryptKeys keyAA).2.mapCryptedKeys =
        [((1 : Nat), (toyEnv.CKey_GetPubKey ((1 : Nat), true), ct))] ∧
      DecryptKey toyEnv keyAA ct (toyEnv.CKey_GetPubKey ((1 : Nat), true))
        = (true, some ((1 : Nat), true))) ∧
    GetKey (E := toyEnv) (1 : Nat) (toyOneKey.EncryptKeys keyAA).2 = (false, none) :=
  C4_EncryptKeys_one_key toyEnv toyEnv_CipherInverts toyOneKey keyAA (1 : Nat)
    ((1 : Nat), true) rfl rfl ⟨rfl, rfl, rfl⟩ rfl (by decide)

/-! ## C12 -/

namespace CCryptoKeyStore

variable {E : Env}

theorem KeepsMode_refl (s : CCryptoKeyStore E) : KeepsMode s s := fun h => ⟨h, rfl, rfl⟩

theorem KeepsMode_trans (a b c : CCryptoKeyStore E) (h1 : KeepsMode a b) (h2 : KeepsMode b c) :
    KeepsMode a c := by
  intro ha
  obtain ⟨hb, hk, hf⟩ := h1 ha
  obtain ⟨hc, hk2, hf2⟩ := h2 hb
  exact ⟨hc, hk2.trans hk, hf2.trans hf⟩

theorem KeepsMode_of_index (s t : CCryptoKeyStore E)
    (h : s.fUseCrypto = true → ∃ idx, t = { s with shielded := idx }) : KeepsMode s t := by
  intro hc
  obtain ⟨idx, ht⟩ := h hc
  rw [ht]
  exact ⟨hc, rfl, rfl⟩

theorem SetCryptedHDSeed_KeepsMode (fp : uint256) (ct : Bytes) (s : CCryptoKeyStore E) :
    KeepsMode s (s.SetCryptedHDSeed fp ct).2 := by
  intro hc
  unfold SetCryptedHDSeed
  split
  · exact ⟨hc, rfl, rfl⟩
  · split <;> exact ⟨hc, rfl, rfl⟩

theorem EncryptKeys_hdSeed_KeepsMode (M : Bytes) (s : CCryptoKeyStore E) :
    KeepsMode s (EncryptKeys_hdSeed M s).2 := by
  intro hc
  unfold EncryptKeys_hdSeed
  cases hn : E.HDSeed_IsNull s.hdSeed
  · simp only [Bool.not_false, if_true]
    cases hes : EncryptSecret E M (E.HDSeed_RawSeed s.hdSeed) (E.HDSeed_Fingerprint s.hdSeed) with
    | none => exact ⟨hc, rfl, rfl⟩
    | some ct =>
      have hk := SetCryptedHDSeed_KeepsMode (E.HDSeed_Fingerprint s.hdSeed) ct s hc
      simp only
      generalize s.SetCryptedHDSeed (E.HDSeed_Fingerprint s.hdSeed) ct = r at hk ⊢
      obtain ⟨b, s1⟩ := r
      cases b <;> exact hk
  · simp [hc]

theorem EncryptKeys_key_KeepsMode (M : Bytes) (x : E.CKeyID × E.CKey) (s : CCryptoKeyStore E) :
    KeepsMode s (EncryptKeys_key M x s).2 := by
  intro hc
  rw [EncryptKeys_key_eq M x s hc]
  split <;> exact ⟨hc, rfl, rfl⟩

theorem EncryptKeys_sprout_KeepsMode (M : Bytes)
    (x : E.SproutPaymentAddress × E.SproutSpendingKey) (s : CCryptoKeyStore E) :
    KeepsMode s (EncryptKeys_sprout M x s).2 := by
  intro hc
  rw [EncryptKeys_sprout_eq M x s hc]
  split <;> exact ⟨hc, rfl, rfl⟩

theorem EncryptKeys_sapling_KeepsMode (M : Bytes)
    (x : E.SaplingExtendedFullViewingKey × E.SaplingExtendedSpendingKey)
    (s : CCryptoKeyStore E) : KeepsMode s (EncryptKeys_sapling M x s).2 := by
  intro hc
  rw [EncryptKeys_sapling_eq M x s hc]
  split
  · exact ⟨hc, rfl, rfl⟩
  · split <;> exact ⟨hc, rfl, rfl⟩

/-- Whatever `EncryptKeys` returns, once it is past its entry check the store is
in encrypted mode afterwards, and the master key field and the
thoroughly-checked flag are as before. -/
theorem EncryptKeys_started (M : Bytes) (s : CCryptoKeyStore E)
    (hp : s.fUseCrypto = false) (hm : s.mapCryptedKeys = []) :
    (s.EncryptKeys M).2.fUseCrypto = true ∧ (s.EncryptKeys M).2.vMasterKey = s.vMasterKey ∧
    (s.EncryptKeys M).2.fDecryptionThoroughlyChecked = s.fDecryptionThoroughlyChecked := by
  have hg : (!s.mapCryptedKeys.isEmpty || s.IsCrypted) = false := by
    simp [hm, IsCrypted, hp]
  unfold EncryptKeys
  simp only [hg, Bool.false_eq_true, if_false]
  have h1 := EncryptKeys_hdSeed_KeepsMode M { s with fUseCrypto := true } rfl
  generalize EncryptKeys_hdSeed M { s with fUseCrypto := true } = r1 at h1 ⊢
  obtain ⟨b1, s1⟩ := r1
  cases b1
  · exact h1
  simp only at h1 ⊢
  have h2 := forEachOk_rel (EncryptKeys_key M) KeepsMode KeepsMode_refl KeepsMode_trans
    (EncryptKeys_key_KeepsMode M) s1.mapKeys s1 h1.1
  generalize forEachOk (EncryptKeys_key M) s1.mapKeys s1 = r2 at h2 ⊢
  obtain ⟨b2, s2⟩ := r2
  cases b2
  · exact ⟨h2.1, h2.2.1.trans h1.2.1, h2.2.2.trans h1.2.2⟩
  simp only at h2 ⊢
  have h3 := forEachOk_rel (EncryptKeys_sprout M) KeepsMode KeepsMode_refl KeepsMode_trans
    (EncryptKeys_sprout_KeepsMode M) s2.mapSproutSpendingKeys { s2 with mapKeys := [] } h2.1
  generalize forEachOk (EncryptKeys_sprout M) s2.mapSproutSpendingKeys
    { s2 with mapKeys := [] } = r3 at h3 ⊢
  obtain ⟨b3, s3⟩ := r3
  have h13 : s3.fUseCrypto = true ∧ s3.vMasterKey = s.vMasterKey ∧
      s3.fDecryptionThoroughlyChecked = s.fDecryptionThoroughlyChecked :=
    ⟨h3.1, h3.2.1.trans (h2.2.1.trans h1.2.1), h3.2.2.trans (h2.2.2.trans h1.2.2)⟩
  cases b3
  · exact h13
  simp only at h3 ⊢
  have h4 := forEachOk_rel (EncryptKeys_sapling M) KeepsMode KeepsMode_refl KeepsMode_trans
    (EncryptKeys_sapling_KeepsMode M) s3.mapSaplingSpendingKeys
    { s3 with mapSproutSpendingKeys := [] } h3.1
  generalize forEachOk (EncryptKeys_sapling M) s3.mapSaplingSpendingKeys
    { s3 with mapSproutSpendingKeys := [] } = r4 at h4 ⊢
  obtain ⟨b4, s4⟩ := r4
  have h14 : s4.fUseCrypto = true ∧ s4.vMasterKey = s.vMasterKey ∧
      s4.fDecryptionThoroughlyChecked = s.fDecryptionThoroughlyChecked :=
    ⟨h4.1, h4.2.1.trans h13.2.1, h4.2.2.trans h13.2.2⟩
  cases b4
  · exact h14
  simp only at h4 ⊢
  obtain ⟨idx, h5⟩ := EncryptKeys_index_rel M s4 h4.1
  generalize EncryptKeys_index M s4 = r5 at h5 ⊢
  obtain ⟨b5, s5⟩ := r5
  simp only at h5
  subst h5
  cases b5 <;> exact h14

end CCryptoKeyStore

/-- C12 (counterexample): with a master key of 31 bytes `EncryptSecret` fails on the
first record; `EncryptKeys` returns false on the one-key store and leaves it
in encrypted mode. -/
theorem C12_counterexample :
    (toyOneKey.EncryptKeys keyShort).1 = false ∧
    toyOneKey.fUseCrypto = false ∧
    (toyOneKey.EncryptKeys keyShort).2.fUseCrypto = true := by
  decide

/-- C12 (amended): when `EncryptKeys` returns false because the store is already
encrypted or `mapCryptedKeys` is not empty, the store is unchanged. When it
returns false at a later step (for instance because `EncryptSecret` fails on a
record), the transition is not rolled back: the store is left in encrypted
mode, with the master key field and the thoroughly-checked flag as before. -/
theorem C12_EncryptKeys_failure (E : Env) (s : CCryptoKeyStore E) (M : Bytes)
    (_hFalse : (s.EncryptKeys M).1 = false) :
    (s.fUseCrypto = true ∨ s.mapCryptedKeys ≠ [] → (s.EncryptKeys M).2 = s) ∧
    (s.fUseCrypto = false → s.mapCryptedKeys = [] →
      (s.EncryptKeys M).2.fUseCrypto = true ∧
      (s.EncryptKeys M).2.vMasterKey = s.vMasterKey ∧
      (s.EncryptKeys M).2.fDecryptionThoroughlyChecked = s.fDecryptionThoroughlyChecked) := by
  refine ⟨?_, fun hp hm => EncryptKeys_started M s hp hm⟩
  intro hg
  unfold EncryptKeys
  rcases hg with hg | hg
  · simp [IsCrypted, hg]
  · cases hl : s.mapCryptedKeys with
    | nil => exact absurd hl hg
    | cons x xs => simp

/-- Witness of C12 (amended): the one-key store and the 31-byte master key. -/
theorem C12_EncryptKeys_failure_witness :
    (toyOneKey.fUseCrypto = true ∨ toyOneKey.mapCryptedKeys ≠ [] →
      (toyOneKey.EncryptKeys keyShort).2 = toyOneKey) ∧
    (toyOneKey.fUseCrypto = false → toyOneKey.mapCryptedKeys = [] →
      (toyOneKey.EncryptKeys keyShort).2.fUseCrypto = true ∧
      (toyOneKey.EncryptKeys keyShort).2.vMasterKey = toyOneKey.vMasterKey ∧
      (toyOneKey.EncryptKeys keyShort).2.fDecryptionThoroughlyChecked
        = toyOneKey.fDecryptionThoroughlyChecked) :=
  C12_EncryptKeys_failure toyEnv toyOneKey keyShort (by decide)

/-! ## C13 -/

/-- C13: on a store that is already encrypted (locked or unlocked) or whose crypted
transparent key map is not empty, `EncryptKeys` returns false for every master
key and leaves the store unchanged. -/
theorem C13_EncryptKeys_one_shot (E : Env) (s : CCryptoKeyStore E) (M : Bytes)
    (h : s.IsCrypted = true ∨ s.mapCryptedKeys ≠ []) :
    s.EncryptKeys M = (false, s) := by
  unfold EncryptKeys
  rcases h with h | h
  · simp [h]
  · cases hl : s.mapCryptedKeys with
    | nil => exact absurd hl h
    | cons x xs => simp

/-- Witness of C13: the encrypted one-key store, locked, and `keyBB`. -/
theorem C13_EncryptKeys_one_shot_witness :
    toyLocked.EncryptKeys keyBB = (false, toyLocked) :=
  C13_EncryptKeys_one_shot toyEnv toyLocked keyBB (Or.inl (by decide))

/-! ## C14 -/

/-- C14: `SetCrypted` on an encrypted store returns true and changes nothing; on a
Plaintext store it returns true exactly when `mapKeys`,
`mapSproutSpendingKeys` and `mapSaplingSpendingKeys` are all empty, and then
only switches the mode flag; otherwise it returns false and the store is
unchanged. -/
theorem C14_SetCrypted (E : Env) (s : CCryptoKeyStore E) :
    (s.IsCrypted = true → s.SetCrypted = (true, s)) ∧
    (s.IsCrypted = false →
      (s.SetCrypted.1 = true ↔
        (s.mapKeys = [] ∧ s.mapSproutSpendingKeys = [] ∧ s.mapSaplingSpendingKeys = [])) ∧
      (s.SetCrypted.1 = true → s.SetCrypted = (true, { s with fUseCrypto := true }) ∧
        s.SetCrypted.2.IsCrypted = true) ∧
      (s.SetCrypted.1 = false → s.SetCrypted = (false, s) ∧ s.SetCrypted.2.IsCrypted = false)) := by
  refine ⟨fun hc => SetCrypted_of_crypted s hc, fun hp => ?_⟩
  have hp' : s.fUseCrypto = false := hp
  unfold SetCrypted
  simp only [hp', Bool.false_eq_true, if_false, IsCrypted]
  cases h1 : s.mapKeys <;> cases h2 : s.mapSproutSpendingKeys <;>
    cases h3 : s.mapSaplingSpendingKeys <;> simp [hp']

/-- Witness of C14: the fresh store, a Plaintext store with empty key maps. -/
theorem C14_SetCrypted_witness :
    (toyFresh.IsCrypted = true → toyFresh.SetCrypted = (true, toyFresh)) ∧
    (toyFresh.IsCrypted = false →
      (toyFresh.SetCrypted.1 = true ↔
        (toyFresh.mapKeys = [] ∧ toyFresh.mapSproutSpendingKeys = [] ∧
          toyFresh.mapSaplingSpendingKeys = [])) ∧
      (toyFresh.SetCrypted.1 = true →
        toyFresh.SetCrypted = (true, { toyFresh with fUseCrypto := true }) ∧
        toyFresh.SetCrypted.2.IsCrypted = true) ∧
      (toyFresh.SetCrypted.1 = false →
        toyFresh.SetCrypted = (false, toyFresh) ∧ toyFresh.SetCrypted.2.IsCrypted = false)) :=
  C14_SetCrypted toyEnv toyFresh

/-! ## C15 -/

/-- C15: on a store in encrypted mode (locked or unlocked) `Lock` returns true;
afterwards the master key is empty, `IsLocked` is true, and every other field
(crypted HD seed, crypted maps, thoroughly-checked flag included) is as
before. -/
theorem C15_Lock_encrypted (E : Env) (s : CCryptoKeyStore E) (hc : s.IsCrypted = true) :
    s.Lock = (true, { s with vMasterKey := [] }) ∧
    s.Lock.2.vMasterKey = [] ∧ s.Lock.2.IsLocked = true ∧
    s.Lock.2.cryptedHDSeed = s.cryptedHDSeed ∧
    s.Lock.2.mapCryptedKeys = s.mapCryptedKeys ∧
    s.Lock.2.mapCryptedSproutSpendingKeys = s.mapCryptedSproutSpendingKeys ∧
    s.Lock.2.mapCryptedSaplingSpendingKeys = s.mapCryptedSaplingSpendingKeys ∧
    s.Lock.2.fDecryptionThoroughlyChecked = s.fDecryptionThoroughlyChecked := by
  have hc' : s.fUseCrypto = true := hc
  rw [Lock_of_crypted s hc']
  refine ⟨rfl, rfl, ?_, rfl, rfl, rfl, rfl, rfl⟩
  simp [IsLocked, IsCrypted, hc']

/-- Witness of C15: the unlocked one-key store. -/
theorem C15_Lock_encrypted_witness :
    toyUnlocked.Lock = (true, { toyUnlocked with vMasterKey := [] }) ∧
    toyUnlocked.Lock.2.vMasterKey = [] ∧ toyUnlocked.Lock.2.IsLocked = true ∧
    toyUnlocked.Lock.2.cryptedHDSeed = toyUnlocked.cryptedHDSeed ∧
    toyUnlocked.Lock.2.mapCryptedKeys = toyUnlocked.mapCryptedKeys ∧
    toyUnlocked.Lock.2.mapCryptedSproutSpendingKeys = toyUnlocked.mapCryptedSproutSpendingKeys ∧
    toyUnlocked.Lock.2.mapCryptedSaplingSpendingKeys
      = toyUnlocked.mapCryptedSaplingSpendingKeys ∧
    toyUnlocked.Lock.2.fDecryptionThoroughlyChecked
      = toyUnlocked.fDecryptionThoroughlyChecked :=
  C15_Lock_encrypted toyEnv toyUnlocked (by decide)

/-! ## C16 -/

/-- C16 (counterexample): on the fresh Plaintext store, whose key maps are empty,
`Lock` returns true and the store is in encrypted mode afterwards. -/
theorem C16_counterexample :
    toyFresh.IsCrypted = false ∧ toyFresh.Lock.1 = true ∧ toyFresh.Lock.2.IsCrypted = true := by
  decide

/-- C16 (amended): on a store in Plaintext mode that holds a plaintext key (in
`mapKeys`, `mapSproutSpendingKeys` or `mapSaplingSpendingKeys`) `Lock` returns
false and the store is unchanged, still in Plaintext mode; on a store in
Plaintext mode whose three plaintext key maps are empty `Lock` returns true
and switches the store to encrypted mode (the `SetCrypted` call at its
start), holding no master key. -/
theorem C16_Lock_plaintext (E : Env) (s : CCryptoKeyStore E) (hp : s.IsCrypted = false) :
    (s.mapKeys ≠ [] ∨ s.mapSproutSpendingKeys ≠ [] ∨ s.mapSaplingSpendingKeys ≠ [] →
      s.Lock = (false, s) ∧ s.Lock.2.IsCrypted = false) ∧
    (s.mapKeys = [] ∧ s.mapSproutSpendingKeys = [] ∧ s.mapSaplingSpendingKeys = [] →
      s.Lock = (true, { s with fUseCrypto := true, vMasterKey := [] })) := by
  have hp' : s.fUseCrypto = false := hp
  constructor
  · intro hne
    have hsc : s.SetCrypted = (false, s) := by
      unfold SetCrypted
      simp only [hp', Bool.false_eq_true, if_false]
      cases h1 : s.mapKeys <;> cases h2 : s.mapSproutSpendingKeys <;>
        cases h3 : s.mapSaplingSpendingKeys <;> simp_all
    have hl : s.Lock = (false, s) := by
      unfold Lock
      rw [hsc]
    rw [hl]
    exact ⟨rfl, hp⟩
  · intro he
    have hsc : s.SetCrypted = (true, { s with fUseCrypto := true }) := by
      unfold SetCrypted
      simp [hp', he.1, he.2.1, he.2.2]
    unfold Lock
    rw [hsc]

/-- Witness of C16 (amended): the plaintext one-key store. -/
theorem C16_Lock_plaintext_witness :
    toyOneKey.Lock = (false, toyOneKey) ∧ toyOneKey.Lock.2.IsCrypted = false :=
  (C16_Lock_plaintext toyEnv toyOneKey (by decide)).1
    (Or.inl (List.ne_nil_of_length_pos (by decide)))

/-! ## C17 -/

/-- C17: in EncryptedLocked mode `AddKeyPubKey`, `AddSproutSpendingKey`,
`AddSaplingSpendingKey`, `AddSaplingExtendedFullViewingKey` and `SetHDSeed`
return false for every argument and leave the store unchanged. -/
theorem C17_locked_add_fails (E : Env) (s : CCryptoKeyStore E) (hl : s.IsLocked = true) :
    (∀ key pubkey, s.AddKeyPubKey key pubkey = (false, s)) ∧
    (∀ sk, s.AddSproutSpendingKey sk = (false, s)) ∧
    (∀ sk, s.AddSaplingSpendingKey sk = (false, s)) ∧
    (∀ extfvk, s.AddSaplingExtendedFullViewingKey extfvk = (false, s)) ∧
    (∀ seed, s.SetHDSeed seed = (false, s)) := by
  have hc : s.IsCrypted = true := by
    unfold IsLocked at hl
    cases h : s.IsCrypted
    · rw [h] at hl
      simp at hl
    · rfl
  refine ⟨fun key pubkey => ?_, fun sk => ?_, fun sk => ?_, fun extfvk => ?_, fun seed => ?_⟩
  · simp [AddKeyPubKey, hc, hl]
  · simp [AddSproutSpendingKey, hc, hl]
  · simp [AddSaplingSpendingKey, hc, hl]
  · simp [AddSaplingExtendedFullViewingKey, hc, hl]
  · simp [SetHDSeed, hc, hl]

/-- Witness of C17: the encrypted one-key store after `Lock`. -/
theorem C17_locked_add_fails_witness :
    (∀ key pubkey, toyLocked.AddKeyPubKey key pubkey = (false, toyLocked)) ∧
    (∀ sk, toyLocked.AddSproutSpendingKey sk = (false, toyLocked)) ∧
    (∀ sk, toyLocked.AddSaplingSpendingKey sk = (false, toyLocked)) ∧
    (∀ extfvk, toyLocked.AddSaplingExtendedFullViewingKey extfvk = (false, toyLocked)) ∧
    (∀ seed, toyLocked.SetHDSeed seed = (false, toyLocked)) :=
  C17_locked_add_fails toyEnv toyLocked (by decide)

/-! ## C19 -/

theorem EncryptSecret_eq (E : Env) (M pt : Bytes) (nIV : uint256) (hM : M.length = 32) :
    EncryptSecret E M pt nIV = E.evpEncrypt M (nIV.bytes.take AES_BLOCK_SIZE) pt := by
  simp [EncryptSecret, CCrypter.SetKey, CCrypter.Encrypt, WALLET_CRYPTO_KEY_SIZE, hM,
    nIV.size_eq]

theorem EncryptSecret_isSome (E : Env) (hE : CipherEncrypts E) (M pt : Bytes) (nIV : uint256)
    (hM : M.length = 32) : ∃ ct, EncryptSecret E M pt nIV = some ct := by
  rw [EncryptSecret_eq E M pt nIV hM]
  have h := hE M (nIV.bytes.take AES_BLOCK_SIZE) pt hM
    (by simp [AES_BLOCK_SIZE, nIV.size_eq])
  exact Option.isSome_iff_exists.mp h

/-- C19: for a 32-byte master key `M`, an identifier `ID` and a plaintext `p`,
`EncryptSecret(M, p, ID)` succeeds with a ciphertext `c`, and
`DecryptSecret(M, c, ID)` succeeds and returns exactly `p`. The AES primitive
is assumed to report no failure when encrypting and to decrypt what it
encrypted under the same key and IV. -/
theorem C19_EncryptSecret_DecryptSecret_roundtrip (E : Env) (hE : CipherEncrypts E)
    (hC : CipherInverts E) (M p : Bytes) (ID : uint256) (hM : M.length = 32) :
    ∃ c, EncryptSecret E M p ID = some c ∧ DecryptSecret E M c ID = some p := by
  obtain ⟨c, hc⟩ := EncryptSecret_isSome E hE M p ID hM
  exact ⟨c, hc, EncryptSecret_DecryptSecret E hC M p c ID hc⟩

/-! ## C20 -/

/-- C20 (counterexample): `SetKey` with the 32-byte key `keyAA` and an IV of 16
bytes returns false and does not set `fKeySet`. -/
theorem C20_counterexample :
    keyAA.length = 32 ∧ (List.replicate 16 (0 : Nat)).length = 16 ∧
    (CCrypter.fresh.SetKey keyAA (List.replicate 16 0)).1 = false ∧
    (CCrypter.fresh.SetKey keyAA (List.replicate 16 0)).2.fKeySet = false := by
  decide

/-- C20 (amended): `SetKey` called with a 32-byte key and an IV vector of 32 bytes
(`WALLET_CRYPTO_KEY_SIZE`, of which the cipher reads the first 16) returns
true, loads key and IV and sets `fKeySet`; with an IV vector of any other
length, 16 included, it returns false and leaves the crypter as it was. -/
theorem C20_SetKey (c : CCrypter) (chNewKey chNewIV : Bytes) (hk : chNewKey.length = 32) :
    (chNewIV.length = 32 →
      c.SetKey chNewKey chNewIV = (true, { chKey := chNewKey, chIV := chNewIV, fKeySet := true })) ∧
    (chNewIV.length ≠ 32 → c.SetKey chNewKey chNewIV = (false, c)) := by
  constructor
  · intro hiv
    simp [CCrypter.SetKey, WALLET_CRYPTO_KEY_SIZE, hk, hiv]
  · intro hiv
    simp [CCrypter.SetKey, WALLET_CRYPTO_KEY_SIZE, hk, hiv]

/-- Witness of C20 (amended): the key `keyAA` with the IV vector `keyBB`. -/
theorem C20_SetKey_witness :
    (keyBB.length = 32 →
      CCrypter.fresh.SetKey keyAA keyBB =
        (true, { chKey := keyAA, chIV := keyBB, fKeySet := true })) ∧
    (keyBB.length ≠ 32 → CCrypter.fresh.SetKey keyAA keyBB = (false, CCrypter.fresh)) :=
  C20_SetKey CCrypter.fresh keyAA keyBB (by decide)

/-! ## C18 -/

/-- C18: on a store in EncryptedUnlocked mode that holds a 32-byte master key, for
a well-formed private key `k` with its public key `p`, `AddKeyPubKey(k, p)`
returns true; it assigns, under the key id of `p`, the pair of `p` and the
ciphertext that `EncryptSecret` makes of the key bytes, and changes nothing
else (the plaintext key map included); afterwards `GetKey` on that key id
returns true with exactly `k` and `GetPubKey` returns true with `p`. The AES
primitive is assumed to report no failure when encrypting and to decrypt what
it encrypted. -/
theorem C18_unlocked_AddKeyPubKey (E : Env) (hE : CipherEncrypts E) (hC : CipherInverts E)
    (hI : LtIrreflexive E.CKeyID_lt) (s : CCryptoKeyStore E) (k : E.CKey)
    (hc : s.IsCrypted = true) (hu : s.IsLocked = false) (hM : s.vMasterKey.length = 32)
    (hv : ValidKey E k) :
    ∃ ct, EncryptSecret E s.vMasterKey (E.CKey_bytes k)
        (E.CPubKey_GetHash (E.CKey_GetPubKey k)) = some ct ∧
      s.AddKeyPubKey k (E.CKey_GetPubKey k) =
        (true, { s with
          mapCryptedKeys :=
            mapAssign E.CKeyID_lt s.mapCryptedKeys (E.CPubKey_GetID (E.CKey_GetPubKey k))
              (E.CKey_GetPubKey k, ct) }) ∧
      (s.AddKeyPubKey k (E.CKey_GetPubKey k)).2.mapKeys = s.mapKeys ∧
      GetKey (E.CPubKey_GetID (E.CKey_GetPubKey k)) (s.AddKeyPubKey k (E.CKey_GetPubKey k)).2
        = (true, some k) ∧
      GetPubKey (E.CPubKey_GetID (E.CKey_GetPubKey k))
        (s.AddKeyPubKey k (E.CKey_GetPubKey k)).2 = (true, some (E.CKey_GetPubKey k)) := by
  obtain ⟨ct, hct⟩ := EncryptSecret_isSome E hE s.vMasterKey (E.CKey_bytes k)
    (E.CPubKey_GetHash (E.CKey_GetPubKey k)) hM
  have hc' : s.fUseCrypto = true := hc
  have hadd : s.AddKeyPubKey k (E.CKey_GetPubKey k) =
      (true, { s with
        mapCryptedKeys :=
          mapAssign E.CKeyID_lt s.mapCryptedKeys (E.CPubKey_GetID (E.CKey_GetPubKey k))
            (E.CKey_GetPubKey k, ct) }) := by
    simp [AddKeyPubKey, hc, hu, hct, AddCryptedKey, SetCrypted_of_crypted s hc']
  have hdec : DecryptKey E s.vMasterKey ct (E.CKey_GetPubKey k) = (true, some k) := by
    obtain ⟨h32, hset, hver⟩ := hv
    simp only [DecryptKey, EncryptSecret_DecryptSecret E hC _ _ _ _ hct, h32, bne_self_eq_false,
      Bool.false_eq_true, if_false, hset, hver]
  refine ⟨ct, hct, hadd, ?_, ?_, ?_⟩
  · rw [hadd]
  · rw [hadd]
    simp only [GetKey, IsCrypted, hc', Bool.not_true, Bool.false_eq_true, if_false,
      mapFind_mapAssign_self E.CKeyID_lt hI]
    exact hdec
  · rw [hadd]
    simp only [GetPubKey, IsCrypted, hc', Bool.not_true, Bool.false_eq_true, if_false,
      mapFind_mapAssign_self E.CKeyID_lt hI]

/-- Witness of C18: the unlocked one-key store and the key with secret `0x03 .. 03`. -/
theorem C18_unlocked_AddKeyPubKey_witness :
    ∃ ct, EncryptSecret toyEnv toyUnlocked.vMasterKey (toyEnv.CKey_bytes ((3 : Nat), false))
        (toyEnv.CPubKey_GetHash (toyEnv.CKey_GetPubKey ((3 : Nat), false))) = some ct ∧
      toyUnlocked.AddKeyPubKey ((3 : Nat), false) (toyEnv.CKey_GetPubKey ((3 : Nat), false)) =
        (true, { toyUnlocked with
          mapCryptedKeys :=
            mapAssign toyEnv.CKeyID_lt toyUnlocked.mapCryptedKeys
              (toyEnv.CPubKey_GetID (toyEnv.CKey_GetPubKey ((3 : Nat), false)))
              (toyEnv.CKey_GetPubKey ((3 : Nat), false), ct) }) ∧
      (toyUnlocked.AddKeyPubKey ((3 : Nat), false)
        (toyEnv.CKey_GetPubKey ((3 : Nat), false))).2.mapKeys = toyUnlocked.mapKeys ∧
      GetKey (toyEnv.CPubKey_GetID (toyEnv.CKey_GetPubKey ((3 : Nat), false)))
        (toyUnlocked.AddKeyPubKey ((3 : Nat), false)
          (toyEnv.CKey_GetPubKey ((3 : Nat), false))).2 = (true, some ((3 : Nat), false)) ∧
      GetPubKey (toyEnv.CPubKey_GetID (toyEnv.CKey_GetPubKey ((3 : Nat), false)))
        (toyUnlocked.AddKeyPubKey ((3 : Nat), false)
          (toyEnv.CKey_GetPubKey ((3 : Nat), false))).2
        = (true, some (toyEnv.CKey_GetPubKey ((3 : Nat), false))) :=
  C18_unlocked_AddKeyPubKey toyEnv (fun _ _ _ _ _ => rfl) toyEnv_CipherInverts
    toyEnv_CKeyID_irreflexive toyUnlocked ((3 : Nat), false) (by decide) (by decide)
    (by decide) ⟨rfl, rfl, rfl⟩

/-- Witness of C19: the key `keyAA`, the identifier of bytes `0x07` and the
plaintext `1, 2, 3`. -/
theorem C19_EncryptSecret_DecryptSecret_roundtrip_witness :
    ∃ c, EncryptSecret toyEnv keyAA [1, 2, 3] (uint256.ofByte 7) = some c ∧
      DecryptSecret toyEnv keyAA c (uint256.ofByte 7) = some [1, 2, 3] :=
  C19_EncryptSecret_DecryptSecret_roundtrip toyEnv (fun _ _ _ _ _ => rfl) toyEnv_CipherInverts
    keyAA [1, 2, 3] (uint256.ofByte 7) (by decide)

/-! ## Stores reachable from a fresh store -/

namespace CCryptoKeyStore

variable {E : Env}

theorem PlainFrame_refl (s : CCryptoKeyStore E) : PlainFrame s s :=
  fun h => ⟨h, rfl, rfl, rfl, rfl, rfl⟩

theorem PlainFrame_of_crypted (s t : CCryptoKeyStore E) (h : t.fUseCrypto = true) :
    PlainFrame s t := by
  intro ht
  rw [h] at ht
  exact absurd ht (by simp)

theorem SetCrypted_cases (s : CCryptoKeyStore E) :
    s.SetCrypted = (false, s) ∨ ∃ s1, s.SetCrypted = (true, s1) ∧ s1.fUseCrypto = true := by
  unfold SetCrypted
  split
  · next h => exact Or.inr ⟨s, rfl, h⟩
  · split
    · exact Or.inl rfl
    · exact Or.inr ⟨_, rfl, rfl⟩

theorem AddCryptedKey_KeepsMode (p : E.CPubKey) (ct : Bytes) (s : CCryptoKeyStore E) :
    KeepsMode s (s.AddCryptedKey p ct).2 := by
  intro hc
  simp [AddCryptedKey, SetCrypted_of_crypted s hc, hc]

theorem AddCryptedSproutSpendingKey_KeepsMode (a : E.SproutPaymentAddress) (rk : E.ReceivingKey)
    (ct : Bytes) (s : CCryptoKeyStore E) :
    KeepsMode s (s.AddCryptedSproutSpendingKey a rk ct).2 := by
  intro hc
  simp [AddCryptedSproutSpendingKey, SetCrypted_of_crypted s hc, hc]

theorem AddCryptedSaplingSpendingKey_KeepsMode (f : E.SaplingExtendedFullViewingKey)
    (ct : Bytes) (s : CCryptoKeyStore E) :
    KeepsMode s (s.AddCryptedSaplingSpendingKey f ct).2 := by
  intro hc
  simp only [AddCryptedSaplingSpendingKey, SetCrypted_of_crypted s hc]
  split <;> exact ⟨hc, rfl, rfl⟩

theorem AddCryptedSaplingExtendedFullViewingKey_KeepsMode
    (f : E.SaplingExtendedFullViewingKey) (ct : Bytes) (s : CCryptoKeyStore E) :
    KeepsMode s (s.AddCryptedSaplingExtendedFullViewingKey f ct).2 := by
  intro hc
  unfold AddCryptedSaplingExtendedFullViewingKey
  split
  · exact ⟨hc, rfl, rfl⟩
  · exact ⟨hc, rfl, rfl⟩

theorem SetCrypted_PlainFrame (s : CCryptoKeyStore E) : PlainFrame s s.SetCrypted.2 := by
  rcases SetCrypted_cases s with h | ⟨s1, h, hc⟩
  · rw [h]
    exact PlainFrame_refl s
  · rw [h]
    exact PlainFrame_of_crypted _ _ hc

theorem Lock_PlainFrame (s : CCryptoKeyStore E) : PlainFrame s s.Lock.2 := by
  unfold Lock
  rcases SetCrypted_cases s with h | ⟨s1, h, hc⟩
  · rw [h]
    exact PlainFrame_refl s
  · rw [h]
    exact PlainFrame_of_crypted _ _ hc

theorem Unlock_PlainFrame (M : Bytes) (s t : CCryptoKeyStore E) (b : Bool)
    (h : s.Unlock M = .returned b t) : PlainFrame s t := by
  unfold Unlock at h
  rcases SetCrypted_cases s with h0 | ⟨s1, h0, hc⟩
  · rw [h0] at h
    simp only [UnlockResult.returned.injEq] at h
    rw [← h.2]
    exact PlainFrame_refl s
  · rw [h0] at h
    simp only at h
    split at h
    · exact absurd h (by simp)
    · split at h
      · simp only [UnlockResult.returned.injEq] at h
        rw [← h.2]
        exact PlainFrame_of_crypted _ _ hc
      · simp only [UnlockResult.returned.injEq] at h
        rw [← h.2]
        exact PlainFrame_of_crypted _ _ hc

theorem EncryptKeys_PlainFrame (M : Bytes) (s : CCryptoKeyStore E) :
    PlainFrame s (s.EncryptKeys M).2 := by
  cases hp : s.fUseCrypto
  · cases hm : s.mapCryptedKeys with
    | nil => exact PlainFrame_of_crypted _ _ (EncryptKeys_started M s hp hm).1
    | cons x xs =>
      have : s.EncryptKeys M = (false, s) := by
        unfold EncryptKeys
        simp [hm]
      rw [this]
      exact PlainFrame_refl s
  · have : s.EncryptKeys M = (false, s) := by
      unfold EncryptKeys
      simp [IsCrypted, hp]
    rw [this]
    exact PlainFrame_refl s

theorem SetCryptedHDSeed_PlainFrame (fp : uint256) (ct : Bytes) (s : CCryptoKeyStore E) :
    PlainFrame s (s.SetCryptedHDSeed fp ct).2 := by
  cases hp : s.fUseCrypto
  · simp only [SetCryptedHDSeed, IsCrypted, hp, Bool.not_false, if_true]
    exact PlainFrame_refl s
  · exact PlainFrame_of_crypted _ _ (SetCryptedHDSeed_KeepsMode fp ct s hp).1

theorem SetHDSeed_PlainFrame (seed : E.HDSeed) (s : CCryptoKeyStore E) :
    PlainFrame s (s.SetHDSeed seed).2 := by
  cases hp : s.fUseCrypto
  · simp only [SetHDSeed, IsCrypted, hp, Bool.not_false, if_true, Basic_SetHDSeed]
    split
    · exact PlainFrame_refl s
    · exact fun _ => ⟨hp, rfl, rfl, rfl, rfl, rfl⟩
  · apply PlainFrame_of_crypted
    simp only [SetHDSeed, IsCrypted, hp, Bool.not_true, Bool.false_eq_true, if_false]
    split
    · exact hp
    · split
      · exact hp
      · exact (SetCryptedHDSeed_KeepsMode _ _ s hp).1

theorem AddKeyPubKey_PlainFrame (key : E.CKey) (pubkey : E.CPubKey) (s : CCryptoKeyStore E) :
    PlainFrame s (s.AddKeyPubKey key pubkey).2 := by
  cases hp : s.fUseCrypto
  · simp only [AddKeyPubKey, IsCrypted, hp, Bool.not_false, if_true, Basic_AddKeyPubKey]
    exact fun _ => ⟨hp, rfl, rfl, rfl, rfl, rfl⟩
  · apply PlainFrame_of_crypted
    simp only [AddKeyPubKey, IsCrypted, hp, Bool.not_true, Bool.false_eq_true, if_false]
    split
    · exact hp
    · split
      · exact hp
      · exact (AddCryptedKey_KeepsMode _ _ s hp).1

theorem AddSproutSpendingKey_PlainFrame (sk : E.SproutSpendingKey) (s : CCryptoKeyStore E) :
    PlainFrame s (s.AddSproutSpendingKey sk).2 := by
  cases hp : s.fUseCrypto
  · simp only [AddSproutSpendingKey, IsCrypted, hp, Bool.not_false, if_true,
      Basic_AddSproutSpendingKey]
    exact fun _ => ⟨hp, rfl, rfl, rfl, rfl, rfl⟩
  · apply PlainFrame_of_crypted
    simp only [AddSproutSpendingKey, IsCrypted, hp, Bool.not_true, Bool.false_eq_true, if_false]
    split
    · exact hp
    · split
      · exact hp
      · exact (AddCryptedSproutSpendingKey_KeepsMode _ _ _ s hp).1

theorem AddSaplingSpendingKey_PlainFrame (sk : E.SaplingExtendedSpendingKey)
    (s : CCryptoKeyStore E) : PlainFrame s (s.AddSaplingSpendingKey sk).2 := by
  cases hp : s.fUseCrypto
  · simp only [AddSaplingSpendingKey, IsCrypted, hp, Bool.not_false, if_true,
      Basic_AddSaplingSpendingKey]
    split <;> exact fun _ => ⟨hp, rfl, rfl, rfl, rfl, rfl⟩
  · apply PlainFrame_of_crypted
    simp only [AddSaplingSpendingKey, IsCrypted, hp, Bool.not_true, Bool.false_eq_true, if_false]
    split
    · exact hp
    · split
      · exact hp
      · exact (AddCryptedSaplingSpendingKey_KeepsMode _ _ s hp).1

theorem AddSaplingExtendedFullViewingKey_PlainFrame (f : E.SaplingExtendedFullViewingKey)
    (s : CCryptoKeyStore E) : PlainFrame s (s.AddSaplingExtendedFullViewingKey f).2 := by
  cases hp : s.fUseCrypto
  · simp only [AddSaplingExtendedFullViewingKey, IsCrypted, hp, Bool.not_false, if_true,
      Basic_AddSaplingExtendedFullViewingKey]
    exact fun _ => ⟨hp, rfl, rfl, rfl, rfl, rfl⟩
  · apply PlainFrame_of_crypted
    simp only [AddSaplingExtendedFullViewingKey, IsCrypted, hp, Bool.not_true,
      Bool.false_eq_true, if_false]
    split
    · exact hp
    · split
      · exact hp
      · exact (AddCryptedSaplingExtendedFullViewingKey_KeepsMode _ _ s hp).1

theorem AddCryptedKey_PlainFrame (p : E.CPubKey) (ct : Bytes) (s : CCryptoKeyStore E) :
    PlainFrame s (s.AddCryptedKey p ct).2 := by
  unfold AddCryptedKey
  rcases SetCrypted_cases s with h | ⟨s1, h, hc⟩
  · rw [h]
    exact PlainFrame_refl s
  · rw [h]
    exact PlainFrame_of_crypted _ _ hc

theorem AddCryptedSproutSpendingKey_PlainFrame (a : E.SproutPaymentAddress)
    (rk : E.ReceivingKey) (ct : Bytes) (s : CCryptoKeyStore E) :
    PlainFrame s (s.AddCryptedSproutSpendingKey a rk ct).2 := by
  unfold AddCryptedSproutSpendingKey
  rcases SetCrypted_cases s with h | ⟨s1, h, hc⟩
  · rw [h]
    exact PlainFrame_refl s
  · rw [h]
    exact PlainFrame_of_crypted _ _ hc

theorem AddCryptedSaplingSpendingKey_PlainFrame (f : E.SaplingExtendedFullViewingKey)
    (ct : Bytes) (s : CCryptoKeyStore E) :
    PlainFrame s (s.AddCryptedSaplingSpendingKey f ct).2 := by
  unfold AddCryptedSaplingSpendingKey
  rcases SetCrypted_cases s with h | ⟨s1, h, hc⟩
  · rw [h]
    exact PlainFrame_refl s
  · rw [h]
    simp only
    split <;> exact PlainFrame_of_crypted _ _ hc

theorem AddCryptedSaplingExtendedFullViewingKey_PlainFrame
    (f : E.SaplingExtendedFullViewingKey) (ct : Bytes) (s : CCryptoKeyStore E) :
    PlainFrame s (s.AddCryptedSaplingExtendedFullViewingKey f ct).2 := by
  cases hp : s.fUseCrypto
  · simp only [AddCryptedSaplingExtendedFullViewingKey, IsCrypted, hp, Bool.not_false, if_true]
    exact PlainFrame_refl s
  · exact PlainFrame_of_crypted _ _
      (AddCryptedSaplingExtendedFullViewingKey_KeepsMode f ct s hp).1

theorem AddCryptedSaplingPaymentAddress_PlainFrame (ivk : E.SaplingIncomingViewingKey)
    (addr : E.SaplingPaymentAddress) (ct : Bytes) (s : CCryptoKeyStore E) :
    PlainFrame s (s.AddCryptedSaplingPaymentAddress ivk addr ct).2 := by
  unfold AddCryptedSaplingPaymentAddress
  rcases SetCrypted_cases s with h | ⟨s1, h, hc⟩
  · rw [h]
    exact PlainFrame_refl s
  · rw [h]
    exact PlainFrame_of_crypted _ _ hc

theorem AddCryptedSaplingDiversifiedAddress_PlainFrame (ivk : E.SaplingIncomingViewingKey)
    (addr : E.SaplingPaymentAddress) (path : E.blob88) (ct : Bytes) (s : CCryptoKeyStore E) :
    PlainFrame s (s.AddCryptedSaplingDiversifiedAddress ivk addr path ct).2 := by
  unfold AddCryptedSaplingDiversifiedAddress
  rcases SetCrypted_cases s with h | ⟨s1, h, hc⟩
  · rw [h]
    exact PlainFrame_refl s
  · rw [h]
    exact PlainFrame_of_crypted _ _ hc

end CCryptoKeyStore

namespace CCryptoKeyStore

variable {E : Env}

theorem DecryptSaplingPaymentAddress_snd (chash : uint256) (ct : Bytes) (s : CCryptoKeyStore E)
    (hc : s.fUseCrypto = true) : (s.DecryptSaplingPaymentAddress chash ct).2 = s := by
  unfold DecryptSaplingPaymentAddress
  rw [SetCrypted_of_crypted s hc]
  simp only
  split
  · rfl
  · split <;> rfl

theorem DecryptSaplingDiversifiedAddress_snd (chash : uint256) (ct : Bytes)
    (s : CCryptoKeyStore E) (hc : s.fUseCrypto = true) :
    (s.DecryptSaplingDiversifiedAddress chash ct).2 = s := by
  unfold DecryptSaplingDiversifiedAddress
  rw [SetCrypted_of_crypted s hc]
  simp only
  split
  · rfl
  · split <;> rfl

theorem LoadCryptedSaplingSpendingKey_KeepsMode (fp : uint256) (ct : Bytes)
    (s : CCryptoKeyStore E) : KeepsMode s (s.LoadCryptedSaplingSpendingKey fp ct).2 := by
  intro hc
  unfold LoadCryptedSaplingSpendingKey
  rw [SetCrypted_of_crypted s hc]
  simp only
  split
  · exact ⟨hc, rfl, rfl⟩
  · split
    · split <;> exact ⟨hc, rfl, rfl⟩
    · exact ⟨hc, rfl, rfl⟩

theorem LoadCryptedSaplingExtendedFullViewingKey_KeepsMode (fp : uint256) (ct : Bytes)
    (s : CCryptoKeyStore E) :
    KeepsMode s (s.LoadCryptedSaplingExtendedFullViewingKey fp ct).2 := by
  intro hc
  unfold LoadCryptedSaplingExtendedFullViewingKey
  rw [SetCrypted_of_crypted s hc]
  simp only
  split
  · exact ⟨hc, rfl, rfl⟩
  · split
    · exact ⟨hc, rfl, rfl⟩
    · exact ⟨hc, rfl, rfl⟩

theorem LoadCryptedSaplingPaymentAddress_KeepsMode (chash : uint256) (ct : Bytes)
    (s : CCryptoKeyStore E) : KeepsMode s (s.LoadCryptedSaplingPaymentAddress chash ct).2 := by
  intro hc
  unfold LoadCryptedSaplingPaymentAddress
  rw [SetCrypted_of_crypted s hc]
  simp only
  split
  · exact ⟨hc, rfl, rfl⟩
  · have hs := DecryptSaplingPaymentAddress_snd chash ct s hc
    generalize s.DecryptSaplingPaymentAddress chash ct = r at hs ⊢
    obtain ⟨⟨b, o⟩, s2⟩ := r
    simp only at hs
    subst hs
    cases b
    · cases o <;> exact ⟨hc, rfl, rfl⟩
    · cases o with
      | none => exact ⟨hc, rfl, rfl⟩
      | some v =>
        obtain ⟨v1, v2⟩ := v
        exact ⟨hc, rfl, rfl⟩

theorem LoadCryptedSaplingDiversifiedAddress_KeepsMode (chash : uint256) (ct : Bytes)
    (s : CCryptoKeyStore E) :
    KeepsMode s (s.LoadCryptedSaplingDiversifiedAddress chash ct).2 := by
  intro hc
  unfold LoadCryptedSaplingDiversifiedAddress
  rw [SetCrypted_of_crypted s hc]
  simp only
  split
  · exact ⟨hc, rfl, rfl⟩
  · have hs := DecryptSaplingDiversifiedAddress_snd chash ct s hc
    generalize s.DecryptSaplingDiversifiedAddress chash ct = r at hs ⊢
    obtain ⟨⟨b, o⟩, s2⟩ := r
    simp only at hs
    subst hs
    cases b
    · cases o <;> exact ⟨hc, rfl, rfl⟩
    · cases o with
      | none => exact ⟨hc, rfl, rfl⟩
      | some v =>
        obtain ⟨v1, v2⟩ := v
        exact ⟨hc, rfl, rfl⟩

theorem LoadCryptedSaplingSpendingKey_PlainFrame (fp : uint256) (ct : Bytes)
    (s : CCryptoKeyStore E) : PlainFrame s (s.LoadCryptedSaplingSpendingKey fp ct).2 := by
  cases hp : s.fUseCrypto
  · rcases SetCrypted_cases s with h | ⟨s1, h, hc⟩
    · have : s.LoadCryptedSaplingSpendingKey fp ct = (false, s) := by
        unfold LoadCryptedSaplingSpendingKey
        rw [h]
      rw [this]
      exact PlainFrame_refl s
    · apply PlainFrame_of_crypted
      have hk := LoadCryptedSaplingSpendingKey_KeepsMode fp ct s1 hc
      unfold LoadCryptedSaplingSpendingKey at hk ⊢
      rw [SetCrypted_of_crypted s1 hc] at hk
      rw [h]
      exact hk.1
  · exact PlainFrame_of_crypted _ _ (LoadCryptedSaplingSpendingKey_KeepsMode fp ct s hp).1

theorem LoadCryptedSaplingExtendedFullViewingKey_PlainFrame (fp : uint256) (ct : Bytes)
    (s : CCryptoKeyStore E) :
    PlainFrame s (s.LoadCryptedSaplingExtendedFullViewingKey fp ct).2 := by
  cases hp : s.fUseCrypto
  · rcases SetCrypted_cases s with h | ⟨s1, h, hc⟩
    · have : s.LoadCryptedSaplingExtendedFullViewingKey fp ct = (false, s) := by
        unfold LoadCryptedSaplingExtendedFullViewingKey
        rw [h]
      rw [this]
      exact PlainFrame_refl s
    · apply PlainFrame_of_crypted
      have hk := LoadCryptedSaplingExtendedFullViewingKey_KeepsMode fp ct s1 hc
      unfold LoadCryptedSaplingExtendedFullViewingKey at hk ⊢
      rw [SetCrypted_of_crypted s1 hc] at hk
      rw [h]
      exact hk.1
  · exact PlainFrame_of_crypted _ _
      (LoadCryptedSaplingExtendedFullViewingKey_KeepsMode fp ct s hp).1

theorem LoadCryptedSaplingPaymentAddress_PlainFrame (chash : uint256) (ct : Bytes)
    (s : CCryptoKeyStore E) : PlainFrame s (s.LoadCryptedSaplingPaymentAddress chash ct).2 := by
  cases hp : s.fUseCrypto
  · rcases SetCrypted_cases s with h | ⟨s1, h, hc⟩
    · have : s.LoadCryptedSaplingPaymentAddress chash ct = (false, s) := by
        unfold LoadCryptedSaplingPaymentAddress
        rw [h]
      rw [this]
      exact PlainFrame_refl s
    · apply PlainFrame_of_crypted
      have hk := LoadCryptedSaplingPaymentAddress_KeepsMode chash ct s1 hc
      unfold LoadCryptedSaplingPaymentAddress at hk ⊢
      rw [SetCrypted_of_crypted s1 hc] at hk
      rw [h]
      exact hk.1
  · exact PlainFrame_of_crypted _ _ (LoadCryptedSaplingPaymentAddress_KeepsMode chash ct s hp).1

theorem LoadCryptedSaplingDiversifiedAddress_PlainFrame (chash : uint256) (ct : Bytes)
    (s : CCryptoKeyStore E) :
    PlainFrame s (s.LoadCryptedSaplingDiversifiedAddress chash ct).2 := by
  cases hp : s.fUseCrypto
  · rcases SetCrypted_cases s with h | ⟨s1, h, hc⟩
    · have : s.LoadCryptedSaplingDiversifiedAddress chash ct = (false, s) := by
        unfold LoadCryptedSaplingDiversifiedAddress
        rw [h]
      rw [this]
      exact PlainFrame_refl s
    · apply PlainFrame_of_crypted
      have hk := LoadCryptedSaplingDiversifiedAddress_KeepsMode chash ct s1 hc
      unfold LoadCryptedSaplingDiversifiedAddress at hk ⊢
      rw [SetCrypted_of_crypted s1 hc] at hk
      rw [h]
      exact hk.1
  · exact PlainFrame_of_crypted _ _
      (LoadCryptedSaplingDiversifiedAddress_KeepsMode chash ct s hp).1

/-- Every call satisfies `PlainFrame`. -/
theorem Op.run_PlainFrame (op : Op E) (s t : CCryptoKeyStore E) (h : op.run s = some t) :
    PlainFrame s t := by
  cases op with
  | SetCrypted =>
    simp only [Op.run, Option.some.injEq] at h
    rw [← h]
    exact SetCrypted_PlainFrame s
  | Lock =>
    simp only [Op.run, Option.some.injEq] at h
    rw [← h]
    exact Lock_PlainFrame s
  | Unlock m =>
    simp only [Op.run] at h
    split at h
    · next b t' hu =>
      simp only [Option.some.injEq] at h
      rw [← h]
      exact Unlock_PlainFrame m s t' b hu
    · simp at h
  | EncryptKeys m =>
    simp only [Op.run, Option.some.injEq] at h
    rw [← h]
    exact EncryptKeys_PlainFrame m s
  | SetHDSeed seed =>
    simp only [Op.run, Option.some.injEq] at h
    rw [← h]
    exact SetHDSeed_PlainFrame seed s
  | SetCryptedHDSeed fp ct =>
    simp only [Op.run, Option.some.injEq] at h
    rw [← h]
    exact SetCryptedHDSeed_PlainFrame fp ct s
  | AddKeyPubKey key pubkey =>
    simp only [Op.run, Option.some.injEq] at h
    rw [← h]
    exact AddKeyPubKey_PlainFrame key pubkey s
  | AddCryptedKey p ct =>
    simp only [Op.run, Option.some.injEq] at h
    rw [← h]
    exact AddCryptedKey_PlainFrame p ct s
  | AddSproutSpendingKey sk =>
    simp only [Op.run, Option.some.injEq] at h
    rw [← h]
    exact AddSproutSpendingKey_PlainFrame sk s
  | AddSaplingSpendingKey sk =>
    simp only [Op.run, Option.some.injEq] at h
    rw [← h]
    exact AddSaplingSpendingKey_PlainFrame sk s
  | AddSaplingExtendedFullViewingKey f =>
    simp only [Op.run, Option.some.injEq] at h
    rw [← h]
    exact AddSaplingExtendedFullViewingKey_PlainFrame f s
  | AddCryptedSproutSpendingKey a rk ct =>
    simp only [Op.run, Option.some.injEq] at h
    rw [← h]
    exact AddCryptedSproutSpendingKey_PlainFrame a rk ct s
  | AddCryptedSaplingSpendingKey f ct =>
    simp only [Op.run, Option.some.injEq] at h
    rw [← h]
    exact AddCryptedSaplingSpendingKey_PlainFrame f ct s
  | AddCryptedSaplingExtendedFullViewingKey f ct =>
    simp only [Op.run, Option.some.injEq] at h
    rw [← h]
    exact AddCryptedSaplingExtendedFullViewingKey_PlainFrame f ct s
  | AddCryptedSaplingPaymentAddress ivk addr ct =>
    simp only [Op.run, Option.some.injEq] at h
    rw [← h]
    exact AddCryptedSaplingPaymentAddress_PlainFrame ivk addr ct s
  | AddCryptedSaplingDiversifiedAddress ivk addr path ct =>
    simp only [Op.run, Option.some.injEq] at h
    rw [← h]
    exact AddCryptedSaplingDiversifiedAddress_PlainFrame ivk addr path ct s
  | LoadCryptedSaplingSpendingKey fp ct =>
    simp only [Op.run, Option.some.injEq] at h
    rw [← h]
    exact LoadCryptedSaplingSpendingKey_PlainFrame fp ct s
  | LoadCryptedSaplingExtendedFullViewingKey fp ct =>
    simp only [Op.run, Option.some.injEq] at h
    rw [← h]
    exact LoadCryptedSaplingExtendedFullViewingKey_PlainFrame fp ct s
  | LoadCryptedSaplingPaymentAddress chash ct =>
    simp only [Op.run, Option.some.injEq] at h
    rw [← h]
    exact LoadCryptedSaplingPaymentAddress_PlainFrame chash ct s
  | LoadCryptedSaplingDiversifiedAddress chash ct =>
    simp only [Op.run, Option.some.injEq] at h
    rw [← h]
    exact LoadCryptedSaplingDiversifiedAddress_PlainFrame chash ct s

/-- A reachable store that is in plaintext mode holds no encrypted material. -/
theorem Reachable.plaintext_no_crypted (s : CCryptoKeyStore E) (hr : Reachable s)
    (hp : s.fUseCrypto = false) : s.NoCryptedMaterial := by
  induction hr with
  | fresh => exact ⟨rfl, rfl, rfl, rfl, rfl⟩
  | step op a b _ hrun ih =>
    obtain ⟨hpa, h1, h2, h3, h4, h5⟩ := Op.run_PlainFrame op a b hrun hp
    obtain ⟨i1, i2, i3, i4, i5⟩ := ih hpa
    exact ⟨h1.trans i1, h2.trans i2, h3.trans i3, h4.trans i4, h5.trans i5⟩

end CCryptoKeyStore

/-! ## C11 -/

theorem EncryptSecret_length (E : Env) (M pt ct : Bytes) (nIV : uint256)
    (h : EncryptSecret E M pt nIV = some ct) : M.length = 32 := by
  by_contra hne
  simp [EncryptSecret, CCrypter.SetKey, WALLET_CRYPTO_KEY_SIZE, hne] at h

theorem EncryptSecret_ne_nil (E : Env) (hN : CipherOutputNonempty E) (M pt ct : Bytes)
    (nIV : uint256) (h : EncryptSecret E M pt nIV = some ct) : ct ≠ [] := by
  have hM := EncryptSecret_length E M pt ct nIV h
  rw [EncryptSecret_eq E M pt nIV hM] at h
  exact hN _ _ _ _ hM h

theorem toyBuilt_reachable : CCryptoKeyStore.Reachable toyBuilt :=
  .step (Op.AddSaplingSpendingKey (7 : Nat) : Op toyEnv) toyBuilt4 toyBuilt
    (.step (Op.AddSproutSpendingKey (5 : Nat) : Op toyEnv) toyBuilt3 toyBuilt4
      (.step (Op.AddKeyPubKey ((2 : Nat), false) ((2 : Nat), false) : Op toyEnv)
        toyBuilt2 toyBuilt3
        (.step (Op.AddKeyPubKey ((1 : Nat), true) ((1 : Nat), true) : Op toyEnv)
          toyBuilt1 toyBuilt2
          (.step (Op.SetHDSeed (List.replicate 32 (0 : Nat)) : Op toyEnv)
            (CCryptoKeyStore.fresh toyEnv) toyBuilt1 .fresh rfl) rfl) rfl) rfl) rfl

theorem toyEnv_CipherOutputNonempty : CipherOutputNonempty toyEnv := by
  intro key iv pt ct hk h
  simp only [toyEnv, Option.some.injEq] at h
  intro h0
  rw [h0] at h
  have hl := congrArg List.length h
  simp only [List.length_append, List.length_nil] at hl
  omega

/-- C11: for a Plaintext store reachable from a fresh store, when `EncryptKeys`
returns true the maps `mapKeys`, `mapSproutSpendingKeys` and
`mapSaplingSpendingKeys` are empty and the plaintext HD seed is null
afterwards, and `HaveHDSeed()` after the call is true exactly when the
plaintext HD seed was not null before the call (so it has the value it had
before). The default-constructed seed is assumed to be null and the cipher to
return no empty ciphertext. -/
theorem C11_EncryptKeys_clears_plaintext (E : Env) (hN : CipherOutputNonempty E)
    (hD : E.HDSeed_IsNull E.HDSeed_default = true) (s : CCryptoKeyStore E) (M : Bytes)
    (hr : Reachable s) (hp : s.IsCrypted = false) (h : (s.EncryptKeys M).1 = true) :
    (s.EncryptKeys M).2.mapKeys = [] ∧
    (s.EncryptKeys M).2.mapSproutSpendingKeys = [] ∧
    (s.EncryptKeys M).2.mapSaplingSpendingKeys = [] ∧
    E.HDSeed_IsNull (s.EncryptKeys M).2.hdSeed = true ∧
    ((s.EncryptKeys M).2.HaveHDSeed = true ↔ E.HDSeed_IsNull s.hdSeed = false) ∧
    (s.EncryptKeys M).2.HaveHDSeed = s.HaveHDSeed := by
  obtain ⟨-, -, seedC, hd, mk, ms, nd, ma, idx, ht, -, -, -, hsd⟩ := EncryptKeys_true M s h
  have hinv := Reachable.plaintext_no_crypted s hr hp
  have hhave : s.HaveHDSeed = !E.HDSeed_IsNull s.hdSeed := by
    simp [HaveHDSeed, hp, Basic_HaveHDSeed]
  rw [ht, hhave]
  refine ⟨rfl, rfl, rfl, ?_, ?_, ?_⟩
  · rcases hsd with ⟨hn, hhd, -⟩ | ⟨-, hhd, -⟩
    · rw [hhd]
      exact hn
    · rw [hhd]
      exact hD
  · rcases hsd with ⟨hn, -, hsc⟩ | ⟨hn, -, -, ct, hes, hsc⟩
    · simp [HaveHDSeed, IsCrypted, hsc, hinv.1, hn]
    · have hne := EncryptSecret_ne_nil E hN _ _ _ _ hes
      simp [HaveHDSeed, IsCrypted, hsc, hn, hne]
  · rcases hsd with ⟨hn, -, hsc⟩ | ⟨hn, -, -, ct, hes, hsc⟩
    · simp [HaveHDSeed, IsCrypted, hsc, hinv.1, hn]
    · have hne := EncryptSecret_ne_nil E hN _ _ _ _ hes
      simp [HaveHDSeed, IsCrypted, hsc, hn, hne]

/-- Witness of C11: the store `toyBuilt` and `keyAA`. -/
theorem C11_EncryptKeys_clears_plaintext_witness :
    (toyBuilt.EncryptKeys keyAA).2.mapKeys = [] ∧
    (toyBuilt.EncryptKeys keyAA).2.mapSproutSpendingKeys = [] ∧
    (toyBuilt.EncryptKeys keyAA).2.mapSaplingSpendingKeys = [] ∧
    toyEnv.HDSeed_IsNull (toyBuilt.EncryptKeys keyAA).2.hdSeed = true ∧
    ((toyBuilt.EncryptKeys keyAA).2.HaveHDSeed = true ↔
      toyEnv.HDSeed_IsNull toyBuilt.hdSeed = false) ∧
    (toyBuilt.EncryptKeys keyAA).2.HaveHDSeed = toyBuilt.HaveHDSeed :=
  C11_EncryptKeys_clears_plaintext toyEnv toyEnv_CipherOutputNonempty rfl toyBuilt keyAA
    toyBuilt_reachable (by decide) (by decide)


/-! ## C30: a reachable store in plaintext mode holds no encrypted material -/

/-- C30: in every store reachable from a fresh store by the public operations, a
store that is in plaintext mode has a null crypted HD seed slot (null
fingerprint, empty ciphertext), empty crypted transparent, Sprout and Sapling
key maps, and an empty master key. -/
theorem C30_plaintext_store_has_no_crypted_material {E : Env} (s : CCryptoKeyStore E)
    (hr : s.Reachable) (hp : s.IsCrypted = false) :
    s.cryptedHDSeed.1.IsNull = true ∧ s.cryptedHDSeed.2 = [] ∧
      s.mapCryptedKeys = [] ∧ s.mapCryptedSproutSpendingKeys = [] ∧
      s.mapCryptedSaplingSpendingKeys = [] ∧ s.vMasterKey = [] := by
  obtain ⟨h1, h2, h3, h4, h5⟩ := Reachable.plaintext_no_crypted s hr hp
  rw [h1]
  exact ⟨by decide, rfl, h2, h3, h4, h5⟩

/-- Witness of C30: the store `toyBuilt`, reached by five calls, in plaintext mode. -/
theorem C30_plaintext_store_has_no_crypted_material_witness :
    toyBuilt.Reachable ∧ toyBuilt.IsCrypted = false ∧ toyBuilt.mapKeys.length = 2 ∧
      (toyBuilt.cryptedHDSeed.1.IsNull = true ∧ toyBuilt.cryptedHDSeed.2 = [] ∧
        toyBuilt.mapCryptedKeys = [] ∧ toyBuilt.mapCryptedSproutSpendingKeys = [] ∧
        toyBuilt.mapCryptedSaplingSpendingKeys = [] ∧ toyBuilt.vMasterKey = []) :=
  ⟨toyBuilt_reachable, rfl, rfl,
    C30_plaintext_store_has_no_crypted_material toyBuilt toyBuilt_reachable rfl⟩

/-! ## C26: `Unlock` on an encrypted store without records -/

/-- C26: on a store in encrypted mode that holds no crypted HD seed and whose
crypted transparent, Sprout and Sapling key maps are empty, `Unlock` returns
false for every candidate key: no check sets `keyPass`, the store is left as
it was, and so a locked store stays locked. -/
theorem C26_unlock_empty_store_returns_false {E : Env} (M : Bytes) (s : CCryptoKeyStore E)
    (hc : s.IsCrypted = true) (hseed : s.holdsCryptedHDSeed = false)
    (hk : s.mapCryptedKeys = []) (hsp : s.mapCryptedSproutSpendingKeys = [])
    (hsa : s.mapCryptedSaplingSpendingKeys = []) :
    (unlockFlags M s).1 = false ∧ s.Unlock M = .returned false s ∧
      (s.IsLocked = true → ((s.Unlock M).storeOr s).IsLocked = true) := by
  have hf : unlockFlags M s = (false, false) := by
    rw [unlockFlags_eq]
    simp [firstPass, seedPass, seedFail, hseed, hk, hsp, hsa, headPass, headFail]
  have hu : s.Unlock M = .returned false s := by
    rw [Unlock_of_crypted M s hc, hf]
    rfl
  refine ⟨by rw [hf], hu, fun hl => ?_⟩
  rw [hu]
  exact hl

/-- Witness of C26: the fresh store switched to encrypted mode, candidate `keyAA`. -/
theorem C26_unlock_empty_store_returns_false_witness :
    toyCrypted.IsCrypted = true ∧ toyCrypted.IsLocked = true ∧
      ((unlockFlags keyAA toyCrypted).1 = false ∧
        toyCrypted.Unlock keyAA = .returned false toyCrypted ∧
        (toyCrypted.IsLocked = true →
          ((toyCrypted.Unlock keyAA).storeOr toyCrypted).IsLocked = true)) :=
  ⟨rfl, rfl, C26_unlock_empty_store_returns_false keyAA toyCrypted rfl rfl rfl rfl rfl⟩


/-! ## C25: the assertion of `Unlock` is reached only in the mixed case -/

namespace CCryptoKeyStore

variable {E : Env}

theorem unlockScan_examined {α : Type} (check : α → Bool) (fChecked : Bool) (l : List α)
    (keyPass keyFail : Bool) :
    unlockScan check fChecked l (keyPass, keyFail) =
      (keyPass || (examined check fChecked l).any check,
        keyFail || (examined check fChecked l).any (fun x => !check x)) := by
  induction l generalizing keyPass keyFail with
  | nil => simp [unlockScan, examined]
  | cons x xs ih =>
    cases hx : check x <;> cases fChecked <;> simp [unlockScan, examined, hx, ih]

theorem examined_subset {α : Type} (check : α → Bool) (fChecked : Bool) (l : List α) :
    ∀ x ∈ examined check fChecked l, x ∈ l := by
  induction l with
  | nil => simp [examined]
  | cons x xs ih =>
    intro y hy
    unfold examined at hy
    split at hy
    · simp only [List.mem_singleton] at hy
      simp [hy]
    · split at hy
      · simp only [List.mem_singleton] at hy
        simp [hy]
      · rcases List.mem_cons.mp hy with h | h
        · simp [h]
        · exact List.mem_cons_of_mem _ (ih y h)

theorem any_map_id {α : Type} (f : α → Bool) (l : List α) :
    (l.map f).any (fun b => b) = l.any f := by
  induction l with
  | nil => rfl
  | cons x xs ih => simp [ih]

theorem any_map_not {α : Type} (f : α → Bool) (l : List α) :
    (l.map f).any (fun b => !b) = l.any (fun x => !f x) := by
  induction l with
  | nil => rfl
  | cons x xs ih => simp [ih]

theorem unlockFlags_examinedChecks (M : Bytes) (s : CCryptoKeyStore E) :
    unlockFlags M s =
      ((examinedChecks M s).any (fun b => b), (examinedChecks M s).any (fun b => !b)) := by
  unfold unlockFlags examinedChecks holdsCryptedHDSeed
  cases h1 : s.cryptedHDSeed.1.IsNull <;> cases h2 : checkHDSeed E M s.cryptedHDSeed <;>
    simp [unlockScan_examined, List.any_append, any_map_id, any_map_not, h2,
      Bool.or_assoc]

theorem examinedChecks_subset (M : Bytes) (s : CCryptoKeyStore E) :
    ∀ b ∈ examinedChecks M s, b ∈ recordChecks M s := by
  intro b hb
  unfold examinedChecks at hb
  unfold recordChecks
  simp only [List.mem_append, List.mem_map] at hb ⊢
  rcases hb with ((h | ⟨x, hx, rfl⟩) | ⟨x, hx, rfl⟩) | ⟨x, hx, rfl⟩
  · exact Or.inl (Or.inl (Or.inl h))
  · exact Or.inl (Or.inl (Or.inr ⟨x, examined_subset _ _ _ x hx, rfl⟩))
  · exact Or.inl (Or.inr ⟨x, examined_subset _ _ _ x hx, rfl⟩)
  · exact Or.inr ⟨x, examined_subset _ _ _ x hx, rfl⟩

theorem Unlock_assertFailed_iff (M : Bytes) (s : CCryptoKeyStore E)
    (hc : s.fUseCrypto = true) :
    s.Unlock M = .assertFailed ↔
      (true ∈ examinedChecks M s ∧ false ∈ examinedChecks M s) := by
  rw [Unlock_of_crypted M s hc, unlockFlags_examinedChecks]
  cases hp : (examinedChecks M s).any (fun b => b) <;>
    cases hf : (examinedChecks M s).any (fun b => !b) <;>
    simp only [List.any_eq_true, List.any_eq_false] at hp hf <;> simp
  · intro ht
    exact absurd rfl (hp true ht)
  · intro ht
    exact absurd rfl (hp true ht)
  · intro _ hfm
    simpa using hf false hfm
  · obtain ⟨a, ha, rfl⟩ := hp
    obtain ⟨b, hb, hb2⟩ := hf
    simp only [Bool.not_eq_true'] at hb2
    subst hb2
    exact ⟨ha, hb⟩

end CCryptoKeyStore


namespace CCryptoKeyStore

variable {E : Env}

theorem Unlock_returns_of_ne_assertFailed (M : Bytes) (s : CCryptoKeyStore E)
    (h : s.Unlock M ≠ .assertFailed) : ∃ r t, s.Unlock M = .returned r t := by
  cases hu : s.Unlock M with
  | returned r t => exact ⟨r, t, rfl⟩
  | assertFailed => exact absurd hu h

theorem examined_checked {α : Type} (check : α → Bool) (l : List α) :
    examined check true l = l.take 1 := by
  cases l with
  | nil => rfl
  | cons x xs => cases hx : check x <;> simp [examined, hx]

theorem SetCrypted_truncateCryptedMaps (s : CCryptoKeyStore E) :
    s.truncateCryptedMaps.SetCrypted = (s.SetCrypted.1, s.SetCrypted.2.truncateCryptedMaps) := by
  unfold SetCrypted truncateCryptedMaps
  simp only
  split
  · rfl
  · split <;> rfl

theorem SetCrypted_fDecryptionThoroughlyChecked (s : CCryptoKeyStore E) :
    s.SetCrypted.2.fDecryptionThoroughlyChecked = s.fDecryptionThoroughlyChecked := by
  unfold SetCrypted
  split
  · rfl
  · split <;> rfl

theorem examinedChecks_checked (M : Bytes) (s : CCryptoKeyStore E)
    (h : s.fDecryptionThoroughlyChecked = true) :
    examinedChecks M s =
      (if s.holdsCryptedHDSeed then [checkHDSeed E M s.cryptedHDSeed] else [])
        ++ (s.mapCryptedKeys.take 1).map (checkKey E M)
        ++ (s.mapCryptedSproutSpendingKeys.take 1).map (checkSprout E M)
        ++ (s.mapCryptedSaplingSpendingKeys.take 1).map (checkSapling E M) := by
  unfold examinedChecks
  rw [h, examined_checked, examined_checked, examined_checked]

theorem examinedChecks_truncateCryptedMaps (M : Bytes) (s : CCryptoKeyStore E)
    (h : s.fDecryptionThoroughlyChecked = true) :
    examinedChecks M s.truncateCryptedMaps = examinedChecks M s := by
  rw [examinedChecks_checked M s h, examinedChecks_checked M s.truncateCryptedMaps h]
  simp [truncateCryptedMaps, holdsCryptedHDSeed, List.take_take]

theorem Unlock_kind_truncateCryptedMaps (M : Bytes) (s : CCryptoKeyStore E)
    (h : s.fDecryptionThoroughlyChecked = true) :
    (s.truncateCryptedMaps.Unlock M).kind = (s.Unlock M).kind := by
  have h1 : s.SetCrypted.2.fDecryptionThoroughlyChecked = true := by
    rw [SetCrypted_fDecryptionThoroughlyChecked, h]
  have hf : unlockFlags M s.SetCrypted.2.truncateCryptedMaps = unlockFlags M s.SetCrypted.2 := by
    rw [unlockFlags_examinedChecks, unlockFlags_examinedChecks,
      examinedChecks_truncateCryptedMaps M _ h1]
  unfold Unlock
  rw [SetCrypted_truncateCryptedMaps]
  generalize s.SetCrypted = r at hf
  obtain ⟨b, s1⟩ := r
  cases b
  · rfl
  · simp only at hf ⊢
    rw [hf]
    generalize unlockFlags M s1 = pf
    obtain ⟨p, f⟩ := pf
    cases p <;> cases f <;> rfl

end CCryptoKeyStore

/-- C25: on a store in encrypted mode, when the candidate passes the check of every
stored record, or of none, `Unlock` returns (true or false) and does not reach
`assert(false)`; and `Unlock` reaches `assert(false)` exactly when, among the
records it examines, at least one passes and at least one fails. -/
theorem C25_unlock_asserts_only_in_mixed_case {E : Env} (M : Bytes) (s : CCryptoKeyStore E)
    (hc : s.IsCrypted = true) :
    ((∀ b ∈ recordChecks M s, b = true) → ∃ r t, s.Unlock M = .returned r t) ∧
    ((∀ b ∈ recordChecks M s, b = false) → ∃ r t, s.Unlock M = .returned r t) ∧
    (s.Unlock M = .assertFailed ↔
      (true ∈ examinedChecks M s ∧ false ∈ examinedChecks M s)) := by
  refine ⟨fun hall => ?_, fun hnone => ?_, Unlock_assertFailed_iff M s hc⟩
  · apply Unlock_returns_of_ne_assertFailed
    intro ha
    have hf := ((Unlock_assertFailed_iff M s hc).mp ha).2
    exact absurd (hall false (examinedChecks_subset M s false hf)) (by decide)
  · apply Unlock_returns_of_ne_assertFailed
    intro ha
    have ht := ((Unlock_assertFailed_iff M s hc).mp ha).1
    exact absurd (hnone true (examinedChecks_subset M s true ht)) (by decide)

/-- Witness of C25: a store whose first record passes and whose second record fails
under `keyAA`; `Unlock` reaches the assertion. -/
theorem C25_unlock_asserts_only_in_mixed_case_witness :
    toyTamperedSecond.IsCrypted = true ∧
    toyTamperedSecond.Unlock keyAA = .assertFailed ∧
    examinedChecks keyAA toyTamperedSecond = [true, false] ∧
    (((∀ b ∈ recordChecks keyAA toyTamperedSecond, b = true) →
        ∃ r t, toyTamperedSecond.Unlock keyAA = .returned r t) ∧
      ((∀ b ∈ recordChecks keyAA toyTamperedSecond, b = false) →
        ∃ r t, toyTamperedSecond.Unlock keyAA = .returned r t) ∧
      (toyTamperedSecond.Unlock keyAA = .assertFailed ↔
        (true ∈ examinedChecks keyAA toyTamperedSecond ∧
          false ∈ examinedChecks keyAA toyTamperedSecond))) :=
  ⟨rfl, rfl, by decide, C25_unlock_asserts_only_in_mixed_case keyAA toyTamperedSecond rfl⟩

/-! ## C27: a thoroughly checked store is examined at its first records only -/

/-- C27: when `fDecryptionThoroughlyChecked` is already true, the records `Unlock`
examines are the crypted HD seed and the first record, in map order, of each
of the three crypted key maps, and the outcome of `Unlock` (true, false or the
assertion) equals its outcome on the same store with each crypted key map cut
down to its first record. -/
theorem C27_unlock_checked_examines_first_records {E : Env} (M : Bytes)
    (s : CCryptoKeyStore E) (h : s.fDecryptionThoroughlyChecked = true) :
    examinedChecks M s =
        (if s.holdsCryptedHDSeed then [checkHDSeed E M s.cryptedHDSeed] else [])
          ++ (s.mapCryptedKeys.take 1).map (checkKey E M)
          ++ (s.mapCryptedSproutSpendingKeys.take 1).map (checkSprout E M)
          ++ (s.mapCryptedSaplingSpendingKeys.take 1).map (checkSapling E M) ∧
      (s.Unlock M).kind = (s.truncateCryptedMaps.Unlock M).kind :=
  ⟨examinedChecks_checked M s h, (Unlock_kind_truncateCryptedMaps M s h).symm⟩

/-- Witness of C27: a thoroughly checked store with a good first record and a
tampered second record; `Unlock` returns true, as on the store cut down to the
first record. -/
theorem C27_unlock_checked_examines_first_records_witness :
    toyTamperedLast.fDecryptionThoroughlyChecked = true ∧
    toyTamperedLast.mapCryptedKeys.length = 2 ∧
    toyTamperedLast.truncateCryptedMaps.mapCryptedKeys.length = 1 ∧
    recordChecks keyAA toyTamperedLast = [true, false] ∧
    (toyTamperedLast.Unlock keyAA).kind = some true ∧
    (examinedChecks keyAA toyTamperedLast =
        (if toyTamperedLast.holdsCryptedHDSeed then
            [checkHDSeed toyEnv keyAA toyTamperedLast.cryptedHDSeed] else [])
          ++ (toyTamperedLast.mapCryptedKeys.take 1).map (checkKey toyEnv keyAA)
          ++ (toyTamperedLast.mapCryptedSproutSpendingKeys.take 1).map
              (checkSprout toyEnv keyAA)
          ++ (toyTamperedLast.mapCryptedSaplingSpendingKeys.take 1).map
              (checkSapling toyEnv keyAA) ∧
      (toyTamperedLast.Unlock keyAA).kind =
        (toyTamperedLast.truncateCryptedMaps.Unlock keyAA).kind) :=
  ⟨rfl, rfl, rfl, by decide, rfl,
    C27_unlock_checked_examines_first_records keyAA toyTamperedLast rfl⟩


/-! ## C22: `SetKeyFromPassphrase` -/

/-- C22: for every passphrase, `SetKeyFromPassphrase` returns false when the number
of rounds is below 1, or the salt does not have 8 bytes, or the derivation
method is not 0; and when the rounds are at least 1, the salt has 8 bytes, the
method is 0 and `EVP_BytesToKey` reports the full key size, it returns true
and sets `fKeySet`. -/
theorem C22_SetKeyFromPassphrase (E : Env) (c : CCrypter) (strKeyData chSalt : Bytes)
    (nRounds nDerivationMethod : Nat) :
    ((nRounds < 1 ∨ chSalt.length ≠ 8 ∨ nDerivationMethod ≠ 0) →
      (c.SetKeyFromPassphrase E strKeyData chSalt nRounds nDerivationMethod).1 = false) ∧
    (1 ≤ nRounds → chSalt.length = 8 → nDerivationMethod = 0 →
      (E.EVP_BytesToKey chSalt strKeyData nRounds).1 = WALLET_CRYPTO_KEY_SIZE →
      (c.SetKeyFromPassphrase E strKeyData chSalt nRounds nDerivationMethod).1 = true ∧
      (c.SetKeyFromPassphrase E strKeyData chSalt nRounds nDerivationMethod).2.fKeySet
        = true) := by
  constructor
  · intro h
    unfold CCrypter.SetKeyFromPassphrase
    split
    · rfl
    · next hg =>
      simp only [Bool.or_eq_true, decide_eq_true_eq, bne_iff_ne, ne_eq, not_or, not_not,
        WALLET_CRYPTO_SALT_SIZE] at hg
      rcases h with h | h | h
      · exact absurd h hg.1
      · exact absurd hg.2 h
      · simp [h, WALLET_CRYPTO_KEY_SIZE]
  · intro h1 h2 h3 h4
    unfold CCrypter.SetKeyFromPassphrase
    have hg : ¬ (nRounds = 0 ∨ ¬ chSalt.length = WALLET_CRYPTO_SALT_SIZE) := by
      simp only [WALLET_CRYPTO_SALT_SIZE, h2, not_true_eq_false, or_false]
      omega
    simp [hg, h3, h4]

/-- Witness of C22: zero rounds are rejected; 1000 rounds with a salt of 8 bytes and
method 0 are accepted. -/
theorem C22_SetKeyFromPassphrase_witness :
    (((0 : Nat) < 1 ∨ (List.replicate 8 5 : Bytes).length ≠ 8 ∨ (0 : Nat) ≠ 0) →
      (CCrypter.fresh.SetKeyFromPassphrase toyEnv [1, 2, 3] (List.replicate 8 5) 0 0).1
        = false) ∧
    ((1 : Nat) ≤ 1000 ∧ (List.replicate 8 5 : Bytes).length = 8 ∧
      (toyEnv.EVP_BytesToKey (List.replicate 8 5) [1, 2, 3] 1000).1
        = WALLET_CRYPTO_KEY_SIZE ∧
      (CCrypter.fresh.SetKeyFromPassphrase toyEnv [1, 2, 3] (List.replicate 8 5) 1000 0).1
        = true ∧
      (CCrypter.fresh.SetKeyFromPassphrase toyEnv [1, 2, 3] (List.replicate 8 5) 1000 0).2.fKeySet
        = true) :=
  ⟨(C22_SetKeyFromPassphrase toyEnv CCrypter.fresh [1, 2, 3] (List.replicate 8 5) 0 0).1,
    by decide, by decide, rfl,
    (C22_SetKeyFromPassphrase toyEnv CCrypter.fresh [1, 2, 3] (List.replicate 8 5) 1000 0).2
      (by decide) (by decide) rfl rfl⟩


/-! ## C21: the IV of a record is the first 16 bytes of its identifier -/

theorem toyEnv_CipherSeparatesIVs : CipherSeparatesIVs toyEnv := by
  intro key iv1 iv2 pt ct _ _ _ h1 h2
  simp only [toyEnv, Option.some.injEq] at h1 h2
  have h := h1.trans h2.symm
  rw [List.append_assoc, List.append_assoc] at h
  exact List.append_cancel_right (List.append_cancel_left h)

theorem EncryptSecret_congr_IV (E : Env) (M pt : Bytes) (ID1 ID2 : uint256)
    (hM : M.length = 32) (hID : ID1.bytes.take 16 = ID2.bytes.take 16) :
    EncryptSecret E M pt ID1 = EncryptSecret E M pt ID2 := by
  rw [EncryptSecret_eq E M pt ID1 hM, EncryptSecret_eq E M pt ID2 hM]
  simp only [AES_BLOCK_SIZE, hID]

/-- C21 (as stated) fails: under the 32-byte master key `keyAA` the identifiers
`uint256.zero` and `idZeroOne` are distinct, and `EncryptSecret` succeeds on
the two records `(uint256.zero, [1, 2, 3])` and `(idZeroOne, [1, 2, 3])` with
one and the same ciphertext. -/
theorem C21_counterexample :
    keyAA.length = 32 ∧ uint256.zero ≠ idZeroOne ∧
    (EncryptSecret toyEnv keyAA [1, 2, 3] uint256.zero).isSome = true ∧
    EncryptSecret toyEnv keyAA [1, 2, 3] uint256.zero
      = EncryptSecret toyEnv keyAA [1, 2, 3] idZeroOne := by
  refine ⟨by decide, by decide, by decide, by decide⟩

/-- C21 (amended): under a 32-byte master key the IV of a record is the first 16
bytes of its identifier. For two records on which `EncryptSecret` succeeds:
when the identifiers agree on their first 16 bytes, the ciphertexts are equal
exactly when the plaintexts are equal (for a cipher whose decryption inverts
its encryption); and when the plaintexts are equal, the ciphertexts differ
exactly when the identifiers differ within their first 16 bytes (for a cipher
that gives different ciphertexts for different IVs). -/
theorem C21_ciphertexts_by_IV (E : Env) (hI : CipherInverts E) (hS : CipherSeparatesIVs E)
    (M : Bytes) (hM : M.length = 32) (ID1 ID2 : uint256) (p1 p2 c1 c2 : Bytes)
    (h1 : EncryptSecret E M p1 ID1 = some c1) (h2 : EncryptSecret E M p2 ID2 = some c2) :
    (ID1.bytes.take 16 = ID2.bytes.take 16 → (c1 = c2 ↔ p1 = p2)) ∧
    (p1 = p2 → (c1 ≠ c2 ↔ ID1.bytes.take 16 ≠ ID2.bytes.take 16)) := by
  rw [EncryptSecret_eq E M p1 ID1 hM] at h1
  rw [EncryptSecret_eq E M p2 ID2 hM] at h2
  simp only [AES_BLOCK_SIZE] at h1 h2
  constructor
  · intro hID
    rw [hID] at h1
    constructor
    · intro hc
      subst hc
      have d1 := hI _ _ _ _ h1
      have d2 := hI _ _ _ _ h2
      rw [d1] at d2
      exact Option.some.inj d2
    · intro hp
      subst hp
      rw [h1] at h2
      exact Option.some.inj h2
  · intro hp
    subst hp
    constructor
    · intro hc hID
      rw [hID, h2] at h1
      exact hc (Option.some.inj h1).symm
    · intro hID hc
      subst hc
      exact hID (hS M _ _ p1 c1 hM (by simp [ID1.size_eq]) (by simp [ID2.size_eq]) h1 h2)

/-- Witness of C21 (amended): one plaintext under the identifiers `0x00 .. 00` and
`0x09 .. 09`. -/
theorem C21_ciphertexts_by_IV_witness :
    CipherInverts toyEnv ∧ CipherSeparatesIVs toyEnv ∧ keyAA.length = 32 ∧
    EncryptSecret toyEnv keyAA [1, 2, 3] uint256.zero
      = some (keyAA ++ List.replicate 16 0 ++ [1, 2, 3]) ∧
    EncryptSecret toyEnv keyAA [1, 2, 3] (uint256.ofByte 9)
      = some (keyAA ++ List.replicate 16 9 ++ [1, 2, 3]) ∧
    ((uint256.zero.bytes.take 16 = (uint256.ofByte 9).bytes.take 16 →
        (keyAA ++ List.replicate 16 0 ++ [1, 2, 3] = keyAA ++ List.replicate 16 9 ++ [1, 2, 3]
          ↔ ([1, 2, 3] : Bytes) = [1, 2, 3])) ∧
      (([1, 2, 3] : Bytes) = [1, 2, 3] →
        (keyAA ++ List.replicate 16 0 ++ [1, 2, 3] ≠ keyAA ++ List.replicate 16 9 ++ [1, 2, 3]
          ↔ uint256.zero.bytes.take 16 ≠ (uint256.ofByte 9).bytes.take 16))) :=
  ⟨toyEnv_CipherInverts, toyEnv_CipherSeparatesIVs, by decide, by decide, by decide,
    C21_ciphertexts_by_IV toyEnv toyEnv_CipherInverts toyEnv_CipherSeparatesIVs keyAA
      (by decide) uint256.zero (uint256.ofByte 9) [1, 2, 3] [1, 2, 3] _ _
      (by decide) (by decide)⟩


/-! ## C23: `HaveHDSeed` in encrypted mode -/

/-- C23 (as stated) fails for a fingerprint and ciphertext that `SetCryptedHDSeed`
accepts: on the encrypted store `toyCrypted` the call with the fingerprint
`0x07 .. 07` and the empty ciphertext succeeds, after it `HaveHDSeed` returns
false, yet `SetCryptedHDSeed` refuses to store another seed; and the call with
the null fingerprint and the ciphertext `[1]` succeeds, after it `HaveHDSeed`
returns true, yet `SetCryptedHDSeed` stores another seed. -/
theorem C23_counterexample :
    toyCrypted.IsCrypted = true ∧
    (toyCrypted.SetCryptedHDSeed (uint256.ofByte 7) []).1 = true ∧
    toySeedNoCiphertext.HaveHDSeed = false ∧
    (toySeedNoCiphertext.SetCryptedHDSeed (uint256.ofByte 9) [1, 2]).1 = false ∧
    (toyCrypted.SetCryptedHDSeed uint256.zero [1]).1 = true ∧
    toySeedNullFingerprint.HaveHDSeed = true ∧
    (toySeedNullFingerprint.SetCryptedHDSeed (uint256.ofByte 9) [1, 2]).1 = true := by
  decide

/-- C23 (amended): in encrypted mode, on a store whose crypted-seed slot is
consistent (the stored fingerprint is null exactly when the stored ciphertext
is empty, as in a fresh store), `HaveHDSeed` returns true exactly when a
crypted HD seed is stored, and exactly when `SetCryptedHDSeed` refuses to
store another seed; and a call of `SetCryptedHDSeed` with a non-null
fingerprint and a non-empty ciphertext that succeeds leaves an encrypted store
with a consistent slot on which `HaveHDSeed` returns true, while a call that
fails leaves the store as it was. -/
theorem C23_HaveHDSeed_encrypted {E : Env} (s : CCryptoKeyStore E) (seedFp : uint256)
    (vchCryptedSecret : Bytes) (hc : s.IsCrypted = true) (hs : s.SeedSlotConsistent)
    (hfp : seedFp.IsNull = false) (hct : vchCryptedSecret ≠ []) :
    (s.HaveHDSeed = true ↔ s.holdsCryptedHDSeed = true) ∧
    (s.HaveHDSeed = true ↔ (s.SetCryptedHDSeed seedFp vchCryptedSecret).1 = false) ∧
    ((s.SetCryptedHDSeed seedFp vchCryptedSecret).1 = true →
      (s.SetCryptedHDSeed seedFp vchCryptedSecret).2.cryptedHDSeed
        = (seedFp, vchCryptedSecret) ∧
      (s.SetCryptedHDSeed seedFp vchCryptedSecret).2.IsCrypted = true ∧
      (s.SetCryptedHDSeed seedFp vchCryptedSecret).2.SeedSlotConsistent ∧
      (s.SetCryptedHDSeed seedFp vchCryptedSecret).2.HaveHDSeed = true) ∧
    ((s.SetCryptedHDSeed seedFp vchCryptedSecret).1 = false →
      (s.SetCryptedHDSeed seedFp vchCryptedSecret).2 = s) := by
  have hic : s.fUseCrypto = true := hc
  unfold SeedSlotConsistent at hs
  have hh : s.HaveHDSeed = true ↔ s.cryptedHDSeed.1.IsNull = false := by
    rw [hs]
    simp [HaveHDSeed, hc]
  cases hn : s.cryptedHDSeed.1.IsNull
  · have hset : s.SetCryptedHDSeed seedFp vchCryptedSecret = (false, s) := by
      simp [SetCryptedHDSeed, hc, hn]
    rw [hset]
    simp [hh, hn, holdsCryptedHDSeed]
  · have hset : s.SetCryptedHDSeed seedFp vchCryptedSecret
        = (true, { s with cryptedHDSeed := (seedFp, vchCryptedSecret) }) := by
      simp [SetCryptedHDSeed, hc, hn]
    have he : s.cryptedHDSeed.2 = [] := by
      by_contra h
      have h2 := hs.mpr h
      rw [hn] at h2
      exact absurd h2 (by decide)
    rw [hset]
    simp [hh, hn, holdsCryptedHDSeed, IsCrypted, hic, SeedSlotConsistent, hfp, hct, HaveHDSeed,
      he]

/-- Witness of C23 (amended): the fresh store switched to encrypted mode, a non-null
fingerprint and a ciphertext of two bytes. -/
theorem C23_HaveHDSeed_encrypted_witness :
    toyCrypted.IsCrypted = true ∧ toyCrypted.SeedSlotConsistent ∧
    (uint256.ofByte 7).IsNull = false ∧
    (toyCrypted.SetCryptedHDSeed (uint256.ofByte 7) [1, 2]).1 = true ∧
    ((toyCrypted.HaveHDSeed = true ↔ toyCrypted.holdsCryptedHDSeed = true) ∧
      (toyCrypted.HaveHDSeed = true ↔
        (toyCrypted.SetCryptedHDSeed (uint256.ofByte 7) [1, 2]).1 = false) ∧
      ((toyCrypted.SetCryptedHDSeed (uint256.ofByte 7) [1, 2]).1 = true →
        (toyCrypted.SetCryptedHDSeed (uint256.ofByte 7) [1, 2]).2.cryptedHDSeed
          = (uint256.ofByte 7, [1, 2]) ∧
        (toyCrypted.SetCryptedHDSeed (uint256.ofByte 7) [1, 2]).2.IsCrypted = true ∧
        (toyCrypted.SetCryptedHDSeed (uint256.ofByte 7) [1, 2]).2.SeedSlotConsistent ∧
        (toyCrypted.SetCryptedHDSeed (uint256.ofByte 7) [1, 2]).2.HaveHDSeed = true) ∧
      ((toyCrypted.SetCryptedHDSeed (uint256.ofByte 7) [1, 2]).1 = false →
        (toyCrypted.SetCryptedHDSeed (uint256.ofByte 7) [1, 2]).2 = toyCrypted)) :=
  ⟨rfl, by simp [SeedSlotConsistent, toyCrypted, toyFresh, SetCrypted]; decide, by decide, by decide,
    C23_HaveHDSeed_encrypted toyCrypted (uint256.ofByte 7) [1, 2] rfl
      (by simp [SeedSlotConsistent, toyCrypted, toyFresh, SetCrypted]; decide) (by decide)
      (List.ne_nil_of_length_pos (by decide))⟩


/-! ## C28: a typed `Get` in encrypted mode succeeds only after the identity check -/

theorem DecryptKey_true (E : Env) (M ct : Bytes) (pub : E.CPubKey) (o : Option E.CKey)
    (h : DecryptKey E M ct pub = (true, o)) :
    ∃ secret, DecryptSecret E M ct (E.CPubKey_GetHash pub) = some secret ∧
      secret.length = 32 ∧
      o = some (E.CKey_Set secret (E.CPubKey_IsCompressed pub)) ∧
      E.CKey_VerifyPubKey (E.CKey_Set secret (E.CPubKey_IsCompressed pub)) pub = true := by
  unfold DecryptKey at h
  cases hd : DecryptSecret E M ct (E.CPubKey_GetHash pub) with
  | none => simp [hd] at h
  | some secret =>
    simp only [hd] at h
    split at h
    · simp at h
    · next hl =>
      simp only [bne_iff_ne, ne_eq, not_not] at hl
      simp only [Prod.mk.injEq] at h
      exact ⟨secret, rfl, hl, h.2.symm, h.1⟩

theorem DecryptHDSeed_true (E : Env) (M ct : Bytes) (fp : uint256) (o : Option E.HDSeed)
    (h : DecryptHDSeed E M ct fp = (true, o)) :
    ∃ seed, o = some seed ∧ E.HDSeed_Fingerprint seed = fp := by
  unfold DecryptHDSeed at h
  cases hd : DecryptSecret E M ct fp with
  | none => simp [hd] at h
  | some secret =>
    simp only [hd, Prod.mk.injEq, beq_iff_eq] at h
    exact ⟨_, h.2.symm, h.1⟩

theorem DecryptSproutSpendingKey_true (E : Env) (M ct : Bytes) (address : E.SproutPaymentAddress)
    (o : Option E.SproutSpendingKey) (h : DecryptSproutSpendingKey E M ct address = (true, o)) :
    ∃ sk, o = some sk ∧
      E.SproutPaymentAddress_eq (E.SproutSpendingKey_address sk) address = true := by
  unfold DecryptSproutSpendingKey at h
  cases hd : DecryptSecret E M ct (E.SproutPaymentAddress_GetHash address) with
  | none => simp [hd] at h
  | some secret =>
    simp only [hd] at h
    split at h
    · simp at h
    · simp only [Prod.mk.injEq] at h
      exact ⟨_, h.2.symm, h.1⟩

theorem DecryptSaplingSpendingKey_true (E : Env) (M ct : Bytes) (fp : uint256)
    (o : Option E.SaplingExtendedSpendingKey)
    (h : DecryptSaplingSpendingKey E M ct fp = (true, o)) :
    ∃ sk, o = some sk ∧
      E.SaplingExtendedFullViewingKey_GetFingerprint (E.SaplingExtendedSpendingKey_ToXFVK sk)
        = fp := by
  unfold DecryptSaplingSpendingKey at h
  cases hd : DecryptSecret E M ct fp with
  | none => simp [hd] at h
  | some secret =>
    simp only [hd] at h
    split at h
    · simp at h
    · simp only [Prod.mk.injEq, beq_iff_eq] at h
      exact ⟨_, h.2.symm, h.1⟩

/-- C28: in encrypted mode a typed `Get` returns true only after the identity check.
When `GetKey` returns true, the returned key was set from a decrypted secret
of 32 bytes and verifies against the public key stored under the requested
key id. When `GetHDSeed` returns true, the fingerprint of the returned seed is
the stored fingerprint. When `GetSproutSpendingKey` returns true, the address
of the returned key is the requested address, and when `GetSaplingSpendingKey`
returns true, the fingerprint of the extended full viewing key of the returned
key is that of the requested one (`operator==` on addresses and on extended
full viewing keys being true on equal values only). -/
theorem C28_typed_get_checks_identity {E : Env} (s : CCryptoKeyStore E)
    (hc : s.IsCrypted = true) (hSprout : EqSound E.SproutPaymentAddress_eq)
    (hSapling : EqSound E.SaplingExtendedFullViewingKey_eq) :
    (∀ address o, s.GetKey address = (true, o) →
      ∃ pub ct secret, mapFind E.CKeyID_lt s.mapCryptedKeys address = some (pub, ct) ∧
        secret.length = 32 ∧
        o = some (E.CKey_Set secret (E.CPubKey_IsCompressed pub)) ∧
        E.CKey_VerifyPubKey (E.CKey_Set secret (E.CPubKey_IsCompressed pub)) pub = true) ∧
    (∀ o, s.GetHDSeed = (true, o) →
      ∃ seed, o = some seed ∧ E.HDSeed_Fingerprint seed = s.cryptedHDSeed.1) ∧
    (∀ address o, s.GetSproutSpendingKey address = (true, o) →
      ∃ sk, o = some sk ∧ E.SproutSpendingKey_address sk = address) ∧
    (∀ extfvk o, s.GetSaplingSpendingKey extfvk = (true, o) →
      ∃ sk, o = some sk ∧
        E.SaplingExtendedFullViewingKey_GetFingerprint (E.SaplingExtendedSpendingKey_ToXFVK sk)
          = E.SaplingExtendedFullViewingKey_GetFingerprint extfvk) := by
  refine ⟨?_, ?_, ?_, ?_⟩
  · intro address o h
    unfold GetKey at h
    simp only [hc, Bool.not_true, Bool.false_eq_true, if_false] at h
    cases hf : mapFind E.CKeyID_lt s.mapCryptedKeys address with
    | none => simp [hf] at h
    | some e =>
      obtain ⟨pub, ct⟩ := e
      simp only [hf] at h
      obtain ⟨secret, _, hl, ho, hv⟩ := DecryptKey_true E _ _ _ _ h
      exact ⟨pub, ct, secret, rfl, hl, ho, hv⟩
  · intro o h
    unfold GetHDSeed at h
    simp only [hc, Bool.not_true, Bool.false_eq_true, if_false] at h
    split at h
    · simp at h
    · exact DecryptHDSeed_true E _ _ _ _ h
  · intro address o h
    unfold GetSproutSpendingKey at h
    simp only [hc, Bool.not_true, Bool.false_eq_true, if_false] at h
    cases hf : mapFind E.SproutPaymentAddress_lt s.mapCryptedSproutSpendingKeys address with
    | none => simp [hf] at h
    | some ct =>
      simp only [hf] at h
      obtain ⟨sk, ho, he⟩ := DecryptSproutSpendingKey_true E _ _ _ _ h
      exact ⟨sk, ho, hSprout _ _ he⟩
  · intro extfvk o h
    unfold GetSaplingSpendingKey at h
    simp only [hc, Bool.not_true, Bool.false_eq_true, if_false] at h
    cases hf : s.mapCryptedSaplingSpendingKeys.find?
        (fun entry => E.SaplingExtendedFullViewingKey_eq entry.1 extfvk) with
    | none => simp [hf] at h
    | some entry =>
      simp only [hf] at h
      obtain ⟨sk, ho, he⟩ := DecryptSaplingSpendingKey_true E _ _ _ _ h
      have hm := List.find?_some hf
      have hq := hSapling _ _ hm
      rw [hq] at he
      exact ⟨sk, ho, he⟩


theorem toyEnv_Sprout_EqSound : EqSound toyEnv.SproutPaymentAddress_eq := by
  intro a b h
  exact @eq_of_beq Nat _ _ a b h

theorem toyEnv_Sapling_EqSound : EqSound toyEnv.SaplingExtendedFullViewingKey_eq := by
  intro a b h
  exact @eq_of_beq Nat _ _ a b h

/-- Witness of C28: the four typed `Get` on the store `toyFullUnlocked`. -/
theorem C28_typed_get_checks_identity_witness :
    toyFullUnlocked.IsCrypted = true ∧
    toyFullUnlocked.GetKey (1 : Nat) = (true, some ((1 : Nat), true)) ∧
    toyFullUnlocked.GetHDSeed = (true, some (List.replicate 32 0)) ∧
    toyFullUnlocked.GetSproutSpendingKey (5 : Nat) = (true, some (5 : Nat)) ∧
    toyFullUnlocked.GetSaplingSpendingKey (7 : Nat) = (true, some (7 : Nat)) ∧
    (∃ pub ct secret,
      mapFind toyEnv.CKeyID_lt toyFullUnlocked.mapCryptedKeys (1 : Nat) = some (pub, ct) ∧
      secret.length = 32 ∧
      some ((1 : Nat), true) = some (toyEnv.CKey_Set secret (toyEnv.CPubKey_IsCompressed pub)) ∧
      toyEnv.CKey_VerifyPubKey (toyEnv.CKey_Set secret (toyEnv.CPubKey_IsCompressed pub)) pub
        = true) ∧
    (∃ seed, some (List.replicate 32 0) = some seed ∧
      toyEnv.HDSeed_Fingerprint seed = toyFullUnlocked.cryptedHDSeed.1) ∧
    (∃ sk, some (5 : Nat) = some sk ∧ toyEnv.SproutSpendingKey_address sk = (5 : Nat)) ∧
    (∃ sk, some (7 : Nat) = some sk ∧
      toyEnv.SaplingExtendedFullViewingKey_GetFingerprint
          (toyEnv.SaplingExtendedSpendingKey_ToXFVK sk)
        = toyEnv.SaplingExtendedFullViewingKey_GetFingerprint (7 : Nat)) :=
  ⟨rfl, rfl, rfl, rfl, rfl,
    (C28_typed_get_checks_identity toyFullUnlocked rfl toyEnv_Sprout_EqSound
      toyEnv_Sapling_EqSound).1 (1 : Nat) _ rfl,
    (C28_typed_get_checks_identity toyFullUnlocked rfl toyEnv_Sprout_EqSound
      toyEnv_Sapling_EqSound).2.1 _ rfl,
    (C28_typed_get_checks_identity toyFullUnlocked rfl toyEnv_Sprout_EqSound
      toyEnv_Sapling_EqSound).2.2.1 (5 : Nat) _ rfl,
    (C28_typed_get_checks_identity toyFullUnlocked rfl toyEnv_Sprout_EqSound
      toyEnv_Sapling_EqSound).2.2.2 (7 : Nat) _ rfl⟩


/-! ## C29: lock order -/

/-- C29: the lock order (`cs_KeyStore` is not acquired while `cs_SpendingKeyStore`
is held without `cs_KeyStore`) holds on the paths of `SetCrypted`, `Lock`,
`Unlock`, `AddCryptedKey`, `AddKeyPubKey` and `EncryptKeys` called with no
lock held, and is broken on the paths of `AddCryptedSproutSpendingKey`,
`AddSproutSpendingKey` and `AddCryptedSaplingSpendingKey`: they hold
`cs_SpendingKeyStore` alone when `SetCrypted` acquires `cs_KeyStore`. -/
theorem C29_lock_order_broken_by_AddCryptedSproutSpendingKey :
    respectsLockOrder [] lockPath_SetCrypted = true ∧
    respectsLockOrder [] lockPath_Lock = true ∧
    respectsLockOrder [] lockPath_Unlock = true ∧
    respectsLockOrder [] lockPath_AddCryptedKey = true ∧
    respectsLockOrder [] lockPath_AddKeyPubKey = true ∧
    respectsLockOrder [] lockPath_EncryptKeys = true ∧
    lockPath_AddCryptedSproutSpendingKey
      = [Mutex.cs_SpendingKeyStore, Mutex.cs_KeyStore, Mutex.cs_SpendingKeyStore] ∧
    respectsLockOrder [] lockPath_AddCryptedSproutSpendingKey = false ∧
    respectsLockOrder [] lockPath_AddSproutSpendingKey = false ∧
    respectsLockOrder [] lockPath_AddCryptedSaplingSpendingKey = false := by
  decide


/-! ## C24: invariant I1 -/

namespace CCryptoKeyStore

variable {E : Env}

theorem SetCrypted_PlainEmptyWhenCrypted (s : CCryptoKeyStore E)
    (hI : s.PlainEmptyWhenCrypted) : s.SetCrypted.2.PlainEmptyWhenCrypted := by
  unfold SetCrypted
  split
  · exact hI
  · split
    · exact hI
    · next hg =>
      intro _
      simp only [Bool.not_eq_true, Bool.not_eq_false', Bool.and_eq_true,
        List.isEmpty_iff] at hg
      exact ⟨hg.1.1, hg.1.2, hg.2⟩

theorem SetCrypted_true_PlainEmptyWhenCrypted (s s1 : CCryptoKeyStore E)
    (hI : s.PlainEmptyWhenCrypted) (h : s.SetCrypted = (true, s1)) :
    s1.PlainEmptyWhenCrypted := by
  have h1 := SetCrypted_PlainEmptyWhenCrypted s hI
  rw [h] at h1
  exact h1

theorem Lock_PlainEmptyWhenCrypted (s : CCryptoKeyStore E) (hI : s.PlainEmptyWhenCrypted) :
    s.Lock.2.PlainEmptyWhenCrypted := by
  unfold Lock
  rcases SetCrypted_cases s with h | ⟨s1, h, _⟩
  · rw [h]
    exact hI
  · rw [h]
    exact SetCrypted_true_PlainEmptyWhenCrypted s s1 hI h

theorem Unlock_PlainEmptyWhenCrypted (M : Bytes) (s t : CCryptoKeyStore E) (b : Bool)
    (hI : s.PlainEmptyWhenCrypted) (h : s.Unlock M = .returned b t) :
    t.PlainEmptyWhenCrypted := by
  have h1 := SetCrypted_PlainEmptyWhenCrypted s hI
  cases b
  · rw [Unlock_returned_false M s t h]
    exact h1
  · rw [(Unlock_returned_true M s t h).2.2]
    exact h1

theorem SetCryptedHDSeed_PlainEmptyWhenCrypted (fp : uint256) (ct : Bytes)
    (s : CCryptoKeyStore E) (hI : s.PlainEmptyWhenCrypted) :
    (s.SetCryptedHDSeed fp ct).2.PlainEmptyWhenCrypted := by
  unfold SetCryptedHDSeed
  split
  · exact hI
  · split <;> exact hI

theorem AddCryptedKey_PlainEmptyWhenCrypted (p : E.CPubKey) (ct : Bytes)
    (s : CCryptoKeyStore E) (hI : s.PlainEmptyWhenCrypted) :
    (s.AddCryptedKey p ct).2.PlainEmptyWhenCrypted := by
  unfold AddCryptedKey
  rcases SetCrypted_cases s with h | ⟨s1, h, _⟩
  · rw [h]
    exact hI
  · rw [h]
    exact SetCrypted_true_PlainEmptyWhenCrypted s s1 hI h

theorem AddCryptedSproutSpendingKey_PlainEmptyWhenCrypted (a : E.SproutPaymentAddress)
    (rk : E.ReceivingKey) (ct : Bytes) (s : CCryptoKeyStore E)
    (hI : s.PlainEmptyWhenCrypted) :
    (s.AddCryptedSproutSpendingKey a rk ct).2.PlainEmptyWhenCrypted := by
  unfold AddCryptedSproutSpendingKey
  rcases SetCrypted_cases s with h | ⟨s1, h, _⟩
  · rw [h]
    exact hI
  · rw [h]
    exact SetCrypted_true_PlainEmptyWhenCrypted s s1 hI h

theorem AddCryptedSaplingSpendingKey_PlainEmptyWhenCrypted
    (f : E.SaplingExtendedFullViewingKey) (ct : Bytes) (s : CCryptoKeyStore E)
    (hI : s.PlainEmptyWhenCrypted) :
    (s.AddCryptedSaplingSpendingKey f ct).2.PlainEmptyWhenCrypted := by
  unfold AddCryptedSaplingSpendingKey
  rcases SetCrypted_cases s with h | ⟨s1, h, _⟩
  · rw [h]
    exact hI
  · rw [h]
    simp only
    split <;> exact SetCrypted_true_PlainEmptyWhenCrypted s s1 hI h

theorem AddCryptedSaplingExtendedFullViewingKey_PlainEmptyWhenCrypted
    (f : E.SaplingExtendedFullViewingKey) (ct : Bytes) (s : CCryptoKeyStore E)
    (hI : s.PlainEmptyWhenCrypted) :
    (s.AddCryptedSaplingExtendedFullViewingKey f ct).2.PlainEmptyWhenCrypted := by
  unfold AddCryptedSaplingExtendedFullViewingKey
  split <;> exact hI

theorem AddCryptedSaplingPaymentAddress_PlainEmptyWhenCrypted
    (ivk : E.SaplingIncomingViewingKey) (addr : E.SaplingPaymentAddress) (ct : Bytes)
    (s : CCryptoKeyStore E) (hI : s.PlainEmptyWhenCrypted) :
    (s.AddCryptedSaplingPaymentAddress ivk addr ct).2.PlainEmptyWhenCrypted := by
  unfold AddCryptedSaplingPaymentAddress
  rcases SetCrypted_cases s with h | ⟨s1, h, _⟩
  · rw [h]
    exact hI
  · rw [h]
    exact SetCrypted_true_PlainEmptyWhenCrypted s s1 hI h

theorem AddCryptedSaplingDiversifiedAddress_PlainEmptyWhenCrypted
    (ivk : E.SaplingIncomingViewingKey) (addr : E.SaplingPaymentAddress) (path : E.blob88)
    (ct : Bytes) (s : CCryptoKeyStore E) (hI : s.PlainEmptyWhenCrypted) :
    (s.AddCryptedSaplingDiversifiedAddress ivk addr path ct).2.PlainEmptyWhenCrypted := by
  unfold AddCryptedSaplingDiversifiedAddress
  rcases SetCrypted_cases s with h | ⟨s1, h, _⟩
  · rw [h]
    exact hI
  · rw [h]
    exact SetCrypted_true_PlainEmptyWhenCrypted s s1 hI h

end CCryptoKeyStore


namespace CCryptoKeyStore

variable {E : Env}

theorem PlainEmptyWhenCrypted_of_plain (t : CCryptoKeyStore E) (h : t.fUseCrypto = false) :
    t.PlainEmptyWhenCrypted := by
  intro ht
  rw [h] at ht
  exact absurd ht (by decide)

theorem SetHDSeed_PlainEmptyWhenCrypted (seed : E.HDSeed) (s : CCryptoKeyStore E)
    (hI : s.PlainEmptyWhenCrypted) : (s.SetHDSeed seed).2.PlainEmptyWhenCrypted := by
  cases hp : s.fUseCrypto
  · simp only [SetHDSeed, IsCrypted, hp, Bool.not_false, if_true, Basic_SetHDSeed]
    split <;> first | exact PlainEmptyWhenCrypted_of_plain _ rfl | exact PlainEmptyWhenCrypted_of_plain _ hp
  · simp only [SetHDSeed, IsCrypted, hp, Bool.not_true, Bool.false_eq_true, if_false]
    split
    · exact hI
    · split
      · exact hI
      · exact SetCryptedHDSeed_PlainEmptyWhenCrypted _ _ s hI

theorem AddKeyPubKey_PlainEmptyWhenCrypted (key : E.CKey) (pubkey : E.CPubKey)
    (s : CCryptoKeyStore E) (hI : s.PlainEmptyWhenCrypted) :
    (s.AddKeyPubKey key pubkey).2.PlainEmptyWhenCrypted := by
  cases hp : s.fUseCrypto
  · simp only [AddKeyPubKey, IsCrypted, hp, Bool.not_false, if_true, Basic_AddKeyPubKey]
    exact PlainEmptyWhenCrypted_of_plain _ rfl
  · simp only [AddKeyPubKey, IsCrypted, hp, Bool.not_true, Bool.false_eq_true, if_false]
    split
    · exact hI
    · split
      · exact hI
      · exact AddCryptedKey_PlainEmptyWhenCrypted _ _ s hI

theorem AddSproutSpendingKey_PlainEmptyWhenCrypted (sk : E.SproutSpendingKey)
    (s : CCryptoKeyStore E) (hI : s.PlainEmptyWhenCrypted) :
    (s.AddSproutSpendingKey sk).2.PlainEmptyWhenCrypted := by
  cases hp : s.fUseCrypto
  · simp only [AddSproutSpendingKey, IsCrypted, hp, Bool.not_false, if_true,
      Basic_AddSproutSpendingKey]
    exact PlainEmptyWhenCrypted_of_plain _ rfl
  · simp only [AddSproutSpendingKey, IsCrypted, hp, Bool.not_true, Bool.false_eq_true, if_false]
    split
    · exact hI
    · split
      · exact hI
      · exact AddCryptedSproutSpendingKey_PlainEmptyWhenCrypted _ _ _ s hI

theorem AddSaplingSpendingKey_PlainEmptyWhenCrypted (sk : E.SaplingExtendedSpendingKey)
    (s : CCryptoKeyStore E) (hI : s.PlainEmptyWhenCrypted) :
    (s.AddSaplingSpendingKey sk).2.PlainEmptyWhenCrypted := by
  cases hp : s.fUseCrypto
  · simp only [AddSaplingSpendingKey, IsCrypted, hp, Bool.not_false, if_true,
      Basic_AddSaplingSpendingKey]
    split <;> exact PlainEmptyWhenCrypted_of_plain _ rfl
  · simp only [AddSaplingSpendingKey, IsCrypted, hp, Bool.not_true, Bool.false_eq_true, if_false]
    split
    · exact hI
    · split
      · exact hI
      · exact AddCryptedSaplingSpendingKey_PlainEmptyWhenCrypted _ _ s hI

theorem AddSaplingExtendedFullViewingKey_PlainEmptyWhenCrypted
    (f : E.SaplingExtendedFullViewingKey) (s : CCryptoKeyStore E)
    (hI : s.PlainEmptyWhenCrypted) :
    (s.AddSaplingExtendedFullViewingKey f).2.PlainEmptyWhenCrypted := by
  cases hp : s.fUseCrypto
  · simp only [AddSaplingExtendedFullViewingKey, IsCrypted, hp, Bool.not_false, if_true,
      Basic_AddSaplingExtendedFullViewingKey]
    exact PlainEmptyWhenCrypted_of_plain _ rfl
  · simp only [AddSaplingExtendedFullViewingKey, IsCrypted, hp, Bool.not_true,
      Bool.false_eq_true, if_false]
    split
    · exact hI
    · split
      · exact hI
      · exact AddCryptedSaplingExtendedFullViewingKey_PlainEmptyWhenCrypted _ _ s hI

theorem LoadCryptedSaplingSpendingKey_PlainEmptyWhenCrypted (fp : uint256) (ct : Bytes)
    (s : CCryptoKeyStore E) (hI : s.PlainEmptyWhenCrypted) :
    (s.LoadCryptedSaplingSpendingKey fp ct).2.PlainEmptyWhenCrypted := by
  unfold LoadCryptedSaplingSpendingKey
  rcases SetCrypted_cases s with h | ⟨s1, h, _⟩
  · rw [h]
    exact hI
  · have h1 := SetCrypted_true_PlainEmptyWhenCrypted s s1 hI h
    rw [h]
    simp only
    split
    · exact h1
    · split
      · split <;> exact h1
      · exact h1

theorem LoadCryptedSaplingExtendedFullViewingKey_PlainEmptyWhenCrypted (fp : uint256)
    (ct : Bytes) (s : CCryptoKeyStore E) (hI : s.PlainEmptyWhenCrypted) :
    (s.LoadCryptedSaplingExtendedFullViewingKey fp ct).2.PlainEmptyWhenCrypted := by
  unfold LoadCryptedSaplingExtendedFullViewingKey
  rcases SetCrypted_cases s with h | ⟨s1, h, _⟩
  · rw [h]
    exact hI
  · have h1 := SetCrypted_true_PlainEmptyWhenCrypted s s1 hI h
    rw [h]
    simp only
    split
    · exact h1
    · split
      · exact h1
      · exact h1

theorem LoadCryptedSaplingPaymentAddress_PlainEmptyWhenCrypted (chash : uint256) (ct : Bytes)
    (s : CCryptoKeyStore E) (hI : s.PlainEmptyWhenCrypted) :
    (s.LoadCryptedSaplingPaymentAddress chash ct).2.PlainEmptyWhenCrypted := by
  unfold LoadCryptedSaplingPaymentAddress
  rcases SetCrypted_cases s with h | ⟨s1, h, hc⟩
  · rw [h]
    exact hI
  · have h1 := SetCrypted_true_PlainEmptyWhenCrypted s s1 hI h
    rw [h]
    simp only
    split
    · exact h1
    · have hs := DecryptSaplingPaymentAddress_snd chash ct s1 hc
      generalize s1.DecryptSaplingPaymentAddress chash ct = r at hs ⊢
      obtain ⟨⟨b, o⟩, s2⟩ := r
      simp only at hs
      subst hs
      cases b
      · cases o <;> exact h1
      · cases o with
        | none => exact h1
        | some v =>
          obtain ⟨v1, v2⟩ := v
          exact h1

theorem LoadCryptedSaplingDiversifiedAddress_PlainEmptyWhenCrypted (chash : uint256)
    (ct : Bytes) (s : CCryptoKeyStore E) (hI : s.PlainEmptyWhenCrypted) :
    (s.LoadCryptedSaplingDiversifiedAddress chash ct).2.PlainEmptyWhenCrypted := by
  unfold LoadCryptedSaplingDiversifiedAddress
  rcases SetCrypted_cases s with h | ⟨s1, h, hc⟩
  · rw [h]
    exact hI
  · have h1 := SetCrypted_true_PlainEmptyWhenCrypted s s1 hI h
    rw [h]
    simp only
    split
    · exact h1
    · have hs := DecryptSaplingDiversifiedAddress_snd chash ct s1 hc
      generalize s1.DecryptSaplingDiversifiedAddress chash ct = r at hs ⊢
      obtain ⟨⟨b, o⟩, s2⟩ := r
      simp only at hs
      subst hs
      cases b
      · cases o <;> exact h1
      · cases o with
        | none => exact h1
        | some v =>
          obtain ⟨v1, v2⟩ := v
          exact h1

theorem EncryptKeys_PlainEmptyWhenCrypted (M : Bytes) (s : CCryptoKeyStore E)
    (hI : s.PlainEmptyWhenCrypted) (hok : s.fUseCrypto = false → (s.EncryptKeys M).1 = true) :
    (s.EncryptKeys M).2.PlainEmptyWhenCrypted := by
  cases hp : s.fUseCrypto
  · obtain ⟨_, _, seedC, hd, mk, ms, nd, ma, idx, heq, _⟩ := EncryptKeys_true M s (hok hp)
    rw [heq]
    exact fun _ => ⟨rfl, rfl, rfl⟩
  · have : s.EncryptKeys M = (false, s) := by
      unfold EncryptKeys
      simp [IsCrypted, hp]
    rw [this]
    exact hI

end CCryptoKeyStore


namespace CCryptoKeyStore

variable {E : Env}

/-- Every call keeps "in encrypted mode the plaintext key maps are empty", but for
an `EncryptKeys` on a store in plaintext mode that returns false. -/
theorem Op.run_PlainEmptyWhenCrypted (op : Op E) (s t : CCryptoKeyStore E)
    (h : op.run s = some t) (hna : ¬ op.failsEncryptKeys s) (hI : s.PlainEmptyWhenCrypted) :
    t.PlainEmptyWhenCrypted := by
  cases op with
  | SetCrypted =>
    simp only [Op.run, Option.some.injEq] at h
    rw [← h]
    exact SetCrypted_PlainEmptyWhenCrypted s hI
  | Lock =>
    simp only [Op.run, Option.some.injEq] at h
    rw [← h]
    exact Lock_PlainEmptyWhenCrypted s hI
  | Unlock m =>
    simp only [Op.run] at h
    split at h
    · next b t1 hu =>
      simp only [Option.some.injEq] at h
      rw [← h]
      exact Unlock_PlainEmptyWhenCrypted m s t1 b hI hu
    · simp at h
  | EncryptKeys m =>
    simp only [Op.run, Option.some.injEq] at h
    rw [← h]
    apply EncryptKeys_PlainEmptyWhenCrypted m s hI
    intro hp
    cases hr : (s.EncryptKeys m).1
    · exact absurd ⟨m, rfl, hp, hr⟩ hna
    · rfl
  | SetHDSeed seed =>
    simp only [Op.run, Option.some.injEq] at h
    rw [← h]
    exact SetHDSeed_PlainEmptyWhenCrypted seed s hI
  | SetCryptedHDSeed fp ct =>
    simp only [Op.run, Option.some.injEq] at h
    rw [← h]
    exact SetCryptedHDSeed_PlainEmptyWhenCrypted fp ct s hI
  | AddKeyPubKey key pubkey =>
    simp only [Op.run, Option.some.injEq] at h
    rw [← h]
    exact AddKeyPubKey_PlainEmptyWhenCrypted key pubkey s hI
  | AddCryptedKey p ct =>
    simp only [Op.run, Option.some.injEq] at h
    rw [← h]
    exact AddCryptedKey_PlainEmptyWhenCrypted p ct s hI
  | AddSproutSpendingKey sk =>
    simp only [Op.run, Option.some.injEq] at h
    rw [← h]
    exact AddSproutSpendingKey_PlainEmptyWhenCrypted sk s hI
  | AddSaplingSpendingKey sk =>
    simp only [Op.run, Option.some.injEq] at h
    rw [← h]
    exact AddSaplingSpendingKey_PlainEmptyWhenCrypted sk s hI
  | AddSaplingExtendedFullViewingKey f =>
    simp only [Op.run, Option.some.injEq] at h
    rw [← h]
    exact AddSaplingExtendedFullViewingKey_PlainEmptyWhenCrypted f s hI
  | AddCryptedSproutSpendingKey a rk ct =>
    simp only [Op.run, Option.some.injEq] at h
    rw [← h]
    exact AddCryptedSproutSpendingKey_PlainEmptyWhenCrypted a rk ct s hI
  | AddCryptedSaplingSpendingKey f ct =>
    simp only [Op.run, Option.some.injEq] at h
    rw [← h]
    exact AddCryptedSaplingSpendingKey_PlainEmptyWhenCrypted f ct s hI
  | AddCryptedSaplingExtendedFullViewingKey f ct =>
    simp only [Op.run, Option.some.injEq] at h
    rw [← h]
    exact AddCryptedSaplingExtendedFullViewingKey_PlainEmptyWhenCrypted f ct s hI
  | AddCryptedSaplingPaymentAddress ivk addr ct =>
    simp only [Op.run, Option.some.injEq] at h
    rw [← h]
    exact AddCryptedSaplingPaymentAddress_PlainEmptyWhenCrypted ivk addr ct s hI
  | AddCryptedSaplingDiversifiedAddress ivk addr path ct =>
    simp only [Op.run, Option.some.injEq] at h
    rw [← h]
    exact AddCryptedSaplingDiversifiedAddress_PlainEmptyWhenCrypted ivk addr path ct s hI
  | LoadCryptedSaplingSpendingKey fp ct =>
    simp only [Op.run, Option.some.injEq] at h
    rw [← h]
    exact LoadCryptedSaplingSpendingKey_PlainEmptyWhenCrypted fp ct s hI
  | LoadCryptedSaplingExtendedFullViewingKey fp ct =>
    simp only [Op.run, Option.some.injEq] at h
    rw [← h]
    exact LoadCryptedSaplingExtendedFullViewingKey_PlainEmptyWhenCrypted fp ct s hI
  | LoadCryptedSaplingPaymentAddress chash ct =>
    simp only [Op.run, Option.some.injEq] at h
    rw [← h]
    exact LoadCryptedSaplingPaymentAddress_PlainEmptyWhenCrypted chash ct s hI
  | LoadCryptedSaplingDiversifiedAddress chash ct =>
    simp only [Op.run, Option.some.injEq] at h
    rw [← h]
    exact LoadCryptedSaplingDiversifiedAddress_PlainEmptyWhenCrypted chash ct s hI

theorem ReachableCommitted.plainEmptyWhenCrypted (s : CCryptoKeyStore E)
    (hr : ReachableCommitted s) : s.PlainEmptyWhenCrypted := by
  induction hr with
  | fresh => exact fun _ => ⟨rfl, rfl, rfl⟩
  | step op a b _ hrun hna ih => exact Op.run_PlainEmptyWhenCrypted op a b hrun hna ih

theorem ReachableCommitted.reachable (s : CCryptoKeyStore E) (hr : ReachableCommitted s) :
    Reachable s := by
  induction hr with
  | fresh => exact .fresh
  | step op a b _ hrun _ ih => exact .step op a b ih hrun

end CCryptoKeyStore

theorem toyOneKey_reachable : CCryptoKeyStore.Reachable toyOneKey :=
  .step (Op.AddKeyPubKey ((1 : Nat), true) ((1 : Nat), true) : Op toyEnv)
    (CCryptoKeyStore.fresh toyEnv) toyOneKey .fresh rfl

theorem toyLocked_reachableCommitted : CCryptoKeyStore.ReachableCommitted toyLocked :=
  .step (Op.Lock : Op toyEnv) toyEncrypted toyLocked
    (.step (Op.EncryptKeys keyAA : Op toyEnv) toyOneKey toyEncrypted
      (.step (Op.AddKeyPubKey ((1 : Nat), true) ((1 : Nat), true) : Op toyEnv)
        (CCryptoKeyStore.fresh toyEnv) toyOneKey .fresh rfl
        (fun ⟨_, h, _⟩ => Op.noConfusion h))
      rfl
      (fun ⟨_, h, _, hf⟩ => by
        cases h
        exact absurd hf (by decide)))
    rfl
    (fun ⟨_, h, _⟩ => Op.noConfusion h)

/-- C24 (as stated) fails: the store `toyAbandoned` is reached from the fresh store
by `AddKeyPubKey` and a call `EncryptKeys(keyShort)` that returns false; it is
locked (encrypted mode, no master key), and its plaintext map `mapKeys` still
holds the key. -/
theorem C24_counterexample :
    toyAbandoned.Reachable ∧ (toyOneKey.EncryptKeys keyShort).1 = false ∧
    toyAbandoned.IsLocked = true ∧ toyAbandoned.vMasterKey = [] ∧
    toyAbandoned.mapKeys = [((1 : Nat), ((1 : Nat), true))] :=
  ⟨.step (Op.EncryptKeys keyShort : Op toyEnv) toyOneKey toyAbandoned toyOneKey_reachable rfl,
    rfl, rfl, rfl, rfl⟩

/-- C24 (amended): invariant I1 holds in every store reached from a fresh store by a
sequence of the public operations in which no `EncryptKeys` on a store in
plaintext mode returns false: whenever the store is locked (encrypted mode,
no master key), the master key is empty and `mapKeys`,
`mapSproutSpendingKeys` and `mapSaplingSpendingKeys` hold no entries. -/
theorem C24_I1_without_failed_EncryptKeys {E : Env} (s : CCryptoKeyStore E)
    (hr : s.ReachableCommitted) (hl : s.IsLocked = true) :
    s.vMasterKey = [] ∧ s.mapKeys = [] ∧ s.mapSproutSpendingKeys = [] ∧
      s.mapSaplingSpendingKeys = [] := by
  simp only [IsLocked, IsCrypted, Bool.and_eq_true, List.isEmpty_iff] at hl
  obtain ⟨h1, h2, h3⟩ := ReachableCommitted.plainEmptyWhenCrypted s hr hl.1
  exact ⟨hl.2, h1, h2, h3⟩

/-- Witness of C24 (amended): the store `toyLocked`, reached by `AddKeyPubKey`,
`EncryptKeys` (which returns true) and `Lock`. -/
theorem C24_I1_without_failed_EncryptKeys_witness :
    toyLocked.ReachableCommitted ∧ toyLocked.IsLocked = true ∧
    toyLocked.mapCryptedKeys.length = 1 ∧
    (toyLocked.vMasterKey = [] ∧ toyLocked.mapKeys = [] ∧
      toyLocked.mapSproutSpendingKeys = [] ∧ toyLocked.mapSaplingSpendingKeys = []) :=
  ⟨toyLocked_reachableCommitted, rfl, rfl,
    C24_I1_without_failed_EncryptKeys toyLocked toyLocked_reachableCommitted rfl⟩


/-! ## C31: the size of the stored master key -/

namespace CCryptoKeyStore

variable {E : Env}

theorem SetCrypted_vMasterKey (s : CCryptoKeyStore E) :
    s.SetCrypted.2.vMasterKey = s.vMasterKey := by
  unfold SetCrypted
  split
  · rfl
  · split <;> rfl

theorem SetCrypted_eq_vMasterKey (b : Bool) (s s1 : CCryptoKeyStore E)
    (h : s.SetCrypted = (b, s1)) : s1.vMasterKey = s.vMasterKey := by
  have h1 := SetCrypted_vMasterKey s
  rw [h] at h1
  exact h1

theorem headPass_exists {α : Type} (check : α → Bool) (l : List α)
    (h : headPass check l = true) : ∃ x ∈ l, check x = true := by
  cases l with
  | nil => simp [headPass] at h
  | cons x xs => exact ⟨x, List.mem_cons_self x xs, h⟩

theorem firstPass_length (M : Bytes) (s : CCryptoKeyStore E) (h : s.firstPass M = true) :
    M.length = 32 := by
  unfold firstPass seedPass at h
  simp only [Bool.or_eq_true, Bool.and_eq_true] at h
  rcases h with ((h | h) | h) | h
  · exact checkHDSeed_length M _ h.2
  · obtain ⟨x, _, hx⟩ := headPass_exists _ _ h
    exact checkKey_length M x hx
  · obtain ⟨x, _, hx⟩ := headPass_exists _ _ h
    exact checkSprout_length M x hx
  · obtain ⟨x, _, hx⟩ := headPass_exists _ _ h
    exact checkSapling_length M x hx

/-- When `Unlock` returns true, the candidate it stores has 32 bytes, and one of the
records it examined passed its check under the candidate. -/
theorem Unlock_true_length (M : Bytes) (s t : CCryptoKeyStore E)
    (h : s.Unlock M = .returned true t) :
    t.vMasterKey = M ∧ M.length = 32 ∧ true ∈ examinedChecks M s.SetCrypted.2 := by
  obtain ⟨hf, _, ht⟩ := Unlock_returned_true M s t h
  refine ⟨by rw [ht], ?_, ?_⟩
  · rw [unlockFlags_eq] at hf
    exact firstPass_length M s (congrArg Prod.fst hf)
  · rw [← unlockFlags_SetCrypted M s, unlockFlags_examinedChecks] at hf
    have hp := congrArg Prod.fst hf
    simp only [List.any_eq_true] at hp
    obtain ⟨b, hb, hb2⟩ := hp
    rw [hb2] at hb
    exact hb

theorem SetCryptedHDSeed_vMasterKey (fp : uint256) (ct : Bytes) (s : CCryptoKeyStore E) :
    (s.SetCryptedHDSeed fp ct).2.vMasterKey = s.vMasterKey := by
  unfold SetCryptedHDSeed
  split
  · rfl
  · split <;> rfl

theorem AddCryptedKey_vMasterKey (p : E.CPubKey) (ct : Bytes) (s : CCryptoKeyStore E) :
    (s.AddCryptedKey p ct).2.vMasterKey = s.vMasterKey := by
  unfold AddCryptedKey
  rcases SetCrypted_cases s with h | ⟨s1, h, _⟩
  · rw [h]
  · rw [h]
    exact SetCrypted_eq_vMasterKey true s s1 h

theorem AddCryptedSproutSpendingKey_vMasterKey (a : E.SproutPaymentAddress)
    (rk : E.ReceivingKey) (ct : Bytes) (s : CCryptoKeyStore E) :
    (s.AddCryptedSproutSpendingKey a rk ct).2.vMasterKey = s.vMasterKey := by
  unfold AddCryptedSproutSpendingKey
  rcases SetCrypted_cases s with h | ⟨s1, h, _⟩
  · rw [h]
  · rw [h]
    exact SetCrypted_eq_vMasterKey true s s1 h

theorem AddCryptedSaplingSpendingKey_vMasterKey (f : E.SaplingExtendedFullViewingKey)
    (ct : Bytes) (s : CCryptoKeyStore E) :
    (s.AddCryptedSaplingSpendingKey f ct).2.vMasterKey = s.vMasterKey := by
  unfold AddCryptedSaplingSpendingKey
  rcases SetCrypted_cases s with h | ⟨s1, h, _⟩
  · rw [h]
  · rw [h]
    simp only
    split <;> exact SetCrypted_eq_vMasterKey true s s1 h

theorem AddCryptedSaplingExtendedFullViewingKey_vMasterKey
    (f : E.SaplingExtendedFullViewingKey) (ct : Bytes) (s : CCryptoKeyStore E) :
    (s.AddCryptedSaplingExtendedFullViewingKey f ct).2.vMasterKey = s.vMasterKey := by
  unfold AddCryptedSaplingExtendedFullViewingKey
  split <;> rfl

theorem AddCryptedSaplingPaymentAddress_vMasterKey (ivk : E.SaplingIncomingViewingKey)
    (addr : E.SaplingPaymentAddress) (ct : Bytes) (s : CCryptoKeyStore E) :
    (s.AddCryptedSaplingPaymentAddress ivk addr ct).2.vMasterKey = s.vMasterKey := by
  unfold AddCryptedSaplingPaymentAddress
  rcases SetCrypted_cases s with h | ⟨s1, h, _⟩
  · rw [h]
  · rw [h]
    exact SetCrypted_eq_vMasterKey true s s1 h

theorem AddCryptedSaplingDiversifiedAddress_vMasterKey (ivk : E.SaplingIncomingViewingKey)
    (addr : E.SaplingPaymentAddress) (path : E.blob88) (ct : Bytes) (s : CCryptoKeyStore E) :
    (s.AddCryptedSaplingDiversifiedAddress ivk addr path ct).2.vMasterKey = s.vMasterKey := by
  unfold AddCryptedSaplingDiversifiedAddress
  rcases SetCrypted_cases s with h | ⟨s1, h, _⟩
  · rw [h]
  · rw [h]
    exact SetCrypted_eq_vMasterKey true s s1 h

end CCryptoKeyStore


namespace CCryptoKeyStore

variable {E : Env}

theorem SetHDSeed_vMasterKey (seed : E.HDSeed) (s : CCryptoKeyStore E) :
    (s.SetHDSeed seed).2.vMasterKey = s.vMasterKey := by
  unfold SetHDSeed Basic_SetHDSeed
  split
  · split <;> rfl
  · split
    · rfl
    · dsimp only
      split
      · rfl
      · exact SetCryptedHDSeed_vMasterKey _ _ s

theorem AddKeyPubKey_vMasterKey (key : E.CKey) (pubkey : E.CPubKey) (s : CCryptoKeyStore E) :
    (s.AddKeyPubKey key pubkey).2.vMasterKey = s.vMasterKey := by
  unfold AddKeyPubKey Basic_AddKeyPubKey
  split
  · rfl
  · split
    · rfl
    · split
      · rfl
      · exact AddCryptedKey_vMasterKey _ _ s

theorem AddSproutSpendingKey_vMasterKey (sk : E.SproutSpendingKey) (s : CCryptoKeyStore E) :
    (s.AddSproutSpendingKey sk).2.vMasterKey = s.vMasterKey := by
  unfold AddSproutSpendingKey Basic_AddSproutSpendingKey
  split
  · rfl
  · split
    · rfl
    · dsimp only
      split
      · rfl
      · exact AddCryptedSproutSpendingKey_vMasterKey _ _ _ s

theorem AddSaplingSpendingKey_vMasterKey (sk : E.SaplingExtendedSpendingKey)
    (s : CCryptoKeyStore E) : (s.AddSaplingSpendingKey sk).2.vMasterKey = s.vMasterKey := by
  unfold AddSaplingSpendingKey Basic_AddSaplingSpendingKey
  split
  · split <;> rfl
  · split
    · rfl
    · dsimp only
      split
      · rfl
      · exact AddCryptedSaplingSpendingKey_vMasterKey _ _ s

theorem AddSaplingExtendedFullViewingKey_vMasterKey (f : E.SaplingExtendedFullViewingKey)
    (s : CCryptoKeyStore E) :
    (s.AddSaplingExtendedFullViewingKey f).2.vMasterKey = s.vMasterKey := by
  unfold AddSaplingExtendedFullViewingKey Basic_AddSaplingExtendedFullViewingKey
  split
  · rfl
  · split
    · rfl
    · split
      · rfl
      · exact AddCryptedSaplingExtendedFullViewingKey_vMasterKey _ _ s

theorem LoadCryptedSaplingSpendingKey_vMasterKey (fp : uint256) (ct : Bytes)
    (s : CCryptoKeyStore E) :
    (s.LoadCryptedSaplingSpendingKey fp ct).2.vMasterKey = s.vMasterKey := by
  unfold LoadCryptedSaplingSpendingKey
  rcases SetCrypted_cases s with h | ⟨s1, h, _⟩
  · rw [h]
  · have h1 := SetCrypted_eq_vMasterKey true s s1 h
    rw [h]
    simp only
    split
    · exact h1
    · split
      · split <;> exact h1
      · exact h1

theorem LoadCryptedSaplingExtendedFullViewingKey_vMasterKey (fp : uint256) (ct : Bytes)
    (s : CCryptoKeyStore E) :
    (s.LoadCryptedSaplingExtendedFullViewingKey fp ct).2.vMasterKey = s.vMasterKey := by
  unfold LoadCryptedSaplingExtendedFullViewingKey
  rcases SetCrypted_cases s with h | ⟨s1, h, _⟩
  · rw [h]
  · have h1 := SetCrypted_eq_vMasterKey true s s1 h
    rw [h]
    simp only
    split
    · exact h1
    · split
      · exact h1
      · exact h1

theorem LoadCryptedSaplingPaymentAddress_vMasterKey (chash : uint256) (ct : Bytes)
    (s : CCryptoKeyStore E) :
    (s.LoadCryptedSaplingPaymentAddress chash ct).2.vMasterKey = s.vMasterKey := by
  unfold LoadCryptedSaplingPaymentAddress
  rcases SetCrypted_cases s with h | ⟨s1, h, hc⟩
  · rw [h]
  · have h1 := SetCrypted_eq_vMasterKey true s s1 h
    rw [h]
    simp only
    split
    · exact h1
    · have hs := DecryptSaplingPaymentAddress_snd chash ct s1 hc
      generalize s1.DecryptSaplingPaymentAddress chash ct = r at hs ⊢
      obtain ⟨⟨b, o⟩, s2⟩ := r
      simp only at hs
      subst hs
      cases b
      · cases o <;> exact h1
      · cases o with
        | none => exact h1
        | some v =>
          obtain ⟨v1, v2⟩ := v
          exact h1

theorem LoadCryptedSaplingDiversifiedAddress_vMasterKey (chash : uint256) (ct : Bytes)
    (s : CCryptoKeyStore E) :
    (s.LoadCryptedSaplingDiversifiedAddress chash ct).2.vMasterKey = s.vMasterKey := by
  unfold LoadCryptedSaplingDiversifiedAddress
  rcases SetCrypted_cases s with h | ⟨s1, h, hc⟩
  · rw [h]
  · have h1 := SetCrypted_eq_vMasterKey true s s1 h
    rw [h]
    simp only
    split
    · exact h1
    · have hs := DecryptSaplingDiversifiedAddress_snd chash ct s1 hc
      generalize s1.DecryptSaplingDiversifiedAddress chash ct = r at hs ⊢
      obtain ⟨⟨b, o⟩, s2⟩ := r
      simp only at hs
      subst hs
      cases b
      · cases o <;> exact h1
      · cases o with
        | none => exact h1
        | some v =>
          obtain ⟨v1, v2⟩ := v
          exact h1

theorem EncryptKeys_vMasterKey (M : Bytes) (s : CCryptoKeyStore E) :
    (s.EncryptKeys M).2.vMasterKey = s.vMasterKey := by
  cases hp : s.fUseCrypto
  · cases hm : s.mapCryptedKeys with
    | nil => exact (EncryptKeys_started M s hp hm).2.1
    | cons x xs =>
      have : s.EncryptKeys M = (false, s) := by
        unfold EncryptKeys
        simp [hm]
      rw [this]
  · have : s.EncryptKeys M = (false, s) := by
      unfold EncryptKeys
      simp [IsCrypted, hp]
    rw [this]

/-- No call other than `Lock` and `Unlock` writes the master key. -/
theorem Op.run_vMasterKey (op : Op E) (s t : CCryptoKeyStore E)
    (hop : op.isLockOrUnlock = false) (h : op.run s = some t) :
    t.vMasterKey = s.vMasterKey := by
  cases op with
  | Lock => simp [Op.isLockOrUnlock] at hop
  | Unlock m => simp [Op.isLockOrUnlock] at hop
  | SetCrypted =>
    simp only [Op.run, Option.some.injEq] at h
    rw [← h]
    exact SetCrypted_vMasterKey s
  | EncryptKeys m =>
    simp only [Op.run, Option.some.injEq] at h
    rw [← h]
    exact EncryptKeys_vMasterKey m s
  | SetHDSeed seed =>
    simp only [Op.run, Option.some.injEq] at h
    rw [← h]
    exact SetHDSeed_vMasterKey seed s
  | SetCryptedHDSeed fp ct =>
    simp only [Op.run, Option.some.injEq] at h
    rw [← h]
    exact SetCryptedHDSeed_vMasterKey fp ct s
  | AddKeyPubKey key pubkey =>
    simp only [Op.run, Option.some.injEq] at h
    rw [← h]
    exact AddKeyPubKey_vMasterKey key pubkey s
  | AddCryptedKey p ct =>
    simp only [Op.run, Option.some.injEq] at h
    rw [← h]
    exact AddCryptedKey_vMasterKey p ct s
  | AddSproutSpendingKey sk =>
    simp only [Op.run, Option.some.injEq] at h
    rw [← h]
    exact AddSproutSpendingKey_vMasterKey sk s
  | AddSaplingSpendingKey sk =>
    simp only [Op.run, Option.some.injEq] at h
    rw [← h]
    exact AddSaplingSpendingKey_vMasterKey sk s
  | AddSaplingExtendedFullViewingKey f =>
    simp only [Op.run, Option.some.injEq] at h
    rw [← h]
    exact AddSaplingExtendedFullViewingKey_vMasterKey f s
  | AddCryptedSproutSpendingKey a rk ct =>
    simp only [Op.run, Option.some.injEq] at h
    rw [← h]
    exact AddCryptedSproutSpendingKey_vMasterKey a rk ct s
  | AddCryptedSaplingSpendingKey f ct =>
    simp only [Op.run, Option.some.injEq] at h
    rw [← h]
    exact AddCryptedSaplingSpendingKey_vMasterKey f ct s
  | AddCryptedSaplingExtendedFullViewingKey f ct =>
    simp only [Op.run, Option.some.injEq] at h
    rw [← h]
    exact AddCryptedSaplingExtendedFullViewingKey_vMasterKey f ct s
  | AddCryptedSaplingPaymentAddress ivk addr ct =>
    simp only [Op.run, Option.some.injEq] at h
    rw [← h]
    exact AddCryptedSaplingPaymentAddress_vMasterKey ivk addr ct s
  | AddCryptedSaplingDiversifiedAddress ivk addr path ct =>
    simp only [Op.run, Option.some.injEq] at h
    rw [← h]
    exact AddCryptedSaplingDiversifiedAddress_vMasterKey ivk addr path ct s
  | LoadCryptedSaplingSpendingKey fp ct =>
    simp only [Op.run, Option.some.injEq] at h
    rw [← h]
    exact LoadCryptedSaplingSpendingKey_vMasterKey fp ct s
  | LoadCryptedSaplingExtendedFullViewingKey fp ct =>
    simp only [Op.run, Option.some.injEq] at h
    rw [← h]
    exact LoadCryptedSaplingExtendedFullViewingKey_vMasterKey fp ct s
  | LoadCryptedSaplingPaymentAddress chash ct =>
    simp only [Op.run, Option.some.injEq] at h
    rw [← h]
    exact LoadCryptedSaplingPaymentAddress_vMasterKey chash ct s
  | LoadCryptedSaplingDiversifiedAddress chash ct =>
    simp only [Op.run, Option.some.injEq] at h
    rw [← h]
    exact LoadCryptedSaplingDiversifiedAddress_vMasterKey chash ct s

theorem Lock_MasterKeySized (s : CCryptoKeyStore E) (hI : s.MasterKeySized) :
    s.Lock.2.MasterKeySized := by
  unfold Lock
  rcases SetCrypted_cases s with h | ⟨s1, h, _⟩
  · rw [h]
    exact hI
  · rw [h]
    exact Or.inl rfl

theorem Unlock_MasterKeySized (M : Bytes) (s t : CCryptoKeyStore E) (b : Bool)
    (hI : s.MasterKeySized) (h : s.Unlock M = .returned b t) : t.MasterKeySized := by
  cases b
  · rw [Unlock_returned_false M s t h]
    unfold MasterKeySized
    rw [SetCrypted_vMasterKey]
    exact hI
  · obtain ⟨h1, h2, _⟩ := Unlock_true_length M s t h
    unfold MasterKeySized
    rw [h1]
    exact Or.inr h2

/-- Every call keeps "the stored master key is empty or has 32 bytes". -/
theorem Op.run_MasterKeySized (op : Op E) (s t : CCryptoKeyStore E)
    (h : op.run s = some t) (hI : s.MasterKeySized) : t.MasterKeySized := by
  cases hop : op.isLockOrUnlock
  · unfold MasterKeySized
    rw [Op.run_vMasterKey op s t hop h]
    exact hI
  · cases op with
    | Lock =>
      simp only [Op.run, Option.some.injEq] at h
      rw [← h]
      exact Lock_MasterKeySized s hI
    | Unlock m =>
      simp only [Op.run] at h
      split at h
      · next b t1 hu =>
        simp only [Option.some.injEq] at h
        rw [← h]
        exact Unlock_MasterKeySized m s t1 b hI hu
      · simp at h
    | _ => simp [Op.isLockOrUnlock] at hop

theorem Reachable.masterKeySized (s : CCryptoKeyStore E) (hr : Reachable s) :
    s.MasterKeySized := by
  induction hr with
  | fresh => exact Or.inl rfl
  | step op a b _ hrun ih => exact Op.run_MasterKeySized op a b hrun ih

end CCryptoKeyStore


theorem toyUnlocked_reachable : CCryptoKeyStore.Reachable toyUnlocked :=
  .step (Op.Unlock keyAA : Op toyEnv) toyLocked toyUnlocked
    (CCryptoKeyStore.ReachableCommitted.reachable toyLocked toyLocked_reachableCommitted) rfl

/-- C31: in every store reachable from a fresh store by the public operations, the
stored master key is empty or has `WALLET_CRYPTO_KEY_SIZE` (32) bytes. `Unlock`
stores a candidate only when it returns true, and then the candidate has 32
bytes and one of the examined records passed its check under it (its
`DecryptSecret` succeeded, so `SetKey` accepted the length); and no call other
than `Lock` and `Unlock` changes the master key. -/
theorem C31_master_key_empty_or_key_size {E : Env} (s : CCryptoKeyStore E)
    (hr : s.Reachable) :
    (s.vMasterKey = [] ∨ s.vMasterKey.length = WALLET_CRYPTO_KEY_SIZE) ∧
    (∀ M t, s.Unlock M = .returned true t →
      t.vMasterKey = M ∧ M.length = 32 ∧ true ∈ examinedChecks M s.SetCrypted.2) ∧
    (∀ M t, s.Unlock M = .returned false t → t.vMasterKey = s.vMasterKey) ∧
    (∀ (op : Op E) t, op.isLockOrUnlock = false → op.run s = some t →
      t.vMasterKey = s.vMasterKey) := by
  refine ⟨Reachable.masterKeySized s hr, fun M t h => Unlock_true_length M s t h,
    fun M t h => ?_, fun op t hop h => Op.run_vMasterKey op s t hop h⟩
  rw [Unlock_returned_false M s t h]
  exact SetCrypted_vMasterKey s

/-- Witness of C31: the store `toyUnlocked`, reached by `AddKeyPubKey`, `EncryptKeys`,
`Lock` and `Unlock` under `keyAA`, holds the 32-byte master key `keyAA`. -/
theorem C31_master_key_empty_or_key_size_witness :
    toyUnlocked.Reachable ∧ toyUnlocked.vMasterKey = keyAA ∧
    (toyUnlocked.vMasterKey = [] ∨ toyUnlocked.vMasterKey.length = WALLET_CRYPTO_KEY_SIZE) :=
  ⟨toyUnlocked_reachable, rfl,
    (C31_master_key_empty_or_key_size toyUnlocked toyUnlocked_reachable).1⟩

end Pirate
